import Mathlib

/-!
# CoreDNS plugin chain: geodns, healthchecker and nns

A shallow embedding of the answer-rewriting code of the `geodns` and
`healthchecker` plugins and of the name resolution of the `nns` plugin,
followed by theorems about it.

Conventions of the embedding:

* Go pointers that may be `nil` are `Option`s; a Go panic is the result `none`
  of a function returning `Option`.
* `float64` distances and coordinates are rationals: every finite `float64` is a
  rational number and the code only compares them, so the comparisons agree.
* `int` is `Int`, `uint` identifiers are `Nat` (no arithmetic is done on them).
* Library calls whose code is outside the repository (`sort.Slice`, the s2
  great-circle angle, `net.IP.String`, `net.ParseIP`, the GeoIP readers, the
  health probe, the HTTP client, the registry calls) are parameters of the
  definitions that use them.
* Go strings are Lean strings; the byte-wise functions of package `strings` are
  modelled on their characters.
-/

/-! ## DNS data (package `dns`) -/

namespace Dns

/-- A `net.IP` value: a byte slice, `none` being the `nil` slice. -/
abbrev IP := Option (List Nat)

/-- The Go expression `len(ip)` on a `net.IP`. -/
def IP.len (ip : IP) : Nat :=
  match ip with
  | none => 0
  | some bs => bs.length

/-- The bytes held by a `net.IP` (none for the `nil` slice). -/
def IP.bytes (ip : IP) : List Nat :=
  match ip with
  | none => []
  | some bs => bs

/-- Header shared by all resource records (`dns.RR_Header`). -/
structure RR_Header where
  Name : String
  Rrtype : Nat
  Class : Nat
  Ttl : Nat
deriving DecidableEq, Repr

/-- Resource records (`dns.RR`): the concrete record types the plugins build or
inspect, and `other` for every remaining type. -/
inductive RR where
  | A (Hdr : RR_Header) (A : IP)
  | AAAA (Hdr : RR_Header) (AAAA : IP)
  | TXT (Hdr : RR_Header) (Txt : List String)
  | CNAME (Hdr : RR_Header) (Target : String)
  | SOA (Hdr : RR_Header) (Ns Mbox : String) (Serial Refresh Retry Expire Minttl : Nat)
  | other (Hdr : RR_Header) (rdata : String)
deriving DecidableEq, Repr

/-- The method `Header()` of a record. -/
def RR.Header : RR → RR_Header
  | .A h _ => h
  | .AAAA h _ => h
  | .TXT h _ => h
  | .CNAME h _ => h
  | .SOA h _ _ _ _ _ _ _ => h
  | .other h _ => h

/-- Whether the dynamic type of a record is `*dns.A` or `*dns.AAAA`. -/
def RR.isAddress : RR → Bool
  | .A _ _ => true
  | .AAAA _ _ => true
  | _ => false

def TypeA : Nat := 1
def TypeAAAA : Nat := 28
def TypeCNAME : Nat := 5
def TypeSOA : Nat := 6
def TypeTXT : Nat := 16

end Dns

/-! ## Package `geodns` -/

namespace Geodns

open Dns

set_option linter.dupNamespace false

/-- The constant `maxDistance` of `filter.go`: the sentinel for an unknown distance. -/
def maxDistance : ℚ := 360

/-- Modelled from the spec: the `Location` part of `geoip2.City`, a struct of the
external GeoIP2 library. The spec's data model gives a city record a latitude and a
longitude; the struct of the library holds an accuracy radius, a metro code and a time
zone besides, and the code compares the struct as a whole. -/
structure Location where
  AccuracyRadius : Nat
  Latitude : ℚ
  Longitude : ℚ
  MetroCode : Nat
  TimeZone : String
deriving DecidableEq

/-- A point on the sphere (`s2.LatLng`), held by its latitude and longitude in degrees. -/
structure LatLng where
  Lat : ℚ
  Lng : ℚ
deriving DecidableEq

/-- The function `s2.LatLngFromDegrees` of the external s2 library. -/
def LatLngFromDegrees (lat lng : ℚ) : LatLng :=
  { Lat := lat, Lng := lng }

/-- Modelled from the spec: the `Country` part of `geoip2.City` and of
`geoip2.Country` (external GeoIP2 library), holding the country GeoName ID. -/
structure CountryRecord where
  GeoNameID : Nat
deriving DecidableEq

/-- Modelled from the spec: the city-level record `geoip2.City` of the external GeoIP2
library: country GeoName ID, latitude and longitude. -/
structure City where
  Country : CountryRecord
  Location : Location
deriving DecidableEq

/-- Modelled from the spec: the country-level record `geoip2.Country` of the external
GeoIP2 library: the country GeoName ID. -/
structure Country where
  Country : CountryRecord
deriving DecidableEq

/-- The variable `emptyLocation` of `filter.go`: a zero-valued `geoip2.City`. -/
def emptyLocation : City :=
  { Country := { GeoNameID := 0 },
    Location := { AccuracyRadius := 0, Latitude := 0, Longitude := 0, MetroCode := 0,
                  TimeZone := "" } }

/-- The struct `IPInformation` of `geoip.go`. -/
structure IPInformation where
  City : Option City
  Country : Option Country
deriving DecidableEq

/-- The struct `DistanceInfo` of `geoip.go`. -/
structure DistanceInfo where
  Distance : ℚ
  CountryMatched : Bool
deriving DecidableEq

/-- The method `IPInformation.IsEmpty` of `geoip.go`. -/
def IPInformation.IsEmpty (i : IPInformation) : Bool :=
  if i.City = none ∧ i.Country = none then
    true
  else if (match i.City with
      | some c => decide (c.Location = emptyLocation.Location)
      | none => false) = true ∧ i.Country = none then
    true
  else
    false

/-- The readers held by `db`: for each database kind either no reader is registered
(`none`) or a lookup that fails (`none`) or yields a record. -/
structure Db where
  cityReader : Option (IP → Option City)
  countryReader : Option (IP → Option Country)

/-- The method `db.IPInfo` of `geoip.go`. -/
def Db.IPInfo (db : Db) (ip : IP) : IPInformation :=
  let city : Option City :=
    match db.cityReader with
    | some cityDB => cityDB ip
    | none => none
  let country : Option Country :=
    match db.countryReader with
    | some countryDB => countryDB ip
    | none => none
  { City := city, Country := country }

/-- The function `distance` of `filter.go`. The parameter `angleDegrees ll1 ll2` stands
for `ll1.Distance(ll2).Degrees()` of the external s2 library. -/
def distance (angleDegrees : LatLng → LatLng → ℚ) (from_ to_ : Option IPInformation) :
    DistanceInfo :=
  match from_, to_ with
  | some f, some t =>
    let fromCountry : Nat := match f.City with
      | some c => c.Country.GeoNameID
      | none => 0
    let fromLocation : Location := match f.City with
      | some c => c.Location
      | none => emptyLocation.Location
    let toCountry : Nat := match t.City with
      | some c => c.Country.GeoNameID
      | none => 0
    let toLocation : Location := match t.City with
      | some c => c.Location
      | none => emptyLocation.Location
    let dist : ℚ :=
      if fromLocation ≠ emptyLocation.Location ∧ toLocation ≠ emptyLocation.Location then
        let ll1 := LatLngFromDegrees fromLocation.Latitude fromLocation.Longitude
        let ll2 := LatLngFromDegrees toLocation.Latitude toLocation.Longitude
        |angleDegrees ll1 ll2|
      else maxDistance
    let fromCountry : Nat :=
      if fromCountry = 0 then
        match f.Country with
        | some c => c.Country.GeoNameID
        | none => fromCountry
      else fromCountry
    let toCountry : Nat :=
      if toCountry = 0 then
        match t.Country with
        | some c => c.Country.GeoNameID
        | none => toCountry
      else toCountry
    { Distance := dist, CountryMatched := decide (fromCountry = toCountry) }
  | _, _ => { Distance := maxDistance, CountryMatched := false }

/-- The struct `recordInfo` of `filter.go` (`distanceInfo` is never `nil` where it is
built, so it is held by value). -/
structure recordInfo where
  endpoint : String
  record : RR
  distanceInfo : DistanceInfo
deriving DecidableEq

/-- The comparison closure handed to `sort.Slice` in `chooseClosest`. -/
def closerLess (x y : recordInfo) : Bool :=
  let di1 := x.distanceInfo
  let di2 := y.distanceInfo
  if di1.Distance = maxDistance ∧ di2.Distance = maxDistance then
    di1.CountryMatched
  else
    decide (di1.Distance < di2.Distance)

/-- The loop of `chooseClosest` that copies `recInfos[i].record` for `i < max` into
`results`; an index outside the slice is a panic. -/
def copyRecords : List recordInfo → Nat → Option (List RR)
  | _, 0 => some []
  | [], _ + 1 => none
  | r :: rs, n + 1 => (copyRecords rs n).map (fun res => r.record :: res)

/-- The function `chooseClosest` of `filter.go`. `sortSlice less xs` stands for the
contents of the slice after `sort.Slice(xs, less)`; `make` with a negative length
panics. -/
def chooseClosest (sortSlice : (recordInfo → recordInfo → Bool) → List recordInfo → List recordInfo)
    (recInfos : List recordInfo) (max : Int) : Option (List RR) :=
  let max : Int := if (recInfos.length : Int) < max then (recInfos.length : Int) else max
  let recInfos := sortSlice closerLess recInfos
  if max < 0 then none
  else copyRecords recInfos max.toNat

/-- The function `getEndpointFromRecord` of `filter.go`; `ipString` stands for
`net.IP.String`. -/
def getEndpointFromRecord (ipString : IP → String) (record : RR) : String :=
  match record with
  | .A _ a => ipString a
  | .AAAA _ aaaa => ipString aaaa
  | _ => ""

/-- The function `isSupportedType` of `filter.go`. -/
def isSupportedType (qtype : Nat) : Bool :=
  qtype == TypeA || qtype == TypeAAAA

/-- The library functions the response filter calls. -/
structure Lib where
  sortSlice : (recordInfo → recordInfo → Bool) → List recordInfo → List recordInfo
  angleDegrees : LatLng → LatLng → ℚ
  ipString : IP → String
  parseIP : String → IP

/-- The record-info list built by the loop of `ResponseFilter.WriteMsg`. -/
def buildRecInfos (lib : Lib) (db : Db) (clientInf : IPInformation) (answer : List RR) :
    List recordInfo :=
  answer.filterMap fun rec =>
    let endpoint := getEndpointFromRecord lib.ipString rec
    if endpoint = "" then none
    else
      let serverInf := db.IPInfo (lib.parseIP endpoint)
      let distInfo : DistanceInfo :=
        if serverInf.IsEmpty then { Distance := maxDistance, CountryMatched := false }
        else distance lib.angleDegrees (some clientInf) (some serverInf)
      some { endpoint := endpoint, record := rec, distanceInfo := distInfo }

/-- The method `ResponseFilter.WriteMsg` of `filter.go`: the answer section handed to the
underlying writer, for a filter with database `db` and limit `maxRecords`, the client
address `client` and the upstream answer `answer`. A slice expression with a negative
bound panics. -/
def WriteMsg (lib : Lib) (db : Db) (maxRecords : Int) (client : IP) (answer : List RR) :
    Option (List RR) :=
  if answer.length = 0 then some answer
  else
    let clientInf := db.IPInfo client
    if clientInf.IsEmpty then
      if maxRecords < (answer.length : Int) then
        if maxRecords < 0 then none else some (answer.take maxRecords.toNat)
      else some answer
    else
      chooseClosest lib.sortSlice (buildRecInfos lib db clientInf answer) maxRecords

end Geodns

/-! ### `GeoDNS.ServeDNS` -/

namespace Geodns

open Dns

/-- The dynamic type of the value returned by `w.RemoteAddr()`. -/
inductive Addr where
  | UDPAddr (IP : IP)
  | TCPAddr (IP : IP)
  | other
deriving DecidableEq

/-- The options of an OPT record (`dns.EDNS0`): the client-subnet option and every other
kind of option. -/
inductive EDNS0 where
  | SUBNET (Family SourceNetmask SourceScope : Nat) (Address : IP)
  | other (code : Nat)
deriving DecidableEq

/-- The parts of a request `*dns.Msg` that `ServeDNS` reads: the question types and the
option list of the OPT record returned by `r.IsEdns0()` (`none` when there is none). -/
structure Msg where
  Question : List Nat
  IsEdns0 : Option (List EDNS0)

/-- What `ServeDNS` hands to the next handler: the writer it was given, or a
`ResponseFilter` built by `NewResponseFilter` with the given client address. -/
inductive Handoff where
  | plain
  | filter (client : IP)
deriving DecidableEq

/-- The address `realIP` computed by `ServeDNS`: a copy of the peer address for a UDP or
TCP peer, `nil` otherwise. -/
def realIP (remote : Addr) : IP :=
  match remote with
  | .UDPAddr ip => some ip.bytes
  | .TCPAddr ip => some ip.bytes
  | .other => none

/-- The loop of `ServeDNS` over the options of the OPT record, updating `ip`. -/
def scanOptions (ip : IP) : List EDNS0 → IP
  | [] => ip
  | .SUBNET _ _ _ address :: rest =>
    if address ≠ none then scanOptions address rest else scanOptions ip rest
  | .other _ :: rest => scanOptions ip rest

/-- The method `GeoDNS.ServeDNS` of `geodns.go`, up to the call of the next handler;
indexing an empty question section panics. -/
def ServeDNS (remote : Addr) (r : Msg) : Option Handoff :=
  match r.Question with
  | [] => none
  | qtype :: _ =>
    if !isSupportedType qtype then some .plain
    else
      let realIP := realIP remote
      let ip : IP :=
        match r.IsEdns0 with
        | some option => scanOptions none option
        | none => none
      let ip := if ip.len = 0 then realIP else ip
      some (.filter ip)

/-! ### Statements of the geodns properties in the words of the specification -/

/-- A side "has a location" in the words of the specification: it is not `nil`, it has a
city record, and the latitude and longitude of that record are not both zero. -/
def hasLocation (i : Option IPInformation) : Bool :=
  match i with
  | none => false
  | some inf =>
    match inf.City with
    | none => false
    | some c => !(c.Location.Latitude == 0 && c.Location.Longitude == 0)

/-- A location is zero-valued: each of its fields has the zero value of its type. -/
def Location.isZero (l : Location) : Bool :=
  l.AccuracyRadius == 0 && l.Latitude == 0 && l.Longitude == 0 && l.MetroCode == 0 &&
    l.TimeZone == ""

/-- A side has a recorded location: it is not `nil`, it has a city record, and the
location of that record is not zero-valued. -/
def hasRecordedLocation (i : Option IPInformation) : Bool :=
  match i with
  | none => false
  | some inf =>
    match inf.City with
    | none => false
    | some c => !c.Location.isZero

/-- The point of a side: latitude and longitude of its city record (zero when there is
none). -/
def pointOf (i : Option IPInformation) : LatLng :=
  match i with
  | some { City := some c, .. } => LatLngFromDegrees c.Location.Latitude c.Location.Longitude
  | _ => LatLngFromDegrees 0 0

/-- The country GeoName ID of a side: the one of its city record if that record is
present and the ID is non-zero, otherwise the one of its country record if present,
otherwise 0. -/
def countryID (i : IPInformation) : Nat :=
  match i.City, i.Country with
  | some c, some k => if c.Country.GeoNameID ≠ 0 then c.Country.GeoNameID else k.Country.GeoNameID
  | some c, none => if c.Country.GeoNameID ≠ 0 then c.Country.GeoNameID else 0
  | none, some k => k.Country.GeoNameID
  | none, none => 0

/-- A record-info has a known distance when its distance is not the sentinel. -/
def known (r : recordInfo) : Prop := r.distanceInfo.Distance ≠ maxDistance

/-- A record-info carries the sentinel distance. -/
def sentinel (r : recordInfo) : Prop := r.distanceInfo.Distance = maxDistance

instance : DecidablePred known := fun r =>
  inferInstanceAs (Decidable (r.distanceInfo.Distance ≠ maxDistance))

instance : DecidablePred sentinel := fun r =>
  inferInstanceAs (Decidable (r.distanceInfo.Distance = maxDistance))

/-- In a list of record-infos, every one with a known distance stands before every one
with the sentinel distance. -/
def KnownBeforeSentinel (l : List recordInfo) : Prop :=
  l.Pairwise (fun x y => ¬ (sentinel x ∧ known y))

instance (l : List recordInfo) : Decidable (KnownBeforeSentinel l) :=
  inferInstanceAs (Decidable (l.Pairwise (fun x y => ¬ (sentinel x ∧ known y))))

/-- The record-infos whose records `chooseClosest` returns, in order: the leading
`min max len` elements of the slice after `sort.Slice`. -/
def selected (sortSlice : (recordInfo → recordInfo → Bool) → List recordInfo → List recordInfo)
    (recInfos : List recordInfo) (max : Int) : List recordInfo :=
  (sortSlice closerLess recInfos).take (min max.toNat recInfos.length)

/-- The address of an option if it is a client-subnet option whose address is not
`nil`. -/
def nonNilSubnetAddress : EDNS0 → Option IP
  | .SUBNET _ _ _ address => if address ≠ none then some address else none
  | .other _ => none

/-- The addresses of the client-subnet options of a request that are not `nil`, in
order. -/
def subnetAddresses (r : Msg) : List IP :=
  match r.IsEdns0 with
  | none => []
  | some option => option.filterMap nonNilSubnetAddress

end Geodns

/-! ## `sort.Slice` (Go standard library) -/

namespace GoSort

variable {α : Type}

/-- The requirement Go's `sort` package puts on `Less`: it describes a transitive
ordering, that is, `Less` is transitive and so is its negation. -/
def LessTransitive (less : α → α → Bool) : Prop :=
  (∀ x y z, less x y = true → less y z = true → less x z = true) ∧
  (∀ x y z, less x y = false → less y z = false → less x z = false)

/-- By `less`, `a` must sort before `b` and `b` must not sort before `a`. -/
def MustPrecede (less : α → α → Bool) (a b : α) : Prop :=
  less a b = true ∧ less b a = false

/-- What is assumed of `sort.Slice`: it permutes the slice, and for a `less` that meets
the package's requirement no element is left behind one that must sort after it. For an
asymmetric `less` the second part is the usual "no later element is less than an earlier
one". -/
structure SortSliceContract (sortSlice : (α → α → Bool) → List α → List α) : Prop where
  perm : ∀ less xs, (sortSlice less xs).Perm xs
  ordered : ∀ less xs, LessTransitive less →
    (sortSlice less xs).Pairwise (fun a b => ¬ MustPrecede less b a)

/-- The inner loop of `insertionSortLessFunc`: the element `x` at index `j` is swapped
towards the front while `Less(j, j-1)`. The elements before it are listed from index
`j-1` down to the start. -/
def sinkLeft (less : α → α → Bool) (x : α) : List α → List α
  | [] => [x]
  | p :: ps => if less x p then p :: sinkLeft less x ps else x :: p :: ps

/-- The routine `insertionSortLessFunc` of Go's `sort` package, which `sort.Slice` runs on
slices of at most 12 elements: each element in turn is sunk into the part before it. -/
def insertionSortLessFunc (less : α → α → Bool) (xs : List α) : List α :=
  (xs.foldl (fun sortedRev x => sinkLeft less x sortedRev) []).reverse

end GoSort

/-! ## Package `healthchecker` -/

namespace Healthchecker

open Dns

/-- The effects `HealthCheckFilter` has on the outside world, recorded in the order in
which they happen. -/
inductive Event where
  | check (endpoint : String)
  | cacheGet (key : String)
  | cacheAdd (key : String)
  | closeQuit (quit : Nat)
  | startLoop (endpoint : String) (quit : Nat)
deriving DecidableEq

/-- The interface `Checker`: the outcome of a probe may depend on what happened before
it. -/
structure Checker where
  Check : List Event → String → Bool

/-- The interface `Filter` with its two implementations: `SimpleMatchFilter` and
`RegexpFilter` (the compiled expression is given by its `MatchString`). -/
inductive Filter where
  | SimpleMatchFilter (f : String)
  | RegexpFilter (MatchString : String → Bool)

/-- The methods `SimpleMatchFilter.Match` and `RegexpFilter.Match` of `filter.go`. -/
def Filter.Match (f : Filter) (rec : String) : Bool :=
  match f with
  | .SimpleMatchFilter s => decide (s = rec)
  | .RegexpFilter m => m rec

/-- The struct `entry` of `filter.go`; `quit` identifies the channel. -/
structure entry where
  endpoint : String
  healthy : Bool
  quit : Nat
deriving DecidableEq

/-- The LRU cache of `github.com/hashicorp/golang-lru`: a capacity and the items from the
most recently used to the least recently used. -/
structure Cache where
  size : Nat
  items : List (String × entry)
deriving DecidableEq

/-- The method `Get` of the cache: a hit moves the item to the front. -/
def Cache.Get (c : Cache) (key : String) : Cache × Option entry :=
  match c.items.find? (fun kv => kv.1 == key) with
  | some kv => ({ c with items := kv :: c.items.filter (fun kv => !(kv.1 == key)) }, some kv.2)
  | none => (c, none)

/-- The method `Peek` of the cache: a lookup that does not touch the order. -/
def Cache.Peek (c : Cache) (key : String) : Option entry :=
  (c.items.find? (fun kv => kv.1 == key)).map (fun kv => kv.2)

/-- The method `Add` of the cache: an existing key is moved to the front with the new
value; a new key is pushed to the front and, when the capacity is exceeded, the oldest
item is removed and returned (the eviction hook is run on it). -/
def Cache.Add (c : Cache) (key : String) (value : entry) : Cache × Option entry :=
  if c.items.any (fun kv => kv.1 == key) then
    ({ c with items := (key, value) :: c.items.filter (fun kv => !(kv.1 == key)) }, none)
  else
    let items := (key, value) :: c.items
    if items.length > c.size then
      ({ c with items := items.dropLast }, (items.getLast?).map (fun kv => kv.2))
    else
      ({ c with items := items }, none)

/-- The struct `HealthCheckFilter` of `filter.go`, together with the record `trace` of the
effects performed so far (most recent last). -/
structure HealthCheckFilter where
  cache : Cache
  checker : Checker
  interval : Int
  filters : List Filter
  trace : List Event

/-- The function `NewHealthCheckFilter` of `filter.go`; `lru.NewWithEvict` fails when the
size is not positive. -/
def NewHealthCheckFilter (checker : Checker) (size : Int) (interval : Int)
    (filters : List Filter) : Except String HealthCheckFilter :=
  if filters.length = 0 then
    .error "filters must not be empty"
  else if size ≤ 0 then
    .error "must provide a positive size"
  else
    .ok { cache := { size := size.toNat, items := [] }, checker := checker,
          interval := interval, filters := filters, trace := [] }

/-- The function `getEndpoint` of `filter.go`; `ipString` stands for `net.IP.String`. -/
def getEndpoint (ipString : IP → String) (record : RR) : Except String String :=
  match record with
  | .A _ a => .ok (ipString a)
  | .AAAA _ aaaa => .ok (ipString aaaa)
  | _ => .error "not supported record type"

/-- The function `matchFilters` of `filter.go`. -/
def matchFilters : List Filter → String → Bool
  | [], _ => false
  | filter :: rest, record => if filter.Match record then true else matchFilters rest record

/-- The method `HealthCheckFilter.get` of `filter.go`. -/
def HealthCheckFilter.get (p : HealthCheckFilter) (key : String) :
    HealthCheckFilter × Option entry :=
  let (cache, val) := p.cache.Get key
  ({ p with cache := cache, trace := p.trace ++ [.cacheGet key] }, val)

/-- The eviction hook handed to `lru.NewWithEvict` in `NewHealthCheckFilter`, run on the
entry that `Add` evicts, if any: it closes the quit channel of the entry. -/
def onEvict (evicted : Option entry) : List Event :=
  match evicted with
  | some e => [.closeQuit e.quit]
  | none => []

/-- The method `HealthCheckFilter.put` of `filter.go`: a synchronous probe, a new entry
with a fresh quit channel added to the cache (the eviction hook closes the quit channel of
an evicted entry), the creation of the ticker and the start of the probe loop of the new
entry. `time.NewTicker` panics for an interval that is not positive: the result `none`. -/
def HealthCheckFilter.put (p : HealthCheckFilter) (endpoint : String) :
    Option HealthCheckFilter :=
  let health := p.checker.Check p.trace endpoint
  let quit := p.trace.length
  let record : entry := { endpoint := endpoint, healthy := health, quit := quit }
  let (cache, evicted) := p.cache.Add endpoint record
  let hook : List Event := onEvict evicted
  if p.interval ≤ 0 then none
  else
    some { p with
      cache := cache,
      trace := p.trace ++ [.check endpoint, .cacheAdd endpoint] ++ hook ++
        [.startLoop endpoint quit] }

/-- The body of the loop of `FilterRecords` for one record: the filter afterwards and the
record appended to `result`, if any; `none` when `put` panics. -/
def filterRecord (ipString : IP → String) (p : HealthCheckFilter) (r : RR) :
    Option (HealthCheckFilter × Option RR) :=
  if matchFilters p.filters r.Header.Name then
    match getEndpoint ipString r with
    | .error _ => some (p, none)
    | .ok endpoint =>
      match p.get endpoint with
      | (p, some e) => if e.healthy then some (p, some r) else some (p, none)
      | (p, none) =>
        match p.put endpoint with
        | some p => some (p, some r)
        | none => none
  else
    some (p, some r)

/-- The method `HealthCheckFilter.FilterRecords` of `filter.go`: the filter afterwards and
the returned records; `none` when `put` panics. -/
def FilterRecords (ipString : IP → String) (p : HealthCheckFilter) :
    List RR → Option (HealthCheckFilter × List RR)
  | [] => some (p, [])
  | r :: records =>
    match filterRecord ipString p r with
    | none => none
    | some (p, some r) =>
      match FilterRecords ipString p records with
      | some (p, result) => some (p, r :: result)
      | none => none
    | some (p, none) => FilterRecords ipString p records

end Healthchecker

/-! ## Live probe loops (package `healthchecker`) -/

namespace Healthchecker

/-- The quit channels that the eviction hook has closed so far. -/
def closedQuits (trace : List Event) : List Nat :=
  trace.filterMap fun
    | .closeQuit quit => some quit
    | _ => none

/-- The live probe loops for an endpoint, each given by its quit channel: the loops
started by `put` for the endpoint whose quit channel has not been closed, provided that a
lookup of the endpoint in the cache (the `Peek` of the loop) still succeeds. -/
def liveLoops (p : HealthCheckFilter) (endpoint : String) : List Nat :=
  if (p.cache.Peek endpoint).isSome then
    p.trace.filterMap fun
      | .startLoop e quit =>
        if e = endpoint ∧ quit ∉ closedQuits p.trace then some quit else none
      | _ => none
  else []

end Healthchecker

/-! ## Go's `strings` and `net` helpers used by the plugins -/

namespace Strings

/-- The function `strings.HasSuffix`:
`len(s) >= len(suffix) && s[len(s)-len(suffix):] == suffix`. -/
def HasSuffix (s suffix : String) : Bool :=
  decide (suffix.data.length ≤ s.data.length) &&
    decide (s.data.drop (s.data.length - suffix.data.length) = suffix.data)

/-- The function `strings.TrimSuffix`: `s[:len(s)-len(suffix)]` if `s` has the suffix,
`s` otherwise. -/
def TrimSuffix (s suffix : String) : String :=
  if HasSuffix s suffix then ⟨s.data.take (s.data.length - suffix.data.length)⟩ else s

/-- The function `net.JoinHostPort`: a host containing a colon is put in brackets. -/
def JoinHostPort (host port : String) : String :=
  if ':' ∈ host.data then "[" ++ host ++ "]:" ++ port else host ++ ":" ++ port

end Strings

/-! ## Package `checkers` -/

namespace Checkers

open Strings

/-- The part of `*http.Response` that the checker reads. -/
structure Response where
  StatusCode : Int
deriving DecidableEq

/-- The `http.Client` built by `NewHttpChecker`: its timeout (in nanoseconds) and its
redirect policy, `CheckRedirect` answering `http.ErrUseLastResponse` (redirects are not
followed, the redirect response itself is returned). -/
structure Client where
  Timeout : Int
  useLastResponse : Bool
deriving DecidableEq

/-- The struct `HttpChecker` of `http.go` (without its logger). -/
structure HttpChecker where
  client : Client
  port : String
  scheme : String
deriving DecidableEq

/-- The struct `HTTPCheckerParams` of `http.go`. -/
structure HTTPCheckerParams where
  Port : String
  Timeout : Int
  Scheme : String
deriving DecidableEq

def defaultHTTPScheme : String := "http"
def defaultHTTPPort : String := "80"

/-- The constant `defaultHTTPTimeout`: `2 * time.Second`, in nanoseconds. -/
def defaultHTTPTimeout : Int := 2 * 1000000000

/-- The constant `http.StatusInternalServerError`. -/
def StatusInternalServerError : Int := 500

/-- The function `NewHttpChecker` of `http.go`. -/
def NewHttpChecker (prm : HTTPCheckerParams) : Except String HttpChecker :=
  let prm := if prm.Timeout ≤ 0 then { prm with Timeout := defaultHTTPTimeout } else prm
  let prm := if prm.Port.length = 0 then { prm with Port := defaultHTTPPort } else prm
  let prm := if prm.Scheme.length = 0 then { prm with Scheme := defaultHTTPScheme } else prm
  .ok { client := { Timeout := prm.Timeout, useLastResponse := true },
        port := prm.Port, scheme := prm.Scheme }

/-- The method `HttpChecker.Check` of `http.go`. The parameter `get client url` stands
for the outcome of `client.Get(url)`: a response, or an error (transport failure or
timeout). -/
def HttpChecker.Check (get : Client → String → Except String Response) (h : HttpChecker)
    (endpoint : String) : Bool :=
  match get h.client (h.scheme ++ "://" ++ JoinHostPort endpoint h.port) with
  | .error _ => false
  | .ok response => decide (response.StatusCode < StatusInternalServerError)

/-- The loop of `isIPv4` over the characters of the string. -/
def isIPv4Scan : List Char → Bool
  | [] => false
  | c :: rest => if c = '.' then true else if c = ':' then false else isIPv4Scan rest

/-- The function `isIPv4` of `icmp.go`. -/
def isIPv4 (str : String) : Bool :=
  isIPv4Scan str.data

end Checkers

/-! ## Package `contract` (registry contracts of the `nns` plugin) -/

namespace NnsContract

open Strings

/-- The type `nns.RecordType` of the registry contract package: a byte. -/
abbrev RecordType := Nat

/-- The record types of the registry contract package; their values are those of the DNS
types of the same name. -/
def RecordType.A : RecordType := 1
def RecordType.CNAME : RecordType := 5
def RecordType.SOA : RecordType := 6
def RecordType.TXT : RecordType := 16
def RecordType.AAAA : RecordType := 28

/-- The struct `Record` of `contract.go` (`Type_` is its field `Type`). -/
structure Record where
  Name : String
  Type_ : RecordType
  Data : String
deriving DecidableEq

/-- The struct `Contract` of `contract.go`: the configured NNS domain, and the outcome of
the remote calls made by the methods `Resolve`, `GetRecords` and `GetAllRecords`. -/
structure Contract where
  contractHash : Nat
  nnsDomain : String
  Resolve : String → RecordType → Except String (List String)
  GetRecords : String → RecordType → Except String (List String)
  GetAllRecords : String → Except String (List Record)

/-- The constant `dot`. -/
def dot : String := "."

/-- The method `Contract.PrepareName` of `contract.go`. -/
def Contract.PrepareName (c : Contract) (name dnsDomain : String) : String :=
  let name := TrimSuffix name dot
  if c.nnsDomain ≠ "" then
    let name := TrimSuffix (TrimSuffix name dnsDomain) dot
    let name := if name ≠ "" then name ++ dot else name
    name ++ c.nnsDomain
  else
    name

/-! ### The prepared name in the words of the specification -/

/-- A text with one trailing dot removed. -/
def withoutTrailingDot (s : List Char) : List Char :=
  if s.getLast? = some '.' then s.dropLast else s

/-- A text with a trailing `suffix` removed, if it ends with it. -/
def withoutTrailing (suffix s : List Char) : List Char :=
  match s.reverse.dropPrefix? suffix.reverse with
  | some rest => rest.reverse
  | none => s

/-- The prepared form of the query name `q` for the DNS suffix `D` and the NNS suffix
`N`, as the specification words it. -/
def preparedName (N q D : String) : String :=
  if N = "" then
    ⟨withoutTrailingDot q.data⟩
  else
    let r := withoutTrailingDot (withoutTrailing D.data (withoutTrailingDot q.data))
    if r = [] then N else ⟨r ++ '.' :: N.data⟩

end NnsContract

/-! ## Package `nns` -/

namespace Nns

open Dns NnsContract

/-- The parts of `request.Request` that the plugin reads. -/
structure Request where
  QName : String
  QType : Nat
  QClass : Nat
deriving DecidableEq

/-- The struct `NNS` of `nns.go` (without its logger and next handler). -/
structure NNS where
  Contracts : List Contract
  dnsDomain : String

/-- The function `getNNSType` of `nns.go`. -/
def getNNSType (req : Request) : Except String RecordType :=
  if req.QType = TypeTXT then .ok RecordType.TXT
  else if req.QType = TypeA then .ok RecordType.A
  else if req.QType = TypeAAAA then .ok RecordType.AAAA
  else if req.QType = TypeCNAME then .ok RecordType.CNAME
  else .error "usupported record type"

/-- The function `formRec` of `nns.go`; `parseIP` stands for `net.ParseIP`. -/
def formRec (parseIP : String → IP) (reqType : Nat) (res : String) (hdr : RR_Header) :
    Except String RR :=
  if reqType = TypeTXT then .ok (.TXT hdr [res])
  else if reqType = TypeA then .ok (.A hdr (parseIP res))
  else if reqType = TypeAAAA then .ok (.AAAA hdr (parseIP res))
  else if reqType = TypeCNAME then .ok (.CNAME hdr res)
  else .error "usupported record type"

/-- The function `formResRecords` of `nns.go`. -/
def formResRecords (parseIP : String → IP) (hdr : RR_Header) :
    List String → Except String (List RR)
  | [] => .ok []
  | record :: resolved =>
    match formRec parseIP hdr.Rrtype record hdr with
    | .error err => .error err
    | .ok rec =>
      match formResRecords parseIP hdr resolved with
      | .error err => .error err
      | .ok records => .ok (rec :: records)

/-- The method `NNS.resolveContractRecords` of `nns.go`. -/
def NNS.resolveContractRecords (parseIP : String → IP) (n : NNS) (nnsContract : Contract)
    (state : Request) : Except String (List RR) :=
  let name := nnsContract.PrepareName state.QName n.dnsDomain
  match getNNSType state with
  | .error err => .error ("cannot resolve: " ++ err)
  | .ok nnsType =>
    match nnsContract.Resolve name nnsType with
    | .error err => .error ("cannot resolve: " ++ err)
    | .ok resolved =>
      let hdr : RR_Header :=
        { Name := state.QName, Rrtype := state.QType, Class := state.QClass, Ttl := 0 }
      match formResRecords parseIP hdr resolved with
      | .error err => .error ("cannot resolve: " ++ err)
      | .ok res => .ok res

/-- The record built from one resolved string for a query header: the header is kept and
the data depends on the type of the query. -/
def recordFor (parseIP : String → IP) (hdr : RR_Header) (res : String) : RR :=
  if hdr.Rrtype = TypeA then .A hdr (parseIP res)
  else if hdr.Rrtype = TypeAAAA then .AAAA hdr (parseIP res)
  else if hdr.Rrtype = TypeTXT then .TXT hdr [res]
  else .CNAME hdr res

end Nns

/-! ## Go's `strings` and `strconv` helpers used by the zone transfer -/

namespace Strings

/-- The fields of a text split at every occurrence of the separator character. -/
def splitChars (sep : Char) : List Char → List (List Char)
  | [] => [[]]
  | c :: rest =>
    if c = sep then [] :: splitChars sep rest
    else
      match splitChars sep rest with
      | field :: fields => (c :: field) :: fields
      | [] => [[c]]

/-- The function `strings.Split` for a separator of one character. -/
def Split (s : String) (sep : Char) : List String :=
  (splitChars sep s.data).map String.mk

/-- The function `strings.ReplaceAll` for one character replaced by another. -/
def ReplaceAll (s : String) (old new : Char) : String :=
  ⟨s.data.map fun c => if c = old then new else c⟩

/-- The decimal digits of a number, most significant first; the first argument bounds the
number of digits. -/
def itoaDigits : Nat → Nat → List Char
  | 0, _ => []
  | fuel + 1, n =>
    if n < 10 then [Nat.digitChar n]
    else itoaDigits fuel (n / 10) ++ [Nat.digitChar (n % 10)]

/-- The function `strconv.Itoa` on a number that is not negative. -/
def Itoa (n : Nat) : String :=
  ⟨itoaDigits (n + 1) n⟩

/-- The value of a text of decimal digits. -/
def decimalValue (digits : List Char) : Nat :=
  digits.foldl (fun acc c => 10 * acc + (c.toNat - '0'.toNat)) 0

/-- The call `strconv.ParseUint(s, 10, 32)`: a non-empty text of decimal digits whose
value is below `2^32` is accepted, everything else is an error. -/
def ParseUint32 (s : String) : Except String Nat :=
  if s.data = [] then .error "invalid syntax"
  else if s.data.all Char.isDigit then
    if decimalValue s.data < 2 ^ 32 then .ok (decimalValue s.data)
    else .error "value out of range"
  else .error "invalid syntax"

end Strings

/-! ## Package `nns`: resolution over the contracts and zone transfer -/

namespace Nns

open Dns NnsContract Strings

/-- The constants `dns.ClassINET` and `dns.RcodeSuccess`. -/
def ClassINET : Nat := 1
def RcodeSuccess : Nat := 0

/-- The struct `Records` of `nns.go` (`Type_` is its field `Type`). -/
structure Records where
  Name : String
  Type_ : RecordType
  Data : List String
deriving DecidableEq

/-- A Go map `map[string]*Records`: its entries, with distinct keys, in the order in which
a `range` loop visits them. -/
abbrev RecordsMap := List (String × Records)

/-- The map lookup `m[key]` (`none` for the `nil` entry of a missing key). -/
def RecordsMap.lookup (m : RecordsMap) (key : String) : Option Records :=
  List.lookup key m

/-- The map update `m[key] = recs`. -/
def RecordsMap.store : RecordsMap → String → Records → RecordsMap
  | [], key, recs => [(key, recs)]
  | (k, v) :: rest, key, recs =>
    if k = key then (key, recs) :: rest else (k, v) :: RecordsMap.store rest key recs

/-- The loop of `resolveRecords`: every contract's outcome replaces the running result,
the `nil` result of a failed resolution included. -/
def NNS.resolveLoop (parseIP : String → IP) (n : NNS) (state : Request) :
    List Contract → List RR → List RR
  | [], result => result
  | nnsContract :: rest, _ =>
    match n.resolveContractRecords parseIP nnsContract state with
    | .ok result => NNS.resolveLoop parseIP n state rest result
    | .error _ => NNS.resolveLoop parseIP n state rest []

/-- The method `NNS.resolveRecords` of `nns.go`. -/
def NNS.resolveRecords (parseIP : String → IP) (n : NNS) (state : Request) :
    Except String (List RR) :=
  .ok (NNS.resolveLoop parseIP n state n.Contracts [])

/-- What `NNS.ServeDNS` does with a request: it hands it to the next handler and returns
that handler's result, or it writes a reply with the given answer section and returns the
given code. -/
inductive Served where
  | next
  | reply (Answer : List RR) (rcode : Nat)
deriving DecidableEq

/-- The method `NNS.ServeDNS` of `nns.go`. -/
def NNS.ServeDNS (parseIP : String → IP) (n : NNS) (state : Request) : Served :=
  match n.resolveRecords parseIP state with
  | .error _ => .next
  | .ok res => .reply res RcodeSuccess

/-- The function `appendRoot` of `nns.go`. -/
def appendRoot (data : String) : String :=
  if 0 < data.data.length ∧ data.data.getLast? ≠ some '.' then data ++ "." else data

/-- The function `parseUint32` of `nns.go`. -/
def parseUint32 (data : String) : Except String Nat :=
  match ParseUint32 data with
  | .error err => .error err
  | .ok parsed => .ok parsed

/-- The function `recKey` of `nns.go`. -/
def recKey (name : String) (recType : RecordType) : String :=
  name ++ Itoa recType

/-- The function `formSoaRecord` of `nns.go`. -/
def formSoaRecord (rec : Records) : Except String RR :=
  if rec.Type_ ≠ RecordType.SOA then .error "invalid type for soa record"
  else
    match rec.Data with
    | [data] =>
      match Split data ' ' with
      | [f0, f1, f2, f3, f4, f5, f6] =>
        let name := appendRoot f0
        if rec.Name ≠ name then .error "invalid soa record, mismatched names"
        else
          let lenSerial := if f2.data.length > 10 then 10 else f2.data.length
          match parseUint32 ⟨f2.data.take lenSerial⟩ with
          | .error _ => .error "invalid soa record, invalid serial"
          | .ok serial =>
            match parseUint32 f3 with
            | .error _ => .error "invalid soa record, invalid refresh"
            | .ok refresh =>
              match parseUint32 f4 with
              | .error _ => .error "invalid soa record, invalid retry"
              | .ok retry =>
                match parseUint32 f5 with
                | .error _ => .error "invalid soa record, invalid expire"
                | .ok expire =>
                  match parseUint32 f6 with
                  | .error _ => .error "invalid soa record, invalid ttl"
                  | .ok ttl =>
                    .ok (.SOA { Name := name, Rrtype := TypeSOA, Class := ClassINET, Ttl := ttl }
                      name (ReplaceAll (appendRoot f1) '@' '.') serial refresh retry expire ttl)
      | _ => .error "invalid soa record"
    | _ => .error "invalid len for soa record"

/-- The comparison closure handed to `sort.Slice` in `formZoneTransfer`. -/
def recordsLess (a b : Records) : Bool :=
  if a.Name = b.Name then decide (a.Type_ < b.Type_) else decide (a.Name < b.Name)

/-- The inner loop of `formZoneTransfer` over the data strings of one entry: the records
appended to `results`, or the error of `formRec`. -/
def formDataRecords (parseIP : String → IP) (recs : Records) :
    List String → Except String (List RR)
  | [] => .ok []
  | data :: rest =>
    match formRec parseIP recs.Type_ data
        { Name := recs.Name, Rrtype := recs.Type_, Class := ClassINET, Ttl := 0 } with
    | .error err => .error err
    | .ok rec =>
      match formDataRecords parseIP recs rest with
      | .error err => .error err
      | .ok records => .ok (rec :: records)

/-- The outer loop of `formZoneTransfer` over the sorted entries, carrying `soaRecord`
(`none` while it is `nil`) and the records appended to `results` after its first slot. -/
def zoneLoop (parseIP : String → IP) :
    List Records → Option RR → List RR → Except String (Option RR × List RR)
  | [], soaRecord, results => .ok (soaRecord, results)
  | recs :: rest, soaRecord, results =>
    if recs.Type_ = RecordType.SOA then
      match formSoaRecord recs with
      | .error err => .error err
      | .ok soa => zoneLoop parseIP rest (some soa) results
    else
      match formDataRecords parseIP recs recs.Data with
      | .error err => .error err
      | .ok records => zoneLoop parseIP rest soaRecord (results ++ records)

/-- The function `formZoneTransfer` of `nns.go`. An element `none` of the result is a
`nil` pointer `*dns.SOA` stored in the slice. `sortSlice less xs` stands for the contents of
the slice after `sort.Slice(xs, less)`. -/
def formZoneTransfer (sortSlice : (Records → Records → Bool) → List Records → List Records)
    (parseIP : String → IP) (recordsMap : RecordsMap) : Except String (List (Option RR)) :=
  if recordsMap.length = 0 then .error "records must not be empty"
  else
    let records := sortSlice recordsLess (recordsMap.map fun kv => kv.2)
    match zoneLoop parseIP records none [] with
    | .error err => .error err
    | .ok (soaRecord, results) => .ok (soaRecord :: results.map some ++ [soaRecord])

/-- The first loop of `allTransferRecords`: the fetched records grouped by key. -/
def groupRecords : List Record → RecordsMap → RecordsMap
  | [], result => result
  | record :: records, result =>
    let updatedName := appendRoot record.Name
    let key := recKey updatedName record.Type_
    let recs : Records :=
      match RecordsMap.lookup result key with
      | some recs => recs
      | none => { Name := updatedName, Type_ := record.Type_, Data := [] }
    let recs := { recs with Data := recs.Data ++ [record.Data] }
    groupRecords records (RecordsMap.store result key recs)

/-- The method `NNS.allTransferRecords` of `nns.go`. The result `none` is a panic: the
dereference of the `nil` entry `soaRecs`. -/
def NNS.allTransferRecords (n : NNS) (nnsContract : Contract) (zone : String)
    (needSOA : Bool) : Option (Except String RecordsMap) :=
  let name := nnsContract.PrepareName zone n.dnsDomain
  match nnsContract.GetAllRecords name with
  | .error err => some (.error err)
  | .ok records =>
    let result := groupRecords records []
    if needSOA then
      match RecordsMap.lookup result (recKey (appendRoot name) RecordType.SOA) with
      | none => none
      | some soaRecs =>
        if soaRecs.Data.length ≠ 1 then some (.error "invalid number of soa records")
        else some (.ok result)
    else some (.ok result)

/-- The loop `for key, recs := range transferRecords { result[key] = recs }`. -/
def mergeRecords (result : RecordsMap) : RecordsMap → RecordsMap
  | [] => result
  | (key, recs) :: rest => mergeRecords (RecordsMap.store result key recs) rest

/-- The loop of `zoneTransfers` over the contracts: the merged map (`none` for a panic).
The flag tells whether the contract is the first one (`i == 0`). -/
def NNS.mergeLoop (n : NNS) (zone : String) :
    List Contract → Bool → RecordsMap → Option RecordsMap
  | [], _, result => some result
  | nnsContract :: rest, first, result =>
    match n.allTransferRecords nnsContract zone first with
    | none => none
    | some (.error _) => NNS.mergeLoop n zone rest false result
    | some (.ok transferRecords) =>
      NNS.mergeLoop n zone rest false (mergeRecords result transferRecords)

/-- The method `NNS.zoneTransfers` of `nns.go` (`none` for a panic). -/
def NNS.zoneTransfers (sortSlice : (Records → Records → Bool) → List Records → List Records)
    (parseIP : String → IP) (n : NNS) (zone : String) :
    Option (Except String (List (Option RR))) :=
  match NNS.mergeLoop n zone n.Contracts true [] with
  | none => none
  | some result => some (formZoneTransfer sortSlice parseIP result)

/-! ### Statements of the zone-transfer properties in the words of the specification -/

/-- A name is in the form that `appendRoot` returns: empty, or ending in a dot. -/
def rootForm (name : String) : Prop :=
  name = "" ∨ name.data.getLast? = some '.'

/-- A text is a base-10 unsigned 32-bit number: a non-empty text of decimal digits whose
value is below `2^32`. -/
def isUint32 (s : List Char) : Prop :=
  s ≠ [] ∧ s.all Char.isDigit = true ∧ decimalValue s < 2 ^ 32

instance : DecidablePred isUint32 := fun s =>
  inferInstanceAs (Decidable (s ≠ [] ∧ s.all Char.isDigit = true ∧ decimalValue s < 2 ^ 32))

/-- An entry is not an SOA entry. -/
def notSOA (recs : Records) : Bool :=
  !(recs.Type_ == RecordType.SOA)

/-- The order of the records of a zone transfer: by owner name and, for equal names, by
record type. -/
def nameTypeLE (x y : RR) : Prop :=
  x.Header.Name < y.Header.Name ∨
    (x.Header.Name = y.Header.Name ∧ x.Header.Rrtype ≤ y.Header.Rrtype)

end Nns

/-! ## Sample data

Concrete values in the style of the test scenarios of the repository, used to
instantiate the theorems below. -/

namespace Sample

open Dns Geodns GoSort

/-- The header of the sample answer records. -/
def hdr : RR_Header := { Name := "test.neofs.", Rrtype := TypeAAAA, Class := 1, Ttl := 0 }

def recOrgrimar : RR := .AAAA hdr (some [68, 68, 0, 1])
def recWarsongHold : RR := .AAAA hdr (some [68, 68, 0, 2])
def recStormwind : RR := .AAAA hdr (some [68, 68, 0, 3])
def recNotInDB : RR := .AAAA hdr (some [127, 0, 0, 1])
def recText : RR := .TXT hdr ["bad ip"]

/-- A sample upstream answer. -/
def answer : List RR := [recWarsongHold, recOrgrimar, recStormwind, recNotInDB]

/-- A sample client address. -/
def client : IP := some [68, 68, 0, 4]

/-- A city database that knows the addresses `68.68.0.x` and places them at latitude and
longitude `x`, in country `x`; every other address yields the zero-valued record. -/
def cityDB (ip : IP) : Option City :=
  match ip with
  | some [68, 68, 0, x] =>
    some { Country := { GeoNameID := x },
           Location := { AccuracyRadius := 0, Latitude := x, Longitude := x, MetroCode := 0,
                         TimeZone := "" } }
  | _ => some emptyLocation

/-- A city record with latitude and longitude zero and a time zone. -/
def cityTimeZone : City :=
  { Country := { GeoNameID := 1 },
    Location := { AccuracyRadius := 0, Latitude := 0, Longitude := 0, MetroCode := 0,
                  TimeZone := "Europe/Moscow" } }

/-- The city record `cityWithCountry` of `TestDistance`. -/
def cityWithCountry : City :=
  { Country := { GeoNameID := 1 },
    Location := { AccuracyRadius := 0, Latitude := 1, Longitude := 1, MetroCode := 0,
                  TimeZone := "" } }

/-- The information on an address for which only the city record `cityTimeZone` is
found, and on one for which only `cityWithCountry` is found. -/
def ipInfoTimeZone : IPInformation := { City := some cityTimeZone, Country := none }
def ipInfoCity : IPInformation := { City := some cityWithCountry, Country := none }

/-- A database registry with a city reader only. -/
def db : Db := { cityReader := some cityDB, countryReader := none }

/-- A database registry without any reader: every lookup is empty. -/
def noDb : Db := { cityReader := none, countryReader := none }

/-- Library functions for the sample data: Go's insertion sort for `sort.Slice`, the
difference of latitudes standing in for the great-circle angle, and a dotted rendering
of addresses. -/
def lib : Lib :=
  { sortSlice := insertionSortLessFunc
    angleDegrees := fun ll1 ll2 => ll1.Lat - ll2.Lat
    ipString := fun ip =>
      match ip with
      | none => "<nil>"
      | some bs => String.intercalate "." (bs.map toString)
    parseIP := fun s =>
      if s = "<nil>" then none else some ((s.splitOn ".").map (fun part => part.toNat?.getD 0)) }

/-- Record-infos with known distances 7 and 3, and with the sentinel distance with and
without a country match. -/
def infoFar : recordInfo :=
  { endpoint := "68.68.0.1", record := recOrgrimar, distanceInfo := { Distance := 7, CountryMatched := false } }
def infoNear : recordInfo :=
  { endpoint := "68.68.0.2", record := recWarsongHold, distanceInfo := { Distance := 3, CountryMatched := false } }
def infoUnknown : recordInfo :=
  { endpoint := "127.0.0.1", record := recNotInDB, distanceInfo := { Distance := 360, CountryMatched := false } }
def infoUnknownMatched : recordInfo :=
  { endpoint := "68.68.0.3", record := recStormwind, distanceInfo := { Distance := 360, CountryMatched := true } }

/-- A request for an A record carrying a client-subnet option with a non-nil address of
length zero. -/
def requestEmptySubnet : Msg :=
  { Question := [TypeA], IsEdns0 := some [.SUBNET 1 0 0 (some [])] }

/-- A request for an AAAA record carrying a client-subnet option with an address. -/
def requestSubnet : Msg :=
  { Question := [TypeAAAA], IsEdns0 := some [.other 10, .SUBNET 2 128 0 (some [42, 2, 211, 64])] }

/-- A UDP peer. -/
def peer : Addr := .UDPAddr (some [68, 68, 0, 4])

/-- A checker that always reports healthy. -/
def checker : Healthchecker.Checker := { Check := fun _ _ => true }

/-- A health-check filter with one literal filter and an empty cache of size 2. -/
def healthFilter : Healthchecker.HealthCheckFilter :=
  { cache := { size := 2, items := [] }
    checker := checker
    interval := 200
    filters := [.SimpleMatchFilter "test.neofs."]
    trace := [] }

/-- A checker that always reports unhealthy. -/
def sickChecker : Healthchecker.Checker := { Check := fun _ _ => false }

/-- The sample health-check filter with the checker that always reports unhealthy. -/
def sickFilter : Healthchecker.HealthCheckFilter :=
  { healthFilter with checker := sickChecker }

/-- A health-check filter with an empty cache of size 1 and the checker that always
reports unhealthy. -/
def smallFilter : Healthchecker.HealthCheckFilter :=
  { healthFilter with cache := { size := 1, items := [] }, checker := sickChecker }

/-- A CNAME record whose owner name is `test.neofs.`. -/
def recAlias : RR := .CNAME hdr "cdn.neofs."

/-- An address record whose owner name is matched by no sample filter. -/
def recElsewhere : RR :=
  .A { Name := "other.neofs.", Rrtype := TypeA, Class := 1, Ttl := 0 } (some [10, 0, 0, 1])

/-- A registry contract with NNS domain `container` whose calls all fail. -/
def contract : NnsContract.Contract :=
  { contractHash := 1
    nnsDomain := "container"
    Resolve := fun _ _ => .error "no such domain"
    GetRecords := fun _ _ => .error "no such domain"
    GetAllRecords := fun _ => .error "no such domain" }

/-- A registry contract without NNS domain that resolves every name to two strings. -/
def plainContract : NnsContract.Contract :=
  { contractHash := 2
    nnsDomain := ""
    Resolve := fun _ _ => .ok ["10.0.0.1", "10.0.0.2"]
    GetRecords := fun _ _ => .ok []
    GetAllRecords := fun _ => .ok [] }

/-- The plugin configured with the DNS domain of the test scenarios. -/
def nns : Nns.NNS :=
  { Contracts := [plainContract], dnsDomain := "containers.testnet.fs.neo.org" }

/-- A query for the TXT records of a name. -/
def query : Nns.Request := { QName := "netmap.neofs.", QType := TypeTXT, QClass := 3 }

/-- A query for the SOA record of a name. -/
def querySOA : Nns.Request := { QName := "neofs.", QType := TypeSOA, QClass := 1 }

/-- A network on which every request times out. -/
def deadNetwork : Checkers.Client → String → Except String Checkers.Response :=
  fun _ _ => .error "timeout"

/-- A network on which every request is answered with a redirect. -/
def redirectingNetwork : Checkers.Client → String → Except String Checkers.Response :=
  fun _ _ => .ok { StatusCode := 301 }

/-- The sample health-check filter after the endpoint `68.68.0.1` was cached as
unhealthy. -/
def coldFilter : Healthchecker.HealthCheckFilter :=
  { Sample.healthFilter with
    cache := { size := 2,
               items := [("68.68.0.1", { endpoint := "68.68.0.1", healthy := false, quit := 1 })] }
    trace := [.cacheGet "68.68.0.1", .check "68.68.0.1", .cacheAdd "68.68.0.1",
              .startLoop "68.68.0.1" 1] }

/-- The plugin configured with a contract that resolves the query followed by one whose
resolution fails. -/
def twoContracts : Nns.NNS :=
  { Contracts := [plainContract, contract], dnsDomain := "containers.testnet.fs.neo.org" }

/-- The plugin configured with one contract, whose resolution fails. -/
def failingNns : Nns.NNS :=
  { Contracts := [contract], dnsDomain := "containers.testnet.fs.neo.org" }

/-- A zone-transfer entry with one address. -/
def entryA : Nns.Records := { Name := "www.zone.", Type_ := NnsContract.RecordType.A, Data := ["10.0.0.1"] }

/-- A zone-transfer entry with two texts. -/
def entryTXT : Nns.Records :=
  { Name := "zone.", Type_ := NnsContract.RecordType.TXT, Data := ["first", "second"] }

/-- The SOA entry of the zone `zone.`. -/
def entrySOA : Nns.Records :=
  { Name := "zone.", Type_ := NnsContract.RecordType.SOA,
    Data := ["zone. admin@zone 1700000000123 3600 600 86400 300"] }

/-- An SOA entry whose serial has ten decimal digits and does not fit 32 bits. -/
def entrySOALargeSerial : Nns.Records :=
  { Name := "zone.", Type_ := NnsContract.RecordType.SOA,
    Data := ["zone. admin@zone 9999999999 3600 600 86400 300"] }

/-- An SOA entry whose serial is ten digits followed by letters. -/
def entrySOAJunkSerial : Nns.Records :=
  { Name := "zone.", Type_ := NnsContract.RecordType.SOA,
    Data := ["zone. admin@zone 1700000000xyz 3600 600 86400 300"] }

/-- A record map without SOA entry. -/
def mapWithoutSOA : Nns.RecordsMap := [("www.zone.1", entryA)]

/-- A record map with the SOA entry and two other entries. -/
def zoneMap : Nns.RecordsMap := [("www.zone.1", entryA), ("zone.6", entrySOA), ("zone.16", entryTXT)]

/-- A registry contract whose zone holds one address record and no SOA record. -/
def contractWithoutSOA : NnsContract.Contract :=
  { contractHash := 3
    nnsDomain := ""
    Resolve := fun _ _ => .ok []
    GetRecords := fun _ _ => .ok []
    GetAllRecords := fun _ =>
      .ok [{ Name := "www.zone", Type_ := NnsContract.RecordType.A, Data := "10.0.0.1" }] }

/-- A registry contract whose zone holds an SOA record, a text and an address. -/
def contractZone : NnsContract.Contract :=
  { contractHash := 4
    nnsDomain := ""
    Resolve := fun _ _ => .ok []
    GetRecords := fun _ _ => .ok []
    GetAllRecords := fun _ =>
      .ok [{ Name := "zone", Type_ := NnsContract.RecordType.SOA,
             Data := "zone. admin@zone 1700000000123 3600 600 86400 300" },
           { Name := "zone", Type_ := NnsContract.RecordType.TXT, Data := "first" },
           { Name := "www.zone", Type_ := NnsContract.RecordType.A, Data := "10.0.0.1" }] }

/-- A registry contract whose zone holds another text for `zone` and nothing else. -/
def contractOverride : NnsContract.Contract :=
  { contractHash := 5
    nnsDomain := ""
    Resolve := fun _ _ => .ok []
    GetRecords := fun _ _ => .ok []
    GetAllRecords := fun _ =>
      .ok [{ Name := "zone", Type_ := NnsContract.RecordType.TXT, Data := "other" }] }

/-- The plugin configured with the two zone contracts. -/
def zoneNns : Nns.NNS :=
  { Contracts := [contractZone, contractOverride], dnsDomain := "" }

/-- The plugin configured with a contract whose registry calls fail, followed by the
contract whose zone has no SOA record. -/
def brokenZoneNns : Nns.NNS :=
  { Contracts := [contract, contractWithoutSOA], dnsDomain := "" }

/-- A record map whose entries all have the owner name `zone.`. -/
def apexMap : Nns.RecordsMap := [("zone.16", entryTXT), ("zone.6", entrySOA)]

/-- The record map of the contract `contractZone`, in the order of insertion. -/
def zoneRecords : Nns.RecordsMap :=
  [("zone.6", entrySOA),
   ("zone.16", { Name := "zone.", Type_ := NnsContract.RecordType.TXT, Data := ["first"] }),
   ("www.zone.1", entryA)]

/-- The record map of the contract `contractOverride`. -/
def overrideRecords : Nns.RecordsMap :=
  [("zone.16", { Name := "zone.", Type_ := NnsContract.RecordType.TXT, Data := ["other"] })]

/-- The merge of `zoneRecords` and `overrideRecords`. -/
def mergedRecords : Nns.RecordsMap :=
  [("zone.6", entrySOA),
   ("zone.16", { Name := "zone.", Type_ := NnsContract.RecordType.TXT, Data := ["other"] }),
   ("www.zone.1", entryA)]

/-- The plugin whose first and only contract has a zone without SOA record. -/
def soaLessNns : Nns.NNS :=
  { Contracts := [contractWithoutSOA], dnsDomain := "" }

end Sample

/-! ## Theorems: IP information and distance (package `geodns`) -/

namespace Geodns

open Dns

theorem Location.eq_zero_iff (l : Location) :
    l = emptyLocation.Location ↔
      l.AccuracyRadius = 0 ∧ l.Latitude = 0 ∧ l.Longitude = 0 ∧ l.MetroCode = 0 ∧
        l.TimeZone = "" := by
  obtain ⟨radius, lat, lng, metro, zone⟩ := l
  simp [emptyLocation]

theorem Location.isZero_iff (l : Location) :
    l.isZero = true ↔ l = emptyLocation.Location := by
  rw [Location.eq_zero_iff]
  simp [Location.isZero, and_assoc]

/-- C7: `IsEmpty` is true exactly when the city and the country record are both absent,
or the city record is present with a zero-valued location (accuracy radius, latitude,
longitude and metro code 0, no time zone) and the country record is absent; with a country
record present the information is never empty, and so it is with a city record of which
any field of the location is set. -/
theorem IsEmpty_iff (i : IPInformation) :
    (i.IsEmpty = true ↔
      (i.City = none ∧ i.Country = none) ∨
      ((∃ c, i.City = some c ∧ c.Location.AccuracyRadius = 0 ∧ c.Location.Latitude = 0 ∧
          c.Location.Longitude = 0 ∧ c.Location.MetroCode = 0 ∧ c.Location.TimeZone = "") ∧
        i.Country = none)) ∧
    (∀ (c : Option City) (k : Country),
      IPInformation.IsEmpty { City := c, Country := some k } = false) ∧
    (∀ (c : City) (k : Option Country), c.Location.isZero = false →
      IPInformation.IsEmpty { City := some c, Country := k } = false) := by
  refine ⟨?_, ?_, ?_⟩
  · obtain ⟨city, country⟩ := i
    cases city <;> cases country <;>
      simp [IPInformation.IsEmpty, Location.eq_zero_iff]
  · intro c k
    simp [IPInformation.IsEmpty]
  · intro c k hz
    have hne : ¬ c.Location = emptyLocation.Location := by
      intro h
      rw [(Location.isZero_iff c.Location).mpr h] at hz
      cases hz
    simp [IPInformation.IsEmpty, hne]

/-- C5 (as stated) fails: a side whose city record has latitude and longitude zero and a
time zone does not "have a location" in the words of the claim, and the distance to a city
at latitude and longitude 1 is not the sentinel: it is the absolute angle between the
points (0, 0) and (1, 1), which is 1 for the sample angle and differs from 360 for every
angle function whose values are at most 180 in absolute value. -/
theorem distance_time_zone_only :
    hasLocation (some Sample.ipInfoTimeZone) = false ∧
    hasLocation (some Sample.ipInfoCity) = true ∧
    (∀ angleDegrees : LatLng → LatLng → ℚ,
      (distance angleDegrees (some Sample.ipInfoTimeZone) (some Sample.ipInfoCity)).Distance =
        |angleDegrees (LatLngFromDegrees 0 0) (LatLngFromDegrees 1 1)|) ∧
    (distance Sample.lib.angleDegrees (some Sample.ipInfoTimeZone)
      (some Sample.ipInfoCity)).Distance = 1 ∧
    (∀ angleDegrees : LatLng → LatLng → ℚ, (∀ a b, |angleDegrees a b| ≤ 180) →
      (distance angleDegrees (some Sample.ipInfoTimeZone) (some Sample.ipInfoCity)).Distance
        ≠ 360) := by
  have hd : ∀ angleDegrees : LatLng → LatLng → ℚ,
      (distance angleDegrees (some Sample.ipInfoTimeZone) (some Sample.ipInfoCity)).Distance =
        |angleDegrees (LatLngFromDegrees 0 0) (LatLngFromDegrees 1 1)| := by
    intro angleDegrees
    simp [distance, Sample.ipInfoTimeZone, Sample.ipInfoCity, Sample.cityTimeZone,
      Sample.cityWithCountry, Location.eq_zero_iff]
  refine ⟨by decide, by decide, hd, ?_, ?_⟩
  · rw [hd]
    simp [Sample.lib, LatLngFromDegrees]
  · intro angleDegrees hb
    rw [hd]
    intro h
    have := hb (LatLngFromDegrees 0 0) (LatLngFromDegrees 1 1)
    rw [h] at this
    norm_num at this

/-- C5 (amended): the `Distance` returned by `distance` is the absolute great-circle angle
in degrees between the points given by latitude and longitude of the two city records when
both sides are present with a city record whose location is not zero-valued (some field
of it is set: accuracy radius, latitude, longitude, metro code or time zone), and the
sentinel 360 in every other case; a side whose latitude and longitude are not both zero
has such a location. -/
theorem distance_Distance (angleDegrees : LatLng → LatLng → ℚ)
    (from_ to_ : Option IPInformation) :
    (distance angleDegrees from_ to_).Distance =
      (if hasRecordedLocation from_ && hasRecordedLocation to_ then
        |angleDegrees (pointOf from_) (pointOf to_)|
      else 360) ∧
    (hasLocation from_ = true → hasRecordedLocation from_ = true) := by
  constructor
  · rcases from_ with _ | ⟨fc, fk⟩
    · cases to_ <;> simp [distance, hasRecordedLocation, maxDistance]
    · rcases to_ with _ | ⟨tc, tk⟩
      · simp [distance, hasRecordedLocation, maxDistance]
      · cases fc <;> cases tc <;>
          simp [distance, hasRecordedLocation, pointOf, maxDistance, Location.eq_zero_iff,
            Location.isZero, imp_iff_not_or, and_assoc, or_assoc]
  · rcases from_ with _ | ⟨fc, fk⟩
    · simp [hasLocation]
    · cases fc with
      | none => simp [hasLocation]
      | some c =>
        simp only [hasLocation, hasRecordedLocation, Location.isZero]
        intro h
        simp only [Bool.not_eq_true', Bool.and_eq_false_iff, beq_eq_false_iff_ne] at h ⊢
        rcases h with h | h
        · exact Or.inl (Or.inl (Or.inl (Or.inr (by simpa using h))))
        · exact Or.inl (Or.inl (Or.inr (by simpa using h)))

theorem distance_Distance_witness :
    hasRecordedLocation (some Sample.ipInfoTimeZone) = true ∧
    hasRecordedLocation (some Sample.ipInfoCity) = true ∧
    ((distance Sample.lib.angleDegrees (some Sample.ipInfoTimeZone)
        (some Sample.ipInfoCity)).Distance =
      (if hasRecordedLocation (some Sample.ipInfoTimeZone) &&
          hasRecordedLocation (some Sample.ipInfoCity) then
        |Sample.lib.angleDegrees (pointOf (some Sample.ipInfoTimeZone))
          (pointOf (some Sample.ipInfoCity))|
      else 360) ∧
    (hasLocation (some Sample.ipInfoTimeZone) = true →
      hasRecordedLocation (some Sample.ipInfoTimeZone) = true)) :=
  ⟨by decide, by decide,
    distance_Distance Sample.lib.angleDegrees (some Sample.ipInfoTimeZone)
      (some Sample.ipInfoCity)⟩

/-- C6: for two present sides `CountryMatched` tells whether their country GeoName IDs
are equal, the ID of a side being the one of its city record if present and non-zero,
else the one of its country record if present, else 0; if a side is `nil`,
`CountryMatched` is false. -/
theorem distance_CountryMatched (angleDegrees : LatLng → LatLng → ℚ) :
    (∀ f t : IPInformation,
      (distance angleDegrees (some f) (some t)).CountryMatched
        = decide (countryID f = countryID t)) ∧
    (∀ to_ : Option IPInformation, (distance angleDegrees none to_).CountryMatched = false) ∧
    (∀ from_ : Option IPInformation, (distance angleDegrees from_ none).CountryMatched = false) := by
  refine ⟨?_, ?_, ?_⟩
  · rintro ⟨fc, fk⟩ ⟨tc, tk⟩
    cases fc <;> cases fk <;> cases tc <;> cases tk <;>
      simp [distance, countryID] <;> split_ifs <;> simp_all
  · intro to_
    cases to_ <;> simp [distance]
  · intro from_
    cases from_ <;> simp [distance]

end Geodns

/-! ## Lemmas: the insertion sort of Go's `sort` package meets the contract -/

namespace GoSort

variable {α : Type}

theorem sinkLeft_perm (less : α → α → Bool) (x : α) (l : List α) :
    (sinkLeft less x l).Perm (x :: l) := by
  induction l with
  | nil => simp [sinkLeft]
  | cons p ps ih =>
    unfold sinkLeft
    split_ifs
    · exact (List.Perm.cons p ih).trans (List.Perm.swap x p ps)
    · exact List.Perm.refl _

theorem foldl_sinkLeft_perm (less : α → α → Bool) (xs acc : List α) :
    (xs.foldl (fun sortedRev x => sinkLeft less x sortedRev) acc).Perm (xs ++ acc) := by
  induction xs generalizing acc with
  | nil => simp
  | cons x xs ih =>
    simp only [List.foldl_cons, List.cons_append]
    refine (ih _).trans ?_
    refine (List.Perm.append_left xs (sinkLeft_perm less x acc)).trans ?_
    exact List.perm_middle

theorem insertionSortLessFunc_perm (less : α → α → Bool) (xs : List α) :
    (insertionSortLessFunc less xs).Perm xs := by
  unfold insertionSortLessFunc
  refine (List.reverse_perm _).trans ?_
  simpa using foldl_sinkLeft_perm less xs []

theorem sinkLeft_pairwise (less : α → α → Bool) (hl : LessTransitive less) (x : α)
    (l : List α) (h : l.Pairwise (fun a b => ¬ MustPrecede less a b)) :
    (sinkLeft less x l).Pairwise (fun a b => ¬ MustPrecede less a b) := by
  induction l with
  | nil => simp [sinkLeft]
  | cons p ps ih =>
    rw [List.pairwise_cons] at h
    obtain ⟨hp, hps⟩ := h
    unfold sinkLeft
    split_ifs with hxp
    · rw [List.pairwise_cons]
      refine ⟨?_, ih hps⟩
      intro y hy
      have hy' := (sinkLeft_perm less x ps).mem_iff.mp hy
      rw [List.mem_cons] at hy'
      rcases hy' with rfl | hy'
      · intro hm
        rw [hm.2] at hxp
        exact Bool.noConfusion hxp
      · exact hp y hy'
    · rw [List.pairwise_cons]
      refine ⟨?_, List.pairwise_cons.mpr ⟨hp, hps⟩⟩
      have hxp' : less x p = false := by simpa using hxp
      intro y hy hm
      rw [List.mem_cons] at hy
      rcases hy with rfl | hy
      · rw [hm.1] at hxp'
        exact Bool.noConfusion hxp'
      · cases hpy : less p y with
        | false =>
          have := hl.2 x p y hxp' hpy
          rw [hm.1] at this
          exact Bool.noConfusion this
        | true =>
          cases hyp : less y p with
          | false => exact hp y hy ⟨hpy, hyp⟩
          | true =>
            have := hl.1 x y p hm.1 hyp
            rw [hxp'] at this
            exact Bool.noConfusion this

theorem foldl_sinkLeft_pairwise (less : α → α → Bool) (hl : LessTransitive less)
    (xs acc : List α) (h : acc.Pairwise (fun a b => ¬ MustPrecede less a b)) :
    (xs.foldl (fun sortedRev x => sinkLeft less x sortedRev) acc).Pairwise
      (fun a b => ¬ MustPrecede less a b) := by
  induction xs generalizing acc with
  | nil => simpa using h
  | cons x xs ih =>
    simp only [List.foldl_cons]
    exact ih _ (sinkLeft_pairwise less hl x acc h)

/-- The insertion sort that `sort.Slice` runs on short slices meets the contract assumed
of `sort.Slice`. -/
theorem insertionSortLessFunc_contract :
    SortSliceContract (insertionSortLessFunc : (α → α → Bool) → List α → List α) where
  perm := insertionSortLessFunc_perm
  ordered := by
    intro less xs hl
    unfold insertionSortLessFunc
    rw [List.pairwise_reverse]
    exact foldl_sinkLeft_pairwise less hl xs [] List.Pairwise.nil

end GoSort

/-! ## Lemmas: `chooseClosest` and `WriteMsg` (package `geodns`) -/

namespace Geodns

open Dns GoSort

theorem closerLess_transitive : LessTransitive closerLess := by
  constructor
  · intro x y z hxy hyz
    simp only [closerLess] at *
    by_cases hx : x.distanceInfo.Distance = maxDistance <;>
    by_cases hy : y.distanceInfo.Distance = maxDistance <;>
    by_cases hz : z.distanceInfo.Distance = maxDistance <;>
    simp_all <;> linarith
  · intro x y z hxy hyz
    simp only [closerLess] at *
    by_cases hx : x.distanceInfo.Distance = maxDistance <;>
    by_cases hy : y.distanceInfo.Distance = maxDistance <;>
    by_cases hz : z.distanceInfo.Distance = maxDistance <;>
    simp_all <;>
    first
      | linarith
      | (exfalso; apply hy; linarith)

theorem closerLess_of_lt (a b : recordInfo)
    (h : a.distanceInfo.Distance < b.distanceInfo.Distance) : MustPrecede closerLess a b := by
  have h1 : ¬ (a.distanceInfo.Distance = maxDistance ∧ b.distanceInfo.Distance = maxDistance) := by
    rintro ⟨ha, hb⟩
    rw [ha, hb] at h
    exact lt_irrefl _ h
  have h2 : ¬ (b.distanceInfo.Distance = maxDistance ∧ a.distanceInfo.Distance = maxDistance) :=
    fun h' => h1 ⟨h'.2, h'.1⟩
  constructor
  · simp only [closerLess, h1, if_false]
    exact decide_eq_true h
  · simp only [closerLess, h2, if_false]
    exact decide_eq_false (not_lt.mpr h.le)

theorem pairwise_getElem? {α : Type} {R : α → α → Prop} {l : List α} (h : l.Pairwise R)
    {i j : Nat} {a b : α} (hi : l[i]? = some a) (hj : l[j]? = some b) (hij : i < j) : R a b := by
  obtain ⟨hi', rfl⟩ := List.getElem?_eq_some.mp hi
  obtain ⟨hj', rfl⟩ := List.getElem?_eq_some.mp hj
  exact List.pairwise_iff_getElem.mp h i j hi' hj' hij

theorem copyRecords_eq (l : List recordInfo) (n : Nat) (h : n ≤ l.length) :
    copyRecords l n = some ((l.take n).map (fun r => r.record)) := by
  induction l generalizing n with
  | nil =>
    have : n = 0 := by simpa using h
    subst this
    simp [copyRecords]
  | cons r rs ih =>
    cases n with
    | zero => simp [copyRecords]
    | succ n =>
      have hn : n ≤ rs.length := by simpa using h
      simp [copyRecords, ih n hn]

theorem chooseClosest_eq
    (sortSlice : (recordInfo → recordInfo → Bool) → List recordInfo → List recordInfo)
    (hperm : ∀ less xs, (sortSlice less xs).Perm xs)
    (recInfos : List recordInfo) (max : Int) (hmax : 0 ≤ max) :
    chooseClosest sortSlice recInfos max
      = some ((selected sortSlice recInfos max).map (fun r => r.record)) := by
  have hlen : (sortSlice closerLess recInfos).length = recInfos.length :=
    (hperm closerLess recInfos).length_eq
  unfold chooseClosest selected
  simp only
  split_ifs with h1 h2 h3
  · omega
  · rw [copyRecords_eq _ _ (by simp [hlen])]
    congr 3
    simp
    omega
  · omega
  · rw [copyRecords_eq _ _ (by rw [hlen]; omega)]
    congr 3
    omega

theorem distance_le_maxDistance (angleDegrees : LatLng → LatLng → ℚ)
    (hangle : ∀ a b, |angleDegrees a b| ≤ 180) (from_ to_ : Option IPInformation) :
    (distance angleDegrees from_ to_).Distance ≤ maxDistance := by
  have h180 : ∀ a b, |angleDegrees a b| ≤ maxDistance := fun a b =>
    le_trans (hangle a b) (by unfold maxDistance; norm_num)
  rcases from_ with _ | f
  · cases to_ <;> simp [distance]
  · rcases to_ with _ | t
    · simp [distance]
    · simp only [distance]
      split_ifs
      · exact h180 _ _
      · exact le_refl _

theorem buildRecInfos_distance_le (lib : Lib) (db : Db) (clientInf : IPInformation)
    (answer : List RR) (hangle : ∀ a b, |lib.angleDegrees a b| ≤ 180) :
    ∀ r ∈ buildRecInfos lib db clientInf answer, r.distanceInfo.Distance ≤ maxDistance := by
  intro r hr
  unfold buildRecInfos at hr
  obtain ⟨rec, _, hrec⟩ := List.mem_filterMap.mp hr
  by_cases h : getEndpointFromRecord lib.ipString rec = ""
  · simp [h] at hrec
  · simp only [h, if_false, Option.some.injEq] at hrec
    subst hrec
    simp only
    split_ifs
    · exact le_refl _
    · exact distance_le_maxDistance lib.angleDegrees hangle _ _

theorem buildRecInfos_sublist (lib : Lib) (db : Db) (clientInf : IPInformation)
    (answer : List RR) :
    ((buildRecInfos lib db clientInf answer).map (fun r => r.record)).Sublist answer := by
  induction answer with
  | nil => simp [buildRecInfos]
  | cons rec rest ih =>
    unfold buildRecInfos at ih ⊢
    rw [List.filterMap_cons]
    by_cases h : getEndpointFromRecord lib.ipString rec = ""
    · simp only [h, if_true]
      exact List.Sublist.cons _ ih
    · simp only [h, if_false, List.map_cons]
      exact List.Sublist.cons₂ _ ih

end Geodns

/-! ## Theorems: the response filter of `geodns` -/

namespace Geodns

open Dns GoSort

/-- C1: for a non-empty upstream answer and `maxRecords ≥ 1`, `WriteMsg` hands an answer
to the underlying writer whose length is at most `min maxRecords n` and whose records all
come from the upstream answer (as a sub-multiset), whether or not the client's IP
information is empty. -/
theorem WriteMsg_length_subset (lib : Lib)
    (hperm : ∀ less xs, (lib.sortSlice less xs).Perm xs)
    (db : Db) (maxRecords : Int) (client : IP) (answer : List RR)
    (hne : answer ≠ []) (hmax : 1 ≤ maxRecords) :
    ∃ out, WriteMsg lib db maxRecords client answer = some out ∧
      (out.length : Int) ≤ min maxRecords (answer.length : Int) ∧
      (∀ r ∈ out, r ∈ answer) ∧ out.Subperm answer := by
  have hlen : answer.length ≠ 0 := fun h => hne (List.length_eq_zero.mp h)
  have fin : ∀ out : List RR, out.Subperm answer → (out.length : Int) ≤ maxRecords →
      (out.length : Int) ≤ min maxRecords (answer.length : Int) ∧
      (∀ r ∈ out, r ∈ answer) ∧ out.Subperm answer := by
    intro out hsub hle
    refine ⟨le_min hle (by exact_mod_cast hsub.length_le), fun r hr => hsub.subset hr, hsub⟩
  unfold WriteMsg
  simp only [hlen, if_false]
  split_ifs with hempty hlt hneg
  · omega
  · refine ⟨_, rfl, fin _ (List.take_sublist _ _).subperm ?_⟩
    rw [List.length_take]
    omega
  · exact ⟨_, rfl, fin _ (List.Subperm.refl _) (by omega)⟩
  · refine ⟨_, chooseClosest_eq lib.sortSlice hperm _ maxRecords (by omega), fin _ ?_ ?_⟩
    · exact (((List.take_sublist _ _).map _).subperm.trans
        ((hperm closerLess _).map _).subperm).trans
        (buildRecInfos_sublist lib db _ answer).subperm
    · rw [List.length_map]
      unfold selected
      rw [List.length_take]
      omega

theorem WriteMsg_length_subset_witness :
    Sample.answer ≠ [] ∧ (1 : Int) ≤ 2 ∧
    ∃ out, WriteMsg Sample.lib Sample.db 2 Sample.client Sample.answer = some out ∧
      (out.length : Int) ≤ min 2 (Sample.answer.length : Int) ∧
      (∀ r ∈ out, r ∈ Sample.answer) ∧ out.Subperm Sample.answer :=
  ⟨by decide, by decide,
    WriteMsg_length_subset Sample.lib (fun less xs => insertionSortLessFunc_perm less xs)
      Sample.db 2 Sample.client Sample.answer (by decide) (by decide)⟩

/-- C2: for every list handed to `chooseClosest` and every `max ≥ 1`, if `a` and `b` have
known distances and the distance of `a` is strictly smaller, then wherever `b` stands among
the selected record-infos, `a` is selected too and every occurrence of `a` stands before
it; the returned records are those of the selected record-infos, in order. -/
theorem chooseClosest_known_order
    (sortSlice : (recordInfo → recordInfo → Bool) → List recordInfo → List recordInfo)
    (hs : SortSliceContract sortSlice) (recInfos : List recordInfo) (max : Int)
    (hmax : 1 ≤ max) :
    chooseClosest sortSlice recInfos max
      = some ((selected sortSlice recInfos max).map (fun r => r.record)) ∧
    ∀ a b : recordInfo, a ∈ recInfos → known a → known b →
      a.distanceInfo.Distance < b.distanceInfo.Distance →
      ∀ q : Nat, (selected sortSlice recInfos max)[q]? = some b →
        (∃ p : Nat, p < q ∧ (selected sortSlice recInfos max)[p]? = some a) ∧
        (∀ p : Nat, (selected sortSlice recInfos max)[p]? = some a → p < q) := by
  refine ⟨chooseClosest_eq sortSlice hs.perm recInfos max (by omega), ?_⟩
  intro a b ha _ _ hlt q hq
  have hord := hs.ordered closerLess recInfos closerLess_transitive
  have hmp := closerLess_of_lt a b hlt
  unfold selected at hq ⊢
  rw [List.getElem?_take] at hq
  split_ifs at hq with hqm
  have key : ∀ p, (sortSlice closerLess recInfos)[p]? = some a → p < q := by
    intro p hp
    by_contra hge
    rcases Nat.lt_or_eq_of_le (Nat.le_of_not_lt hge) with hqp | hqp
    · exact pairwise_getElem? hord hq hp hqp hmp
    · subst hqp
      rw [hq] at hp
      rw [Option.some.inj hp] at hlt
      exact lt_irrefl _ hlt
  constructor
  · obtain ⟨p, hp⟩ := List.mem_iff_getElem?.mp ((hs.perm closerLess recInfos).mem_iff.mpr ha)
    have hpq := key p hp
    refine ⟨p, hpq, ?_⟩
    rw [List.getElem?_take, if_pos (lt_trans hpq hqm)]
    exact hp
  · intro p hp
    rw [List.getElem?_take] at hp
    split_ifs at hp
    exact key p hp

theorem chooseClosest_known_order_witness :
    (1 : Int) ≤ 2 ∧
    chooseClosest insertionSortLessFunc
        [Sample.infoUnknownMatched, Sample.infoFar, Sample.infoUnknown, Sample.infoNear] 2
      = some ((selected insertionSortLessFunc
          [Sample.infoUnknownMatched, Sample.infoFar, Sample.infoUnknown, Sample.infoNear] 2).map
            (fun r => r.record)) ∧
    ∀ a b : recordInfo,
      a ∈ [Sample.infoUnknownMatched, Sample.infoFar, Sample.infoUnknown, Sample.infoNear] →
      known a → known b → a.distanceInfo.Distance < b.distanceInfo.Distance →
      ∀ q : Nat, (selected insertionSortLessFunc
          [Sample.infoUnknownMatched, Sample.infoFar, Sample.infoUnknown, Sample.infoNear] 2)[q]?
            = some b →
        (∃ p : Nat, p < q ∧ (selected insertionSortLessFunc
          [Sample.infoUnknownMatched, Sample.infoFar, Sample.infoUnknown, Sample.infoNear] 2)[p]?
            = some a) ∧
        (∀ p : Nat, (selected insertionSortLessFunc
          [Sample.infoUnknownMatched, Sample.infoFar, Sample.infoUnknown, Sample.infoNear] 2)[p]?
            = some a → p < q) :=
  ⟨by decide,
    chooseClosest_known_order insertionSortLessFunc insertionSortLessFunc_contract
      [Sample.infoUnknownMatched, Sample.infoFar, Sample.infoUnknown, Sample.infoNear] 2
      (by decide)⟩

end Geodns

namespace Geodns

open Dns GoSort

/-- C3: for every list of record-infos as `WriteMsg` passes them to `chooseClosest` (no
distance is above the sentinel 360), with `max` equal to the list length, the records of
the whole sorted slice are returned; among its sentinel-distance record-infos none with
`CountryMatched = false` stands before one with `CountryMatched = true`, and every
record-info with a known distance stands before every sentinel-distance one. The lists
that `WriteMsg` builds are of this kind, the great-circle angle being at most 180
degrees. -/
theorem chooseClosest_sentinel_order
    (sortSlice : (recordInfo → recordInfo → Bool) → List recordInfo → List recordInfo)
    (hs : SortSliceContract sortSlice) (recInfos : List recordInfo)
    (hrange : ∀ r ∈ recInfos, r.distanceInfo.Distance ≤ maxDistance) :
    chooseClosest sortSlice recInfos (recInfos.length : Int)
      = some ((sortSlice closerLess recInfos).map (fun r => r.record)) ∧
    (sortSlice closerLess recInfos).Pairwise (fun x y =>
      ¬ (sentinel x ∧ sentinel y ∧
        x.distanceInfo.CountryMatched = false ∧ y.distanceInfo.CountryMatched = true)) ∧
    KnownBeforeSentinel (sortSlice closerLess recInfos) ∧
    (∀ (lib : Lib) (db : Db) (clientInf : IPInformation) (answer : List RR),
      (∀ a b, |lib.angleDegrees a b| ≤ 180) →
      ∀ r ∈ buildRecInfos lib db clientInf answer, r.distanceInfo.Distance ≤ maxDistance) := by
  have hord := hs.ordered closerLess recInfos closerLess_transitive
  have hlen : (sortSlice closerLess recInfos).length = recInfos.length :=
    (hs.perm closerLess recInfos).length_eq
  refine ⟨?_, ?_, ?_, buildRecInfos_distance_le⟩
  · rw [chooseClosest_eq sortSlice hs.perm recInfos _ (by omega)]
    unfold selected
    rw [List.take_of_length_le (by rw [hlen]; simp)]
  · refine hord.imp ?_
    rintro x y hxy ⟨hx, hy, hxm, hym⟩
    apply hxy
    unfold sentinel at hx hy
    constructor <;> simp [closerLess, hx, hy, hxm, hym]
  · unfold KnownBeforeSentinel
    have hmem : ∀ y ∈ sortSlice closerLess recInfos, y.distanceInfo.Distance ≤ maxDistance :=
      fun y hy => hrange y ((hs.perm closerLess recInfos).mem_iff.mp hy)
    refine (List.Pairwise.and_mem.mp hord).imp ?_
    rintro x y ⟨_, hy, hxy⟩ ⟨hx, hk⟩
    apply hxy
    apply closerLess_of_lt
    unfold sentinel at hx
    unfold known at hk
    rw [hx]
    exact lt_of_le_of_ne (hmem y hy) hk

theorem chooseClosest_sentinel_order_witness :
    (∀ r ∈ [Sample.infoUnknown, Sample.infoFar, Sample.infoUnknownMatched, Sample.infoNear],
      r.distanceInfo.Distance ≤ maxDistance) ∧
    insertionSortLessFunc closerLess
        [Sample.infoUnknown, Sample.infoFar, Sample.infoUnknownMatched, Sample.infoNear] =
      [Sample.infoNear, Sample.infoFar, Sample.infoUnknownMatched, Sample.infoUnknown] ∧
    (chooseClosest insertionSortLessFunc
        [Sample.infoUnknown, Sample.infoFar, Sample.infoUnknownMatched, Sample.infoNear]
        (([Sample.infoUnknown, Sample.infoFar, Sample.infoUnknownMatched,
            Sample.infoNear].length : Nat) : Int)
      = some ((insertionSortLessFunc closerLess
          [Sample.infoUnknown, Sample.infoFar, Sample.infoUnknownMatched, Sample.infoNear]).map
            (fun r => r.record)) ∧
    (insertionSortLessFunc closerLess
      [Sample.infoUnknown, Sample.infoFar, Sample.infoUnknownMatched, Sample.infoNear]).Pairwise
      (fun x y => ¬ (sentinel x ∧ sentinel y ∧
        x.distanceInfo.CountryMatched = false ∧ y.distanceInfo.CountryMatched = true)) ∧
    KnownBeforeSentinel (insertionSortLessFunc closerLess
      [Sample.infoUnknown, Sample.infoFar, Sample.infoUnknownMatched, Sample.infoNear]) ∧
    (∀ (lib : Lib) (db : Db) (clientInf : IPInformation) (answer : List RR),
      (∀ a b, |lib.angleDegrees a b| ≤ 180) →
      ∀ r ∈ buildRecInfos lib db clientInf answer, r.distanceInfo.Distance ≤ maxDistance)) :=
  ⟨by decide, by decide,
    chooseClosest_sentinel_order insertionSortLessFunc insertionSortLessFunc_contract
      [Sample.infoUnknown, Sample.infoFar, Sample.infoUnknownMatched, Sample.infoNear]
      (by decide)⟩

/-- C4: when the client's IP information is empty and the upstream answer is not empty,
`WriteMsg` emits exactly the first `min n maxRecords` upstream records, in their order and
unchanged. -/
theorem WriteMsg_empty_client (lib : Lib) (db : Db) (maxRecords : Int) (client : IP)
    (answer : List RR) (hempty : (db.IPInfo client).IsEmpty = true) (hne : answer ≠ [])
    (hmax : 0 ≤ maxRecords) :
    WriteMsg lib db maxRecords client answer
      = some (answer.take (min answer.length maxRecords.toNat)) := by
  have hlen : answer.length ≠ 0 := fun h => hne (List.length_eq_zero.mp h)
  unfold WriteMsg
  simp only [hlen, if_false, hempty, if_true]
  split_ifs with hlt hneg
  · omega
  · congr 2
    omega
  · rw [List.take_of_length_le]
    omega

theorem WriteMsg_empty_client_witness :
    (Sample.noDb.IPInfo Sample.client).IsEmpty = true ∧ Sample.answer ≠ [] ∧ (0 : Int) ≤ 2 ∧
    WriteMsg Sample.lib Sample.noDb 2 Sample.client Sample.answer
      = some (Sample.answer.take (min Sample.answer.length (2 : Int).toNat)) :=
  ⟨by decide, by decide, by decide,
    WriteMsg_empty_client Sample.lib Sample.noDb 2 Sample.client Sample.answer
      (by decide) (by decide) (by decide)⟩

end Geodns

/-! ## Theorems: client address selection in `GeoDNS.ServeDNS` -/

namespace Geodns

open Dns

theorem scanOptions_eq (ip : IP) (option : List EDNS0) :
    scanOptions ip option = ((option.filterMap nonNilSubnetAddress).getLast?).getD ip := by
  induction option generalizing ip with
  | nil => simp [scanOptions]
  | cons e rest ih =>
    cases e with
    | SUBNET family mask scope address =>
      by_cases h : address = none
      · simp [scanOptions, nonNilSubnetAddress, h, ih]
      · simp [scanOptions, nonNilSubnetAddress, h, ih, List.getLast?_cons]
    | other code => simp [scanOptions, nonNilSubnetAddress, ih]

/-- C8 (as stated) fails: the request carries a client-subnet option whose address is
not `nil` (it has length zero), and yet the response filter is given the address of the
UDP peer, which is the address of no client-subnet option of the request. -/
theorem ServeDNS_empty_subnet_address :
    subnetAddresses Sample.requestEmptySubnet = [some []] ∧
    ServeDNS Sample.peer Sample.requestEmptySubnet = some (.filter (some [68, 68, 0, 4])) ∧
    ¬ (∃ address ∈ subnetAddresses Sample.requestEmptySubnet,
        ServeDNS Sample.peer Sample.requestEmptySubnet = some (.filter address)) := by
  decide

/-- C8 (amended): for an A or AAAA query the response filter is given the address of the
last client-subnet option with a non-nil address if that address has non-zero length,
whatever the transport peer; otherwise it is given `realIP`, which is a copy of the peer
address for a UDP or TCP peer and `nil` for any other peer. -/
theorem ServeDNS_client (remote : Addr) (r : Msg) (qtype : Nat) (rest : List Nat)
    (hr : r.Question = qtype :: rest) (hq : qtype = TypeA ∨ qtype = TypeAAAA) :
    ServeDNS remote r = some (.filter
      (match (subnetAddresses r).getLast? with
        | some address => if address.len ≠ 0 then address else realIP remote
        | none => realIP remote)) ∧
    (∀ ip : IP, realIP (.UDPAddr ip) = some ip.bytes) ∧
    (∀ ip : IP, realIP (.TCPAddr ip) = some ip.bytes) ∧
    (realIP .other).len = 0 := by
  refine ⟨?_, fun _ => rfl, fun _ => rfl, rfl⟩
  have hsup : isSupportedType qtype = true := by
    rcases hq with rfl | rfl <;> decide
  unfold ServeDNS subnetAddresses
  rw [hr]
  simp only [hsup, Bool.not_true, Bool.false_eq_true, if_false]
  cases hopt : r.IsEdns0 with
  | none => simp [IP.len]
  | some option =>
    simp only [scanOptions_eq]
    cases hlast : (option.filterMap nonNilSubnetAddress).getLast? with
    | none => simp [IP.len]
    | some address =>
      by_cases hlen : address.len = 0 <;> simp [hlen]

theorem ServeDNS_client_witness :
    Sample.requestSubnet.Question = TypeAAAA :: [] ∧ (TypeAAAA = TypeA ∨ TypeAAAA = TypeAAAA) ∧
    ServeDNS Sample.peer Sample.requestSubnet = some (.filter
      (match (subnetAddresses Sample.requestSubnet).getLast? with
        | some address => if address.len ≠ 0 then address else realIP Sample.peer
        | none => realIP Sample.peer)) ∧
    (∀ ip : IP, realIP (.UDPAddr ip) = some ip.bytes) ∧
    (∀ ip : IP, realIP (.TCPAddr ip) = some ip.bytes) ∧
    (realIP .other).len = 0 :=
  ⟨rfl, Or.inr rfl,
    ServeDNS_client Sample.peer Sample.requestSubnet TypeAAAA [] rfl (Or.inr rfl)⟩

end Geodns

/-! ## Theorems: `HealthCheckFilter.FilterRecords` -/

namespace Healthchecker

open Dns

theorem Cache.Get_size (c : Cache) (key : String) : (c.Get key).1.size = c.size := by
  unfold Cache.Get
  cases c.items.find? (fun kv => kv.1 == key) <;> rfl

theorem Cache.Add_size (c : Cache) (key : String) (value : entry) :
    (c.Add key value).1.size = c.size := by
  unfold Cache.Add
  simp only
  split_ifs <;> rfl

theorem get_facts (p : HealthCheckFilter) (key : String) :
    (p.get key).1.filters = p.filters ∧ (p.get key).1.interval = p.interval ∧
    (p.get key).1.checker = p.checker ∧ (p.get key).1.cache.size = p.cache.size := by
  refine ⟨rfl, rfl, rfl, ?_⟩
  exact Cache.Get_size p.cache key

theorem put_of_interval (p : HealthCheckFilter) (endpoint : String) (hi : 0 < p.interval) :
    p.put endpoint = some { p with
      cache := (p.cache.Add endpoint
        { endpoint := endpoint, healthy := p.checker.Check p.trace endpoint,
          quit := p.trace.length }).1,
      trace := p.trace ++ [.check endpoint, .cacheAdd endpoint] ++
        onEvict (p.cache.Add endpoint
          { endpoint := endpoint, healthy := p.checker.Check p.trace endpoint,
            quit := p.trace.length }).2 ++ [.startLoop endpoint p.trace.length] } := by
  unfold HealthCheckFilter.put
  simp only [not_le.mpr hi, if_false]

theorem put_of_not_interval (p : HealthCheckFilter) (endpoint : String)
    (hi : p.interval ≤ 0) : p.put endpoint = none := by
  unfold HealthCheckFilter.put
  simp only [hi, if_true]

theorem put_facts (p q : HealthCheckFilter) (endpoint : String)
    (h : p.put endpoint = some q) :
    q.filters = p.filters ∧ q.interval = p.interval ∧ q.checker = p.checker ∧
    q.cache.size = p.cache.size := by
  by_cases hi : 0 < p.interval
  · rw [put_of_interval p endpoint hi] at h
    cases h
    exact ⟨rfl, rfl, rfl, Cache.Add_size _ _ _⟩
  · rw [put_of_not_interval p endpoint (not_lt.mp hi)] at h
    cases h

theorem filterRecord_no_match (ipString : IP → String) (p : HealthCheckFilter) (r : RR)
    (h : matchFilters p.filters r.Header.Name = false) :
    filterRecord ipString p r = some (p, some r) := by
  simp [filterRecord, h]

theorem filterRecord_not_address (ipString : IP → String) (p : HealthCheckFilter) (r : RR)
    (h : matchFilters p.filters r.Header.Name = true) (hr : r.isAddress = false) :
    filterRecord ipString p r = some (p, none) := by
  cases r <;> simp_all [filterRecord, getEndpoint, RR.isAddress]

theorem filterRecord_facts (ipString : IP → String) (p q : HealthCheckFilter) (r : RR)
    (o : Option RR) (h : filterRecord ipString p r = some (q, o)) :
    q.filters = p.filters ∧ q.interval = p.interval ∧ q.checker = p.checker ∧
    q.cache.size = p.cache.size ∧ ∀ r', o = some r' → r' = r := by
  unfold filterRecord at h
  split_ifs at h with hm
  · split at h
    · cases h
      exact ⟨rfl, rfl, rfl, rfl, by intro r' hr'; cases hr'⟩
    · rename_i endpoint _
      have hg := get_facts p endpoint
      split at h
      · rename_i q' e heq
        rw [heq] at hg
        split_ifs at h
        · cases h
          exact ⟨hg.1, hg.2.1, hg.2.2.1, hg.2.2.2, by intro r' hr'; cases hr'; rfl⟩
        · cases h
          exact ⟨hg.1, hg.2.1, hg.2.2.1, hg.2.2.2, by intro r' hr'; cases hr'⟩
      · rename_i q' heq
        rw [heq] at hg
        split at h
        · rename_i q'' hput
          cases h
          have hp := put_facts q' q endpoint hput
          exact ⟨hp.1.trans hg.1, hp.2.1.trans hg.2.1, hp.2.2.1.trans hg.2.2.1,
            hp.2.2.2.trans hg.2.2.2, by intro r' hr'; cases hr'; rfl⟩
        · cases h
  · cases h
    exact ⟨rfl, rfl, rfl, rfl, by intro r' hr'; cases hr'; rfl⟩

theorem filterRecord_isSome (ipString : IP → String) (p : HealthCheckFilter) (r : RR)
    (hi : 0 < p.interval) : ∃ a, filterRecord ipString p r = some a := by
  unfold filterRecord
  split_ifs with hm
  · split
    · exact ⟨_, rfl⟩
    · rename_i endpoint _
      have hg := get_facts p endpoint
      split
      · split_ifs <;> exact ⟨_, rfl⟩
      · rename_i q' heq
        rw [heq] at hg
        rw [put_of_interval q' endpoint (by rw [hg.2.1]; exact hi)]
        exact ⟨_, rfl⟩
  · exact ⟨_, rfl⟩

theorem FilterRecords_cons (ipString : IP → String) (p : HealthCheckFilter) (r : RR)
    (records : List RR) :
    FilterRecords ipString p (r :: records) =
      (filterRecord ipString p r).bind fun a =>
        (FilterRecords ipString a.1 records).map fun b => (b.1, a.2.toList ++ b.2) := by
  rw [FilterRecords]
  rcases h : filterRecord ipString p r with _ | ⟨q, _ | r'⟩
  · rfl
  · simp only [Option.some_bind, Option.toList, List.nil_append]
    cases FilterRecords ipString q records <;> rfl
  · simp only [Option.some_bind, Option.toList, List.singleton_append]
    cases FilterRecords ipString q records <;> rfl

theorem FilterRecords_cons_eq_some (ipString : IP → String) (p : HealthCheckFilter) (r : RR)
    (records : List RR) (res : HealthCheckFilter × List RR) :
    FilterRecords ipString p (r :: records) = some res ↔
      ∃ a b, filterRecord ipString p r = some a ∧ FilterRecords ipString a.1 records = some b ∧
        res = (b.1, a.2.toList ++ b.2) := by
  rw [FilterRecords_cons]
  constructor
  · intro h
    cases ha : filterRecord ipString p r with
    | none => simp [ha] at h
    | some a =>
      rw [ha, Option.some_bind] at h
      cases hb : FilterRecords ipString a.1 records with
      | none => simp [hb] at h
      | some b =>
        rw [hb] at h
        exact ⟨a, b, rfl, hb, (Option.some.inj h).symm⟩
  · rintro ⟨a, b, ha, hb, rfl⟩
    rw [ha, Option.some_bind, hb]
    rfl

theorem FilterRecords_facts (ipString : IP → String) (records : List RR)
    (p : HealthCheckFilter) (res : HealthCheckFilter × List RR)
    (h : FilterRecords ipString p records = some res) :
    res.1.filters = p.filters ∧ res.1.interval = p.interval ∧ res.1.checker = p.checker ∧
    res.1.cache.size = p.cache.size := by
  induction records generalizing p res with
  | nil =>
    rw [FilterRecords] at h
    cases h
    exact ⟨rfl, rfl, rfl, rfl⟩
  | cons x rest ih =>
    obtain ⟨⟨q, o⟩, b, ha, hb, rfl⟩ := (FilterRecords_cons_eq_some ipString p x rest res).mp h
    have h1 := filterRecord_facts ipString p q x o ha
    have h2 := ih q b hb
    exact ⟨h2.1.trans h1.1, h2.2.1.trans h1.2.1, h2.2.2.1.trans h1.2.2.1,
      h2.2.2.2.trans h1.2.2.2.1⟩

theorem FilterRecords_isSome (ipString : IP → String) (records : List RR)
    (p : HealthCheckFilter) (hi : 0 < p.interval) :
    ∃ res, FilterRecords ipString p records = some res := by
  induction records generalizing p with
  | nil => exact ⟨_, rfl⟩
  | cons x rest ih =>
    obtain ⟨⟨q, o⟩, ha⟩ := filterRecord_isSome ipString p x hi
    have hq := (filterRecord_facts ipString p q x o ha).2.1
    obtain ⟨b, hb⟩ := ih q (by rw [hq]; exact hi)
    exact ⟨_, (FilterRecords_cons_eq_some ipString p x rest _).mpr ⟨(q, o), b, ha, hb, rfl⟩⟩

theorem FilterRecords_append (ipString : IP → String) (xs ys : List RR)
    (p : HealthCheckFilter) :
    FilterRecords ipString p (xs ++ ys) =
      (FilterRecords ipString p xs).bind fun a =>
        (FilterRecords ipString a.1 ys).map fun b => (b.1, a.2 ++ b.2) := by
  induction xs generalizing p with
  | nil =>
    rw [List.nil_append, FilterRecords, Option.some_bind]
    cases FilterRecords ipString p ys <;> simp
  | cons x rest ih =>
    rw [List.cons_append, FilterRecords_cons, FilterRecords_cons]
    cases filterRecord ipString p x with
    | none => rfl
    | some a =>
      rw [Option.some_bind, Option.some_bind, ih]
      cases FilterRecords ipString a.1 rest with
      | none => rfl
      | some b =>
        simp only [Option.some_bind, Option.map_some']
        cases FilterRecords ipString b.1 ys with
        | none => rfl
        | some c => simp [List.append_assoc]

theorem FilterRecords_append_eq_some (ipString : IP → String) (xs ys : List RR)
    (p : HealthCheckFilter) (a b : HealthCheckFilter × List RR)
    (ha : FilterRecords ipString p xs = some a) (hb : FilterRecords ipString a.1 ys = some b) :
    FilterRecords ipString p (xs ++ ys) = some (b.1, a.2 ++ b.2) := by
  rw [FilterRecords_append, ha, Option.some_bind, hb]
  rfl

theorem mem_FilterRecords_of_not_address (ipString : IP → String) (records : List RR)
    (p : HealthCheckFilter) (res : HealthCheckFilter × List RR) (r : RR)
    (hr : r.isAddress = false) (h : FilterRecords ipString p records = some res) :
    r ∈ res.2 ↔ r ∈ records ∧ matchFilters p.filters r.Header.Name = false := by
  induction records generalizing p res with
  | nil =>
    rw [FilterRecords] at h
    cases h
    simp
  | cons x rest ih =>
    obtain ⟨⟨q, o⟩, b, ha, hb, rfl⟩ := (FilterRecords_cons_eq_some ipString p x rest res).mp h
    have hf := filterRecord_facts ipString p q x o ha
    have ih' := ih q b hb
    rw [hf.1] at ih'
    simp only [List.mem_append, List.mem_cons, ih']
    constructor
    · rintro (h | h)
      · cases o with
        | none => simp at h
        | some y =>
          have hy : r = y := by simpa using h
          subst hy
          have hrx := hf.2.2.2.2 r rfl
          subst hrx
          refine ⟨Or.inl rfl, ?_⟩
          cases hm : matchFilters p.filters r.Header.Name with
          | false => rfl
          | true =>
            rw [filterRecord_not_address ipString p r hm hr] at ha
            cases ha
      · exact ⟨Or.inr h.1, h.2⟩
    · rintro ⟨h | h, hm⟩
      · subst h
        left
        rw [filterRecord_no_match ipString p r hm] at ha
        cases ha
        simp
      · exact Or.inr ⟨h, hm⟩

/-- C9 (as stated) fails: a CNAME record whose owner name matches a configured filter is
an input record that is not an A or AAAA record, and it is missing from the output. -/
theorem FilterRecords_drops_matching_alias :
    Sample.recAlias.isAddress = false ∧
    Sample.recAlias ∈ [Sample.recAlias, Sample.recOrgrimar] ∧
    (FilterRecords Sample.lib.ipString Sample.healthFilter
      [Sample.recAlias, Sample.recOrgrimar]).map (fun res => res.2) =
        some [Sample.recOrgrimar] ∧
    Sample.recAlias ∉ [Sample.recOrgrimar] := by
  decide

/-- C9 (amended): for every input list, filter set and cache state, a record that is not
an A or AAAA record appears in the output of `FilterRecords` exactly when it is in the
input and its owner name matches none of the configured filters; such a record whose
owner name matches a filter is dropped. `FilterRecords` returns for every filter with a
positive interval, as `setup.go` builds them. -/
theorem FilterRecords_not_address (ipString : IP → String) (p : HealthCheckFilter)
    (records : List RR) (r : RR) (hr : r.isAddress = false) :
    (0 < p.interval → ∃ res, FilterRecords ipString p records = some res) ∧
    ∀ res, FilterRecords ipString p records = some res →
      (r ∈ res.2 ↔ r ∈ records ∧ matchFilters p.filters r.Header.Name = false) :=
  ⟨FilterRecords_isSome ipString records p,
    fun res h => mem_FilterRecords_of_not_address ipString records p res r hr h⟩

theorem FilterRecords_not_address_witness :
    Sample.recText.isAddress = false ∧
    (FilterRecords Sample.lib.ipString Sample.healthFilter
      [Sample.recElsewhere, Sample.recText]).map (fun res => res.2) =
        some [Sample.recElsewhere] ∧
    ((0 < Sample.healthFilter.interval →
      ∃ res, FilterRecords Sample.lib.ipString Sample.healthFilter
        [Sample.recElsewhere, Sample.recText] = some res) ∧
    ∀ res, FilterRecords Sample.lib.ipString Sample.healthFilter
        [Sample.recElsewhere, Sample.recText] = some res →
      (Sample.recText ∈ res.2 ↔
        Sample.recText ∈ [Sample.recElsewhere, Sample.recText] ∧
          matchFilters Sample.healthFilter.filters Sample.recText.Header.Name = false)) :=
  ⟨rfl, by decide, FilterRecords_not_address Sample.lib.ipString Sample.healthFilter
    [Sample.recElsewhere, Sample.recText] Sample.recText rfl⟩

end Healthchecker

namespace Healthchecker

open Dns

theorem matchFilters_iff (filters : List Filter) (name : String) :
    matchFilters filters name = true ↔ ∃ f ∈ filters, f.Match name = true := by
  induction filters with
  | nil => simp [matchFilters]
  | cons f rest ih =>
    unfold matchFilters
    by_cases h : f.Match name = true
    · simp [h]
    · simp [h, ih]

theorem FilterRecords_insert_no_match (ipString : IP → String) (p : HealthCheckFilter) (r : RR)
    (h : matchFilters p.filters r.Header.Name = false) (xs ys : List RR) :
    FilterRecords ipString p (xs ++ r :: ys) =
      (FilterRecords ipString p xs).bind fun a =>
        (FilterRecords ipString a.1 ys).map fun b => (b.1, a.2 ++ r :: b.2) := by
  rw [FilterRecords_append]
  cases ha : FilterRecords ipString p xs with
  | none => rfl
  | some a =>
    have hq : matchFilters a.1.filters r.Header.Name = false := by
      rw [(FilterRecords_facts ipString xs p a ha).1]
      exact h
    rw [Option.some_bind, Option.some_bind, FilterRecords_cons,
      filterRecord_no_match ipString a.1 r hq, Option.some_bind]
    cases FilterRecords ipString a.1 ys <;> simp

/-- C10: a record whose owner name matches none of the configured filters is not subject
to health filtering. The loop body of `FilterRecords` keeps it and leaves the filter as it
was (no probe, no cache access, no change of the cache); a whole run keeps it at its
place, and ends in the same state as the run without it (and panics exactly when that run
does); `matchFilters` is true exactly when some filter matches the name, a
`SimpleMatchFilter` matching by string equality. -/
theorem FilterRecords_no_match_frame (ipString : IP → String) (p : HealthCheckFilter) (r : RR)
    (h : matchFilters p.filters r.Header.Name = false) :
    filterRecord ipString p r = some (p, some r) ∧
    (∀ xs ys : List RR,
      FilterRecords ipString p (xs ++ r :: ys) =
        (FilterRecords ipString p xs).bind fun a =>
          (FilterRecords ipString a.1 ys).map fun b => (b.1, a.2 ++ r :: b.2)) ∧
    (∀ xs ys : List RR,
      (FilterRecords ipString p (xs ++ r :: ys)).map (fun res => res.1) =
        (FilterRecords ipString p (xs ++ ys)).map (fun res => res.1)) ∧
    (∀ (records : List RR) (res : HealthCheckFilter × List RR), r ∈ records →
      FilterRecords ipString p records = some res → r ∈ res.2) ∧
    (∀ records : List RR, 0 < p.interval →
      ∃ res, FilterRecords ipString p records = some res) ∧
    (∀ (filters : List Filter) (name : String),
      matchFilters filters name = true ↔ ∃ f ∈ filters, f.Match name = true) ∧
    (∀ s name : String, (Filter.SimpleMatchFilter s).Match name = true ↔ s = name) := by
  have frame := FilterRecords_insert_no_match ipString p r h
  refine ⟨filterRecord_no_match ipString p r h, frame, ?_, ?_,
    fun records hi => FilterRecords_isSome ipString records p hi, matchFilters_iff, ?_⟩
  · intro xs ys
    rw [frame xs ys, FilterRecords_append]
    cases FilterRecords ipString p xs with
    | none => rfl
    | some a =>
      rw [Option.some_bind, Option.some_bind]
      cases FilterRecords ipString a.1 ys <;> rfl
  · intro records res hmem hres
    obtain ⟨xs, ys, rfl⟩ := List.append_of_mem hmem
    rw [frame xs ys] at hres
    cases ha : FilterRecords ipString p xs with
    | none => simp [ha] at hres
    | some a =>
      rw [ha, Option.some_bind] at hres
      cases hb : FilterRecords ipString a.1 ys with
      | none => simp [hb] at hres
      | some b =>
        rw [hb] at hres
        cases hres
        simp
  · intro s name
    simp [Filter.Match]

theorem FilterRecords_no_match_frame_witness :
    matchFilters Sample.healthFilter.filters Sample.recElsewhere.Header.Name = false ∧
    (FilterRecords Sample.lib.ipString Sample.healthFilter
      [Sample.recOrgrimar, Sample.recElsewhere, Sample.recAlias]).map (fun res => res.2) =
        some [Sample.recOrgrimar, Sample.recElsewhere] ∧
    (filterRecord Sample.lib.ipString Sample.healthFilter Sample.recElsewhere
        = some (Sample.healthFilter, some Sample.recElsewhere) ∧
    (∀ xs ys : List RR,
      FilterRecords Sample.lib.ipString Sample.healthFilter (xs ++ Sample.recElsewhere :: ys) =
        (FilterRecords Sample.lib.ipString Sample.healthFilter xs).bind fun a =>
          (FilterRecords Sample.lib.ipString a.1 ys).map fun b =>
            (b.1, a.2 ++ Sample.recElsewhere :: b.2)) ∧
    (∀ xs ys : List RR,
      (FilterRecords Sample.lib.ipString Sample.healthFilter
          (xs ++ Sample.recElsewhere :: ys)).map (fun res => res.1) =
        (FilterRecords Sample.lib.ipString Sample.healthFilter (xs ++ ys)).map
          (fun res => res.1)) ∧
    (∀ (records : List RR) (res : HealthCheckFilter × List RR), Sample.recElsewhere ∈ records →
      FilterRecords Sample.lib.ipString Sample.healthFilter records = some res →
      Sample.recElsewhere ∈ res.2) ∧
    (∀ records : List RR, 0 < Sample.healthFilter.interval →
      ∃ res, FilterRecords Sample.lib.ipString Sample.healthFilter records = some res) ∧
    (∀ (filters : List Filter) (name : String),
      matchFilters filters name = true ↔ ∃ f ∈ filters, f.Match name = true) ∧
    (∀ s name : String, (Filter.SimpleMatchFilter s).Match name = true ↔ s = name)) :=
  ⟨by decide, by decide,
    FilterRecords_no_match_frame Sample.lib.ipString Sample.healthFilter Sample.recElsewhere
      (by decide)⟩

end Healthchecker

/-! ## Theorems: construction of the health-check filter and the probes -/

namespace Healthchecker

/-- C14: `NewHealthCheckFilter` returns an error exactly when the filter list is empty or
the cache size is not positive; on success the filter carries the given checker, interval
and filter list. -/
theorem NewHealthCheckFilter_error_iff (checker : Checker) (size interval : Int)
    (filters : List Filter) :
    ((∃ err, NewHealthCheckFilter checker size interval filters = .error err) ↔
      (filters = [] ∨ size ≤ 0)) ∧
    ((filters = [] ∨ size ≤ 0) ∨
      ∃ f, NewHealthCheckFilter checker size interval filters = .ok f ∧
        f.checker = checker ∧ f.interval = interval ∧ f.filters = filters) := by
  unfold NewHealthCheckFilter
  by_cases hf : filters = []
  · simp [hf]
  · have hlen : filters.length ≠ 0 := fun h => hf (List.length_eq_zero.mp h)
    by_cases hs : size ≤ 0
    · simp [hlen, hs]
    · simp [hlen, hs, hf]

end Healthchecker

namespace Checkers

open Strings

/-- C15: `Check` reports healthy exactly when the GET request returns a response, without
error, whose status code is below 500, so that 3xx and 4xx responses are healthy and an
error is unhealthy; `NewHttpChecker` puts the scheme `http`, the port `80` and the timeout
of 2 seconds in place of unset parameters and keeps the parameters that are set. -/
theorem HttpChecker_Check_iff (get : Client → String → Except String Response)
    (h : HttpChecker) (endpoint : String) :
    (h.Check get endpoint = true ↔
      ∃ response, get h.client (h.scheme ++ "://" ++ JoinHostPort endpoint h.port)
        = .ok response ∧ response.StatusCode < 500) ∧
    (∀ (url : String) (err : String) (client : Client) (port scheme : String),
      HttpChecker.Check (fun _ _ => .error err) ⟨client, port, scheme⟩ url = false) ∧
    (∀ (url : String) (client : Client) (port scheme : String) (status : Int),
      HttpChecker.Check (fun _ _ => .ok ⟨status⟩) ⟨client, port, scheme⟩ url
        = decide (status < 500)) ∧
    NewHttpChecker { Port := "", Timeout := 0, Scheme := "" }
      = .ok { client := { Timeout := 2000000000, useLastResponse := true },
              port := "80", scheme := "http" } ∧
    (∀ prm : HTTPCheckerParams,
      NewHttpChecker prm = .ok
        { client := { Timeout := if prm.Timeout ≤ 0 then 2000000000 else prm.Timeout,
                      useLastResponse := true },
          port := if prm.Port.length = 0 then "80" else prm.Port,
          scheme := if prm.Scheme.length = 0 then "http" else prm.Scheme }) := by
  refine ⟨?_, ?_, ?_, ?_, ?_⟩
  · unfold HttpChecker.Check
    cases hget : get h.client (h.scheme ++ "://" ++ JoinHostPort endpoint h.port) with
    | error err => simp
    | ok response => simp [StatusInternalServerError]
  · intros
    rfl
  · intros
    simp [HttpChecker.Check, StatusInternalServerError]
  · rfl
  · intro prm
    unfold NewHttpChecker
    simp only [defaultHTTPTimeout, defaultHTTPPort, defaultHTTPScheme]
    split_ifs <;> simp_all

theorem isIPv4Scan_iff (l : List Char) :
    isIPv4Scan l = true ↔
      ∃ pre post : List Char, l = pre ++ '.' :: post ∧ '.' ∉ pre ∧ ':' ∉ pre := by
  induction l with
  | nil => simp [isIPv4Scan]
  | cons c rest ih =>
    unfold isIPv4Scan
    by_cases hdot : c = '.'
    · subst hdot
      simp only [if_true, true_iff]
      exact ⟨[], rest, rfl, by simp, by simp⟩
    · by_cases hcol : c = ':'
      · subst hcol
        simp only [hdot, if_false, if_true]
        constructor
        · intro h
          exact Bool.noConfusion h
        · rintro ⟨pre, post, heq, h1, h2⟩
          cases pre with
          | nil =>
            simp only [List.nil_append, List.cons.injEq] at heq
            exact absurd heq.1 hdot
          | cons a pre =>
            simp only [List.cons_append, List.cons.injEq] at heq
            exact absurd (heq.1 ▸ List.mem_cons_self _ _) h2
      · simp only [hdot, hcol, if_false, ih]
        constructor
        · rintro ⟨pre, post, rfl, h1, h2⟩
          refine ⟨c :: pre, post, rfl, ?_, ?_⟩
          · simp only [List.mem_cons, not_or]
            exact ⟨fun h => hdot h.symm, h1⟩
          · simp only [List.mem_cons, not_or]
            exact ⟨fun h => hcol h.symm, h2⟩
        · rintro ⟨pre, post, heq, h1, h2⟩
          cases pre with
          | nil =>
            simp only [List.nil_append, List.cons.injEq] at heq
            exact absurd heq.1 hdot
          | cons a pre =>
            simp only [List.cons_append, List.cons.injEq] at heq
            refine ⟨pre, post, heq.2, ?_, ?_⟩
            · exact fun h => h1 (List.mem_cons_of_mem _ h)
            · exact fun h => h2 (List.mem_cons_of_mem _ h)

theorem isIPv4Scan_colon_first (pre post : List Char) (h1 : '.' ∉ pre) :
    isIPv4Scan (pre ++ ':' :: post) = false := by
  induction pre with
  | nil => simp [isIPv4Scan]
  | cons c pre ih =>
    simp only [List.mem_cons, not_or] at h1
    simp only [List.cons_append, isIPv4Scan]
    have hc : ¬ c = '.' := fun h => h1.1 h.symm
    simp only [hc, if_false]
    split_ifs
    · rfl
    · exact ih h1.2

theorem isIPv4Scan_neither (l : List Char) (h1 : '.' ∉ l) :
    isIPv4Scan l = false := by
  cases h : isIPv4Scan l with
  | false => rfl
  | true =>
    obtain ⟨pre, post, rfl, _, _⟩ := (isIPv4Scan_iff l).mp h
    exact absurd (by simp) h1

/-- C16: `isIPv4 s` is true exactly when `s` contains a `.` and no `:` stands before the
first `.`; it is false for every string whose first `.` or `:` is a `:`, such as
`::ffff:1.2.3.4`, and for every string that contains neither character. -/
theorem isIPv4_iff :
    (∀ s : String, isIPv4 s = true ↔
      ∃ pre post : List Char, s.data = pre ++ '.' :: post ∧ '.' ∉ pre ∧ ':' ∉ pre) ∧
    (∀ pre post : List Char, '.' ∉ pre → ':' ∉ pre → isIPv4 ⟨pre ++ ':' :: post⟩ = false) ∧
    (∀ s : String, '.' ∉ s.data → ':' ∉ s.data → isIPv4 s = false) ∧
    isIPv4 "::ffff:1.2.3.4" = false ∧ isIPv4 "1.2.3.4" = true := by
  refine ⟨fun s => isIPv4Scan_iff s.data, ?_, ?_, by decide, by decide⟩
  · intro pre post h1 _
    exact isIPv4Scan_colon_first pre post h1
  · intro s h1 _
    exact isIPv4Scan_neither s.data h1

theorem isIPv4_iff_witness :
    isIPv4 ⟨['f', 'e', '8', '0'] ++ ':' :: [':', '1', '.', '2']⟩ = false ∧
    isIPv4 "localhost" = false :=
  ⟨isIPv4_iff.2.1 ['f', 'e', '8', '0'] [':', '1', '.', '2'] (by decide) (by decide),
    isIPv4_iff.2.2.1 "localhost" (by decide) (by decide)⟩

end Checkers

/-! ## Theorems: query types and record construction (package `nns`) -/

namespace Nns

open Dns NnsContract

/-- C19 (as stated) fails: for a query of type SOA `getNNSType` returns an error, not the
registry record type SOA. -/
theorem getNNSType_SOA_error :
    Sample.querySOA.QType = TypeSOA ∧
    getNNSType Sample.querySOA = .error "usupported record type" ∧
    getNNSType Sample.querySOA ≠ .ok RecordType.SOA := by
  refine ⟨rfl, rfl, ?_⟩
  intro h
  cases h

/-- C19 (amended): `getNNSType` maps each of the query types A, AAAA, TXT and CNAME to the
registry record type of the same name without error, and returns an error for every other
query type, SOA included. -/
theorem getNNSType_cases (name : String) (qclass : Nat) :
    getNNSType { QName := name, QType := TypeA, QClass := qclass } = .ok RecordType.A ∧
    getNNSType { QName := name, QType := TypeAAAA, QClass := qclass } = .ok RecordType.AAAA ∧
    getNNSType { QName := name, QType := TypeTXT, QClass := qclass } = .ok RecordType.TXT ∧
    getNNSType { QName := name, QType := TypeCNAME, QClass := qclass } = .ok RecordType.CNAME ∧
    getNNSType { QName := name, QType := TypeSOA, QClass := qclass }
      = .error "usupported record type" ∧
    (∀ qtype : Nat, qtype ≠ TypeA → qtype ≠ TypeAAAA → qtype ≠ TypeTXT → qtype ≠ TypeCNAME →
      getNNSType { QName := name, QType := qtype, QClass := qclass }
        = .error "usupported record type") := by
  refine ⟨rfl, rfl, rfl, rfl, rfl, ?_⟩
  intro qtype h1 h2 h3 h4
  simp [getNNSType, h1, h2, h3, h4]

theorem getNNSType_cases_witness :
    getNNSType { QName := "neofs.", QType := 15, QClass := 1 }
      = .error "usupported record type" :=
  (getNNSType_cases "neofs." 1).2.2.2.2.2 15 (by decide) (by decide) (by decide) (by decide)

theorem formResRecords_eq_map (parseIP : String → IP) (hdr : RR_Header)
    (ht : hdr.Rrtype = TypeA ∨ hdr.Rrtype = TypeAAAA ∨ hdr.Rrtype = TypeTXT ∨
      hdr.Rrtype = TypeCNAME) (resolved : List String) :
    formResRecords parseIP hdr resolved = .ok (resolved.map (recordFor parseIP hdr)) := by
  induction resolved with
  | nil => rfl
  | cons record rest ih =>
    have hrec : formRec parseIP hdr.Rrtype record hdr = .ok (recordFor parseIP hdr record) := by
      rcases ht with h | h | h | h <;>
        simp [formRec, recordFor, h, TypeA, TypeAAAA, TypeTXT, TypeCNAME]
    simp only [formResRecords, hrec, ih, List.map_cons]

/-- C20: for a query of type A, AAAA, TXT or CNAME and every list of strings returned by
the registry, `formResRecords` yields one record per string, in the same order, each with
the header made of the query's name, type and class and TTL 0, and with the data built
from the string by the type: the parsed address for A and AAAA, the string as the single
text of a TXT record or as the target of a CNAME record; `resolveContractRecords` returns
these records. -/
theorem formResRecords_records (parseIP : String → IP) (n : NNS) (nnsContract : Contract)
    (state : Request) (nnsType : RecordType) (resolved : List String)
    (ht : state.QType = TypeA ∨ state.QType = TypeAAAA ∨ state.QType = TypeTXT ∨
      state.QType = TypeCNAME)
    (hty : getNNSType state = .ok nnsType)
    (hres : nnsContract.Resolve (nnsContract.PrepareName state.QName n.dnsDomain) nnsType
      = .ok resolved) :
    formResRecords parseIP
        { Name := state.QName, Rrtype := state.QType, Class := state.QClass, Ttl := 0 } resolved
      = .ok (resolved.map fun res =>
          if state.QType = TypeA then
            RR.A { Name := state.QName, Rrtype := state.QType, Class := state.QClass, Ttl := 0 }
              (parseIP res)
          else if state.QType = TypeAAAA then
            RR.AAAA { Name := state.QName, Rrtype := state.QType, Class := state.QClass, Ttl := 0 }
              (parseIP res)
          else if state.QType = TypeTXT then
            RR.TXT { Name := state.QName, Rrtype := state.QType, Class := state.QClass, Ttl := 0 }
              [res]
          else
            RR.CNAME { Name := state.QName, Rrtype := state.QType, Class := state.QClass, Ttl := 0 }
              res) ∧
    n.resolveContractRecords parseIP nnsContract state
      = formResRecords parseIP
        { Name := state.QName, Rrtype := state.QType, Class := state.QClass, Ttl := 0 } resolved := by
  have h := formResRecords_eq_map parseIP
    { Name := state.QName, Rrtype := state.QType, Class := state.QClass, Ttl := 0 } ht resolved
  refine ⟨h, ?_⟩
  unfold NNS.resolveContractRecords
  simp only [hty, hres, h]

theorem formResRecords_records_witness :
    (formResRecords Sample.lib.parseIP
        { Name := Sample.query.QName, Rrtype := Sample.query.QType,
          Class := Sample.query.QClass, Ttl := 0 } ["10.0.0.1", "10.0.0.2"]).toOption.map
        List.length = some 2 ∧
    Sample.nns.resolveContractRecords Sample.lib.parseIP Sample.plainContract Sample.query
      = formResRecords Sample.lib.parseIP
        { Name := Sample.query.QName, Rrtype := Sample.query.QType,
          Class := Sample.query.QClass, Ttl := 0 } ["10.0.0.1", "10.0.0.2"] := by
  have h := formResRecords_records Sample.lib.parseIP Sample.nns Sample.plainContract
    Sample.query RecordType.TXT ["10.0.0.1", "10.0.0.2"] (Or.inr (Or.inr (Or.inl rfl))) rfl rfl
  refine ⟨?_, h.2⟩
  rw [h.1]
  rfl

end Nns

/-! ## Theorems: admission and cached health in `FilterRecords` -/

namespace Healthchecker

open Dns

theorem Cache.Get_of_Peek_none (c : Cache) (key : String) (h : c.Peek key = none) :
    c.Get key = (c, none) := by
  unfold Cache.Peek at h
  unfold Cache.Get
  cases hf : c.items.find? (fun kv => kv.1 == key) with
  | none => rfl
  | some kv => simp [hf] at h

theorem Cache.Get_of_Peek_some (c : Cache) (key : String) (e : entry)
    (h : c.Peek key = some e) :
    (c.Get key).2 = some e ∧ (c.Get key).1.Peek key = some e ∧
    (c.Get key).1.size = c.size ∧
    (c.Get key).1.items.length ≤ c.items.length ∧
    (∀ kv ∈ (c.Get key).1.items, kv ∈ c.items) := by
  unfold Cache.Peek at h
  unfold Cache.Get
  cases hf : c.items.find? (fun kv => kv.1 == key) with
  | none => simp [hf] at h
  | some kv =>
    have he : kv.2 = e := by simpa [hf] using h
    have hkey : (kv.1 == key) = true := by simpa using List.find?_some hf
    have hmem : kv ∈ c.items := List.mem_of_find?_eq_some hf
    refine ⟨by simp [he], ?_, rfl, ?_, ?_⟩
    · simp [Cache.Peek, List.find?_cons, hkey, he]
    · simp only [List.length_cons]
      have hlt : (c.items.filter (fun kv => !(kv.1 == key))).length < c.items.length := by
        apply List.length_filter_lt_length_iff_exists.mpr
        exact ⟨kv, hmem, by simp [hkey]⟩
      omega
    · intro x hx
      simp only [List.mem_cons] at hx
      rcases hx with rfl | hx
      · exact hmem
      · exact (List.mem_filter.mp hx).1

theorem Cache.Add_of_Peek_none (c : Cache) (key : String) (value : entry)
    (h : c.Peek key = none) (hs : 1 ≤ c.size) :
    (c.Add key value).1.Peek key = some value ∧ (c.Add key value).1.size = c.size := by
  unfold Cache.Peek at h
  have hnone : c.items.find? (fun kv => kv.1 == key) = none := by
    cases hf : c.items.find? (fun kv => kv.1 == key) with
    | none => rfl
    | some kv => simp [hf] at h
  have hany : c.items.any (fun kv => kv.1 == key) = false := by
    rw [List.any_eq_false]
    intro x hx
    have := List.find?_eq_none.mp hnone x hx
    simpa using this
  unfold Cache.Add
  simp only [hany, Bool.false_eq_true, if_false]
  split_ifs with hlen
  · cases hitems : c.items with
    | nil =>
      rw [hitems] at hlen
      simp at hlen
      omega
    | cons x rest =>
      simp [Cache.Peek, List.dropLast, List.find?_cons]
  · simp [Cache.Peek, List.find?_cons]

theorem filterRecord_admit (ipString : IP → String) (p : HealthCheckFilter) (r : RR)
    (endpoint : String)
    (hm : matchFilters p.filters r.Header.Name = true)
    (hr : getEndpoint ipString r = .ok endpoint)
    (hc : p.cache.Peek endpoint = none) :
    filterRecord ipString p r =
      (({ p with trace := p.trace ++ [.cacheGet endpoint] } : HealthCheckFilter).put
        endpoint).map (fun q => (q, some r)) := by
  unfold filterRecord
  simp only [hm, if_true, hr, HealthCheckFilter.get, Cache.Get_of_Peek_none p.cache endpoint hc]
  cases ({ p with trace := p.trace ++ [.cacheGet endpoint] } : HealthCheckFilter).put
    endpoint <;> rfl

theorem filterRecord_cached (ipString : IP → String) (p : HealthCheckFilter) (r : RR)
    (endpoint : String) (e : entry)
    (hm : matchFilters p.filters r.Header.Name = true)
    (hr : getEndpoint ipString r = .ok endpoint)
    (hc : p.cache.Peek endpoint = some e) :
    filterRecord ipString p r =
      some ({ p with cache := (p.cache.Get endpoint).1,
                     trace := p.trace ++ [.cacheGet endpoint] },
        if e.healthy then some r else none) := by
  have hget := (Cache.Get_of_Peek_some p.cache endpoint e hc).1
  unfold filterRecord
  simp only [hm, if_true, hr, HealthCheckFilter.get]
  rcases hg : p.cache.Get endpoint with ⟨c', v⟩
  rw [hg] at hget
  simp only at hget
  subst hget
  simp only
  split_ifs <;> rfl

theorem put_spec (p : HealthCheckFilter) (endpoint : String) (hi : 0 < p.interval)
    (hc : p.cache.Peek endpoint = none) (hs : 1 ≤ p.cache.size) :
    ∃ q : HealthCheckFilter, p.put endpoint = some q ∧
      q.cache.Peek endpoint =
        some { endpoint := endpoint, healthy := p.checker.Check p.trace endpoint,
               quit := p.trace.length } ∧
      ∃ hook : List Event, (∀ ev ∈ hook, ∃ quit, ev = Event.closeQuit quit) ∧
        q.trace =
          p.trace ++ [.check endpoint, .cacheAdd endpoint] ++ hook ++
            [.startLoop endpoint p.trace.length] := by
  have hadd := Cache.Add_of_Peek_none p.cache endpoint
    { endpoint := endpoint, healthy := p.checker.Check p.trace endpoint,
      quit := p.trace.length } hc hs
  refine ⟨_, put_of_interval p endpoint hi, hadd.1, _, ?_, rfl⟩
  intro ev hev
  unfold onEvict at hev
  split at hev
  · rename_i e _
    exact ⟨e.quit, by simpa using hev⟩
  · simp at hev

/-- One more record at the end of the list, for an endpoint that has an entry in the cache
when the record is met. -/
theorem FilterRecords_snoc_cached (ipString : IP → String) (p q : HealthCheckFilter)
    (pre out : List RR) (r : RR) (endpoint : String) (e : entry)
    (hm : matchFilters p.filters r.Header.Name = true)
    (hr : getEndpoint ipString r = .ok endpoint)
    (hpre : FilterRecords ipString p pre = some (q, out))
    (hc : q.cache.Peek endpoint = some e) :
    FilterRecords ipString p (pre ++ [r]) =
      some ({ q with cache := (q.cache.Get endpoint).1,
                     trace := q.trace ++ [.cacheGet endpoint] },
        out ++ if e.healthy then [r] else []) := by
  have hq : matchFilters q.filters r.Header.Name = true := by
    rw [(FilterRecords_facts ipString pre p _ hpre).1]
    exact hm
  have hstep := filterRecord_cached ipString q r endpoint e hq hr hc
  have hone : FilterRecords ipString q [r] =
      some ({ q with cache := (q.cache.Get endpoint).1,
                     trace := q.trace ++ [.cacheGet endpoint] },
        if e.healthy then [r] else []) := by
    rw [FilterRecords_cons, hstep, Option.some_bind, FilterRecords]
    cases e.healthy <;> rfl
  exact FilterRecords_append_eq_some ipString pre [r] p _ _ hpre hone

/-- One more record at the end of the list, for an endpoint that has no entry in the cache
when the record is met. -/
theorem FilterRecords_snoc_admit (ipString : IP → String) (p q : HealthCheckFilter)
    (pre out : List RR) (r : RR) (endpoint : String)
    (hm : matchFilters p.filters r.Header.Name = true)
    (hr : getEndpoint ipString r = .ok endpoint)
    (hpre : FilterRecords ipString p pre = some (q, out))
    (hc : q.cache.Peek endpoint = none) (hs : 1 ≤ p.cache.size) (hi : 0 < p.interval) :
    ∃ q1 : HealthCheckFilter,
      FilterRecords ipString p (pre ++ [r]) = some (q1, out ++ [r]) ∧
      q1.cache.Peek endpoint =
        some { endpoint := endpoint,
               healthy := p.checker.Check (q.trace ++ [.cacheGet endpoint]) endpoint,
               quit := q.trace.length + 1 } ∧
      ∃ hook : List Event, (∀ ev ∈ hook, ∃ quit, ev = Event.closeQuit quit) ∧
        q1.trace =
          q.trace ++ [.cacheGet endpoint] ++ [.check endpoint, .cacheAdd endpoint] ++ hook ++
            [.startLoop endpoint (q.trace.length + 1)] := by
  have hf := FilterRecords_facts ipString pre p _ hpre
  have hq : matchFilters q.filters r.Header.Name = true := by
    rw [hf.1]
    exact hm
  have hstep := filterRecord_admit ipString q r endpoint hq hr hc
  obtain ⟨q1, hput, hpeek, hook, hhook, htrace⟩ :=
    put_spec { q with trace := q.trace ++ [.cacheGet endpoint] } endpoint
      (by rw [← hf.2.1] at hi; exact hi) hc (by rw [← hf.2.2.2] at hs; exact hs)
  simp only [List.length_append, List.length_singleton] at hpeek htrace
  rw [hput] at hstep
  have hone : FilterRecords ipString q [r] = some (q1, [r]) := by
    rw [FilterRecords_cons, hstep]
    rfl
  refine ⟨q1, FilterRecords_append_eq_some ipString pre [r] p _ _ hpre hone, ?_,
    hook, hhook, htrace⟩
  rw [hpeek]
  have hck : q.checker = p.checker := hf.2.2.1
  simp only [hck]

/-- Records that match no filter, are no address records or are for an endpoint that has
an entry in the cache leave the entry in the cache: no probe is run, nothing is added. -/
theorem FilterRecords_keeps_entry (ipString : IP → String) (endpoint : String) (e : entry)
    (mid : List RR) (q : HealthCheckFilter)
    (hc : q.cache.Peek endpoint = some e)
    (hmid : ∀ m ∈ mid, matchFilters q.filters m.Header.Name = false ∨ m.isAddress = false ∨
      getEndpoint ipString m = .ok endpoint) :
    ∃ (q2 : HealthCheckFilter) (out2 : List RR) (n : Nat),
      FilterRecords ipString q mid = some (q2, out2) ∧
      q2.cache.Peek endpoint = some e ∧
      q2.trace = q.trace ++ List.replicate n (Event.cacheGet endpoint) := by
  induction mid generalizing q with
  | nil => exact ⟨q, [], 0, rfl, hc, by simp⟩
  | cons m rest ih =>
    have hrest : ∀ q' : HealthCheckFilter, q'.filters = q.filters →
        ∀ x ∈ rest, matchFilters q'.filters x.Header.Name = false ∨ x.isAddress = false ∨
          getEndpoint ipString x = .ok endpoint := by
      intro q' hq' x hx
      rw [hq']
      exact hmid x (List.mem_cons_of_mem _ hx)
    have same : ∀ o : Option RR, filterRecord ipString q m = some (q, o) →
        ∃ (q2 : HealthCheckFilter) (out2 : List RR) (n : Nat),
          FilterRecords ipString q (m :: rest) = some (q2, out2) ∧
          q2.cache.Peek endpoint = some e ∧
          q2.trace = q.trace ++ List.replicate n (Event.cacheGet endpoint) := by
      intro o ho
      obtain ⟨q2, out2, n, h2, hp2, ht2⟩ := ih q hc (hrest q rfl)
      exact ⟨q2, o.toList ++ out2, n,
        (FilterRecords_cons_eq_some ipString q m rest _).mpr ⟨(q, o), (q2, out2), ho, h2, rfl⟩,
        hp2, ht2⟩
    cases hmatch : matchFilters q.filters m.Header.Name with
    | false => exact same _ (filterRecord_no_match ipString q m hmatch)
    | true =>
      rcases hmid m (List.mem_cons_self _ _) with h | h | h
      · rw [hmatch] at h
        cases h
      · exact same _ (filterRecord_not_address ipString q m hmatch h)
      · have hstep := filterRecord_cached ipString q m endpoint e hmatch h hc
        have hpeek := (Cache.Get_of_Peek_some q.cache endpoint e hc).2.1
        obtain ⟨q2, out2, n, h2, hp2, ht2⟩ :=
          ih { q with cache := (q.cache.Get endpoint).1,
                      trace := q.trace ++ [.cacheGet endpoint] } hpeek (hrest _ rfl)
        refine ⟨q2, (if e.healthy then some m else none).toList ++ out2, n + 1,
          (FilterRecords_cons_eq_some ipString q m rest _).mpr ⟨_, (q2, out2), hstep, h2, rfl⟩,
          hp2, ?_⟩
        rw [ht2, List.replicate_succ]
        simp

end Healthchecker

namespace Healthchecker

open Dns

/-- A later record for an endpoint that has an entry in the cache, after records that
match no filter, are no address records or are for that endpoint. -/
theorem FilterRecords_later_cached (ipString : IP → String) (p q1 : HealthCheckFilter)
    (pre1 out1 mid : List RR) (r2 : RR) (endpoint : String) (e : entry)
    (hpre : FilterRecords ipString p pre1 = some (q1, out1))
    (hc : q1.cache.Peek endpoint = some e)
    (hm2 : matchFilters p.filters r2.Header.Name = true)
    (hr2 : getEndpoint ipString r2 = .ok endpoint)
    (hmid : ∀ m ∈ mid, matchFilters p.filters m.Header.Name = false ∨ m.isAddress = false ∨
      getEndpoint ipString m = .ok endpoint) :
    ∃ (q2 q3 : HealthCheckFilter) (out2 : List RR) (n : Nat),
      FilterRecords ipString p (pre1 ++ mid) = some (q2, out2) ∧
      q2.cache.Peek endpoint = some e ∧
      q2.trace = q1.trace ++ List.replicate n (Event.cacheGet endpoint) ∧
      FilterRecords ipString p (pre1 ++ (mid ++ [r2])) =
        some (q3, out2 ++ if e.healthy then [r2] else []) ∧
      q3.trace = q2.trace ++ [.cacheGet endpoint] := by
  have hf := (FilterRecords_facts ipString pre1 p _ hpre).1
  obtain ⟨q2, out2, n, h2, hp2, ht2⟩ := FilterRecords_keeps_entry ipString endpoint e mid q1 hc
    (by
      intro m hmem
      rw [hf]
      exact hmid m hmem)
  have hall := FilterRecords_append_eq_some ipString pre1 mid p _ _ hpre h2
  have hlast := FilterRecords_snoc_cached ipString p q2 (pre1 ++ mid) (out1 ++ out2) r2
    endpoint e hm2 hr2 hall hp2
  refine ⟨q2, { q2 with cache := (q2.cache.Get endpoint).1,
                         trace := q2.trace ++ [.cacheGet endpoint] },
    out1 ++ out2, n, hall, hp2, ht2, ?_, rfl⟩
  rw [← List.append_assoc]
  exact hlast

/-- C11: when `FilterRecords` meets a record whose owner name matches a filter, which is
an A or AAAA record (it has an endpoint) and whose endpoint is not in the cache when the
record is met (the cache has a positive capacity, the probe interval is positive), the
record is put in the output whatever the probe returns; exactly one probe is run, a probe
loop is started, and afterwards the cache holds an entry for the endpoint whose health
flag is the result of that probe; the run goes on from that state. With an interval that
is not positive the creation of the ticker panics. -/
theorem FilterRecords_optimistic_admit (ipString : IP → String) (p q : HealthCheckFilter)
    (pre post out : List RR) (r : RR) (endpoint : String)
    (hm : matchFilters p.filters r.Header.Name = true)
    (hr : getEndpoint ipString r = .ok endpoint)
    (hpre : FilterRecords ipString p pre = some (q, out))
    (hc : q.cache.Peek endpoint = none) (hs : 1 ≤ p.cache.size) :
    (0 < p.interval →
      ∃ q1 : HealthCheckFilter,
        FilterRecords ipString p (pre ++ [r]) = some (q1, out ++ [r]) ∧
        q1.cache.Peek endpoint =
          some { endpoint := endpoint,
                 healthy := p.checker.Check (q.trace ++ [.cacheGet endpoint]) endpoint,
                 quit := q.trace.length + 1 } ∧
        (∃ hook : List Event, (∀ ev ∈ hook, ∃ quit, ev = Event.closeQuit quit) ∧
          q1.trace =
            q.trace ++ [.cacheGet endpoint] ++ [.check endpoint, .cacheAdd endpoint] ++ hook ++
              [.startLoop endpoint (q.trace.length + 1)]) ∧
        ∃ (q2 : HealthCheckFilter) (out2 : List RR),
          FilterRecords ipString q1 post = some (q2, out2) ∧
          FilterRecords ipString p (pre ++ r :: post) = some (q2, out ++ r :: out2)) ∧
    (p.interval ≤ 0 → FilterRecords ipString p (pre ++ r :: post) = none) := by
  have hf := FilterRecords_facts ipString pre p _ hpre
  constructor
  · intro hi
    obtain ⟨q1, hsnoc, hpeek, hook⟩ :=
      FilterRecords_snoc_admit ipString p q pre out r endpoint hm hr hpre hc hs hi
    have hi1 : 0 < q1.interval := by
      rw [(FilterRecords_facts ipString (pre ++ [r]) p _ hsnoc).2.1]
      exact hi
    obtain ⟨⟨q2, out2⟩, hpost⟩ := FilterRecords_isSome ipString post q1 hi1
    refine ⟨q1, hsnoc, hpeek, hook, q2, out2, hpost, ?_⟩
    have := FilterRecords_append_eq_some ipString (pre ++ [r]) post p _ _ hsnoc hpost
    simpa using this
  · intro hi
    have hq : matchFilters q.filters r.Header.Name = true := by
      rw [hf.1]
      exact hm
    have hiq : q.interval ≤ 0 := by
      rw [hf.2.1]
      exact hi
    rw [FilterRecords_append, hpre, Option.some_bind, FilterRecords_cons,
      filterRecord_admit ipString q r endpoint hq hr hc,
      put_of_not_interval { q with trace := q.trace ++ [.cacheGet endpoint] } endpoint hiq]
    rfl

theorem FilterRecords_optimistic_admit_witness :
    (FilterRecords Sample.lib.ipString Sample.sickFilter
      [Sample.recElsewhere, Sample.recOrgrimar, Sample.recWarsongHold]).map (fun res => res.2) =
        some [Sample.recElsewhere, Sample.recOrgrimar, Sample.recWarsongHold] ∧
    (FilterRecords Sample.lib.ipString Sample.sickFilter
      [Sample.recElsewhere, Sample.recOrgrimar]).map
        (fun res => res.1.cache.Peek "68.68.0.1") =
        some (some { endpoint := "68.68.0.1", healthy := false, quit := 1 }) ∧
    ((0 < Sample.sickFilter.interval →
      ∃ q1 : HealthCheckFilter,
        FilterRecords Sample.lib.ipString Sample.sickFilter
            ([Sample.recElsewhere] ++ [Sample.recOrgrimar]) =
          some (q1, [Sample.recElsewhere] ++ [Sample.recOrgrimar]) ∧
        q1.cache.Peek "68.68.0.1" =
          some { endpoint := "68.68.0.1",
                 healthy := Sample.sickFilter.checker.Check
                   (Sample.sickFilter.trace ++ [.cacheGet "68.68.0.1"]) "68.68.0.1",
                 quit := Sample.sickFilter.trace.length + 1 } ∧
        (∃ hook : List Event, (∀ ev ∈ hook, ∃ quit, ev = Event.closeQuit quit) ∧
          q1.trace =
            Sample.sickFilter.trace ++ [.cacheGet "68.68.0.1"] ++
              [.check "68.68.0.1", .cacheAdd "68.68.0.1"] ++ hook ++
              [.startLoop "68.68.0.1" (Sample.sickFilter.trace.length + 1)]) ∧
        ∃ (q2 : HealthCheckFilter) (out2 : List RR),
          FilterRecords Sample.lib.ipString q1 [Sample.recWarsongHold] = some (q2, out2) ∧
          FilterRecords Sample.lib.ipString Sample.sickFilter
              ([Sample.recElsewhere] ++ Sample.recOrgrimar :: [Sample.recWarsongHold]) =
            some (q2, [Sample.recElsewhere] ++ Sample.recOrgrimar :: out2)) ∧
    (Sample.sickFilter.interval ≤ 0 →
      FilterRecords Sample.lib.ipString Sample.sickFilter
        ([Sample.recElsewhere] ++ Sample.recOrgrimar :: [Sample.recWarsongHold]) = none)) :=
  ⟨by decide, by decide,
    FilterRecords_optimistic_admit Sample.lib.ipString Sample.sickFilter Sample.sickFilter
      [Sample.recElsewhere] [Sample.recWarsongHold] [Sample.recElsewhere] Sample.recOrgrimar
      "68.68.0.1" (by decide) (by rfl) (by rfl) (by decide) (by decide)⟩

end Healthchecker

namespace Healthchecker

open Dns

/-- C12 (as stated) fails for a second record for the same endpoint later in the list: in
a filter with a cache of size 1 and a probe that reports unhealthy, the first record for
`68.68.0.1` leaves an entry with health flag false; the record for `68.68.0.2` evicts it;
the second record for `68.68.0.1` is then probed anew and kept, although the flag was
false. -/
theorem FilterRecords_evicted_probed_again :
    (FilterRecords Sample.lib.ipString Sample.smallFilter [Sample.recOrgrimar]).map
        (fun res => res.1.cache.Peek "68.68.0.1") =
      some (some { endpoint := "68.68.0.1", healthy := false, quit := 1 }) ∧
    (FilterRecords Sample.lib.ipString Sample.smallFilter
        [Sample.recOrgrimar, Sample.recWarsongHold]).map
        (fun res => res.1.cache.Peek "68.68.0.1") = some none ∧
    (FilterRecords Sample.lib.ipString Sample.smallFilter
        [Sample.recOrgrimar, Sample.recWarsongHold, Sample.recOrgrimar]).map
        (fun res => res.2) =
      some [Sample.recOrgrimar, Sample.recWarsongHold, Sample.recOrgrimar] ∧
    (FilterRecords Sample.lib.ipString Sample.smallFilter
        [Sample.recOrgrimar, Sample.recWarsongHold, Sample.recOrgrimar]).map
        (fun res => res.1.trace) =
      some [.cacheGet "68.68.0.1", .check "68.68.0.1", .cacheAdd "68.68.0.1",
            .startLoop "68.68.0.1" 1,
            .cacheGet "68.68.0.2", .check "68.68.0.2", .cacheAdd "68.68.0.2", .closeQuit 1,
            .startLoop "68.68.0.2" 5,
            .cacheGet "68.68.0.1", .check "68.68.0.1", .cacheAdd "68.68.0.1", .closeQuit 5,
            .startLoop "68.68.0.1" 10] := by
  decide

/-- C12 (amended): when `FilterRecords` meets a record whose owner name matches a filter,
which is an A or AAAA record and whose endpoint has an entry in the cache when the record
is met, the record is put in the output exactly when the health flag of that entry is
true; the only effect is the cache lookup (no probe is run, no loop is started, nothing is
added to the cache, the entry stays), and the run goes on from that state. A later record
for the same endpoint in the same list is treated in the same way, with the same entry and
again without probe, when every record in between matches no filter, is no address record
or is for that endpoint; so it is after a first record that was admitted, where the later
record is kept exactly when the probe run for the first reported healthy. -/
theorem FilterRecords_cached_health (ipString : IP → String) (p q : HealthCheckFilter)
    (pre out : List RR) (r : RR) (endpoint : String) (e : entry)
    (hm : matchFilters p.filters r.Header.Name = true)
    (hr : getEndpoint ipString r = .ok endpoint)
    (hpre : FilterRecords ipString p pre = some (q, out))
    (hc : q.cache.Peek endpoint = some e) :
    ∃ q1 : HealthCheckFilter,
      FilterRecords ipString p (pre ++ [r]) =
        some (q1, out ++ if e.healthy then [r] else []) ∧
      q1.trace = q.trace ++ [.cacheGet endpoint] ∧
      q1.cache.Peek endpoint = some e ∧
      q1.cache.items.length ≤ q.cache.items.length ∧
      (∀ kv ∈ q1.cache.items, kv ∈ q.cache.items) ∧
      (∀ post : List RR,
        FilterRecords ipString p (pre ++ r :: post) =
          (FilterRecords ipString q1 post).map fun b =>
            (b.1, (out ++ if e.healthy then [r] else []) ++ b.2)) ∧
      (∀ (mid : List RR) (r2 : RR),
        matchFilters p.filters r2.Header.Name = true →
        getEndpoint ipString r2 = .ok endpoint →
        (∀ m ∈ mid, matchFilters p.filters m.Header.Name = false ∨ m.isAddress = false ∨
          getEndpoint ipString m = .ok endpoint) →
        ∃ (q2 q3 : HealthCheckFilter) (out2 : List RR) (n : Nat),
          FilterRecords ipString p (pre ++ r :: mid) = some (q2, out2) ∧
          q2.cache.Peek endpoint = some e ∧
          q2.trace = q1.trace ++ List.replicate n (Event.cacheGet endpoint) ∧
          FilterRecords ipString p (pre ++ r :: (mid ++ [r2])) =
            some (q3, out2 ++ if e.healthy then [r2] else []) ∧
          q3.trace = q2.trace ++ [.cacheGet endpoint]) ∧
      (∀ (p0 q0 : HealthCheckFilter) (pre0 out0 mid : List RR) (r2 : RR),
        p0.filters = p.filters → 0 < p0.interval → 1 ≤ p0.cache.size →
        FilterRecords ipString p0 pre0 = some (q0, out0) →
        q0.cache.Peek endpoint = none →
        matchFilters p.filters r2.Header.Name = true →
        getEndpoint ipString r2 = .ok endpoint →
        (∀ m ∈ mid, matchFilters p.filters m.Header.Name = false ∨ m.isAddress = false ∨
          getEndpoint ipString m = .ok endpoint) →
        ∃ (q2 q3 : HealthCheckFilter) (out2 : List RR),
          FilterRecords ipString p0 (pre0 ++ r :: mid) = some (q2, out0 ++ r :: out2) ∧
          FilterRecords ipString p0 (pre0 ++ r :: (mid ++ [r2])) =
            some (q3, out0 ++ r :: out2 ++
              if p0.checker.Check (q0.trace ++ [.cacheGet endpoint]) endpoint then [r2]
              else [])) := by
  have hsnoc := FilterRecords_snoc_cached ipString p q pre out r endpoint e hm hr hpre hc
  have hget := Cache.Get_of_Peek_some q.cache endpoint e hc
  refine ⟨_, hsnoc, rfl, hget.2.1, hget.2.2.2.1, hget.2.2.2.2, ?_, ?_, ?_⟩
  · intro post
    have happ := FilterRecords_append ipString (pre ++ [r]) post p
    rw [hsnoc, Option.some_bind] at happ
    rw [← happ]
    simp
  · intro mid r2 hm2 hr2 hmid
    obtain ⟨q2, q3, out2, n, h2, hp2, ht2, h3, ht3⟩ :=
      FilterRecords_later_cached ipString p _ (pre ++ [r]) _ mid r2 endpoint e hsnoc hget.2.1
        hm2 hr2 hmid
    refine ⟨q2, q3, out2, n, ?_, hp2, ht2, ?_, ht3⟩
    · simpa using h2
    · simpa using h3
  · intro p0 q0 pre0 out0 mid r2 hf0 hi0 hs0 hpre0 hc0 hm2 hr2 hmid
    obtain ⟨q1, hadm, hpeek, _⟩ :=
      FilterRecords_snoc_admit ipString p0 q0 pre0 out0 r endpoint (by rw [hf0]; exact hm) hr
        hpre0 hc0 hs0 hi0
    obtain ⟨q2, q3, out2, n, h2, hp2, ht2, h3, ht3⟩ :=
      FilterRecords_later_cached ipString p0 q1 (pre0 ++ [r]) _ mid r2 endpoint _ hadm hpeek
        (by rw [hf0]; exact hm2) hr2
        (by
          intro m hmem
          rw [hf0]
          exact hmid m hmem)
    obtain ⟨⟨q2', out2'⟩, hmid2⟩ : ∃ res, FilterRecords ipString q1 mid = some res := by
      cases hx : FilterRecords ipString q1 mid with
      | none =>
        rw [FilterRecords_append, hadm, Option.some_bind, hx] at h2
        cases h2
      | some res => exact ⟨res, rfl⟩
    have h2' := FilterRecords_append_eq_some ipString (pre0 ++ [r]) mid p0 _ _ hadm hmid2
    rw [h2] at h2'
    have hout : out2 = out0 ++ [r] ++ out2' := by
      have := Option.some.inj h2'
      exact congrArg Prod.snd this
    subst hout
    refine ⟨q2, q3, out2', ?_, ?_⟩
    · simpa using h2
    · simpa using h3

theorem FilterRecords_cached_health_witness :
    (FilterRecords Sample.lib.ipString Sample.coldFilter
      [Sample.recElsewhere, Sample.recOrgrimar, Sample.recAlias, Sample.recOrgrimar]).map
        (fun res => res.2) = some [Sample.recElsewhere] ∧
    ∃ q1 : HealthCheckFilter,
      FilterRecords Sample.lib.ipString Sample.coldFilter
          ([Sample.recElsewhere] ++ [Sample.recOrgrimar]) =
        some (q1, [Sample.recElsewhere] ++ if false then [Sample.recOrgrimar] else []) ∧
      q1.trace = Sample.coldFilter.trace ++ [.cacheGet "68.68.0.1"] ∧
      q1.cache.Peek "68.68.0.1" =
        some { endpoint := "68.68.0.1", healthy := false, quit := 1 } := by
  have h := FilterRecords_cached_health Sample.lib.ipString Sample.coldFilter
    Sample.coldFilter [Sample.recElsewhere] [Sample.recElsewhere] Sample.recOrgrimar
    "68.68.0.1" { endpoint := "68.68.0.1", healthy := false, quit := 1 }
    (by decide) (by rfl) (by rfl) (by decide)
  obtain ⟨q1, h1, h2, h3, _⟩ := h
  exact ⟨by decide, q1, h1, h2, h3⟩

/-- C13 (the code at the failing input): after `put` is called twice for the same endpoint
on the sample filter (cache size 2), two probe loops for that endpoint are live, since no
quit channel has been closed and the endpoint is in the cache; after a third call three
are, more than the cache size, while the cache holds one entry. -/
theorem put_twice_two_live_loops :
    ((Sample.healthFilter.put "127.0.0.1").bind fun p => p.put "127.0.0.1").map
        (fun p => liveLoops p "127.0.0.1") = some [0, 3] ∧
    ((Sample.healthFilter.put "127.0.0.1").bind fun p => p.put "127.0.0.1").map
        (fun p => closedQuits p.trace) = some [] ∧
    (((Sample.healthFilter.put "127.0.0.1").bind fun p => p.put "127.0.0.1").bind
        fun p => p.put "127.0.0.1").map
        (fun p => (liveLoops p "127.0.0.1").length) = some 3 ∧
    (((Sample.healthFilter.put "127.0.0.1").bind fun p => p.put "127.0.0.1").bind
        fun p => p.put "127.0.0.1").map
        (fun p => p.cache.size) = some 2 ∧
    (((Sample.healthFilter.put "127.0.0.1").bind fun p => p.put "127.0.0.1").bind
        fun p => p.put "127.0.0.1").map
        (fun p => p.cache.items.length) = some 1 := by
  decide

end Healthchecker

/-! ## Lemmas: `strings.TrimSuffix` -/

namespace Strings

theorem HasSuffix_iff (s suffix : String) :
    HasSuffix s suffix = true ↔ suffix.data <:+ s.data := by
  unfold HasSuffix
  simp only [Bool.and_eq_true, decide_eq_true_eq]
  constructor
  · rintro ⟨_, h⟩
    exact List.suffix_iff_eq_drop.mpr h.symm
  · intro h
    exact ⟨h.length_le, (List.suffix_iff_eq_drop.mp h).symm⟩

theorem TrimSuffix_of_suffix (s suffix : String) (h : suffix.data <:+ s.data) :
    (TrimSuffix s suffix).data ++ suffix.data = s.data := by
  unfold TrimSuffix
  rw [if_pos ((HasSuffix_iff s suffix).mpr h)]
  exact List.suffix_iff_eq_append.mp h

theorem TrimSuffix_of_not_suffix (s suffix : String) (h : ¬ suffix.data <:+ s.data) :
    TrimSuffix s suffix = s := by
  unfold TrimSuffix
  rw [if_neg (fun hs => h ((HasSuffix_iff s suffix).mp hs))]

theorem TrimSuffix_append (pre suffix : List Char) :
    TrimSuffix ⟨pre ++ suffix⟩ ⟨suffix⟩ = ⟨pre⟩ := by
  have h := TrimSuffix_of_suffix ⟨pre ++ suffix⟩ ⟨suffix⟩ (List.suffix_append pre suffix)
  apply String.ext
  exact List.append_cancel_right h

theorem data_ne_nil_iff (s : String) : s ≠ "" ↔ s.data ≠ [] := by
  rw [Ne, String.ext_iff]

end Strings

/-! ## Theorems: name preparation (package `contract`) -/

namespace NnsContract

open Strings

theorem withoutTrailingDot_eq (s : String) :
    withoutTrailingDot s.data = (TrimSuffix s dot).data := by
  unfold withoutTrailingDot
  by_cases h : s.data.getLast? = some '.'
  · rw [if_pos h]
    have hsuf : dot.data <:+ s.data := by
      obtain ⟨ys, hys⟩ := List.getLast?_eq_some_iff.mp h
      exact ⟨ys, hys.symm⟩
    have h1 := TrimSuffix_of_suffix s dot hsuf
    have h2 : s.data.dropLast ++ ['.'] = s.data := List.dropLast_append_getLast? '.' h
    exact List.append_cancel_right (h2.trans h1.symm)
  · rw [if_neg h]
    have hsuf : ¬ dot.data <:+ s.data := by
      rintro ⟨ys, hys⟩
      exact h (List.getLast?_eq_some_iff.mpr ⟨ys, hys.symm⟩)
    rw [TrimSuffix_of_not_suffix s dot hsuf]

theorem withoutTrailing_eq (s suffix : String) :
    withoutTrailing suffix.data s.data = (TrimSuffix s suffix).data := by
  unfold withoutTrailing
  cases hd : s.data.reverse.dropPrefix? suffix.data.reverse with
  | some rest =>
    obtain ⟨p', hp, hbeq⟩ := List.dropPrefix?_eq_some_iff.mp hd
    have hp' : p' = suffix.data.reverse := by simpa using hbeq
    subst hp'
    have hs : s.data = rest.reverse ++ suffix.data := by
      have := congrArg List.reverse hp
      simpa using this
    have h1 := TrimSuffix_of_suffix s suffix ⟨rest.reverse, hs.symm⟩
    exact List.append_cancel_right (hs.symm.trans h1.symm)
  | none =>
    have hsuf : ¬ suffix.data <:+ s.data := by
      rintro ⟨pre, hpre⟩
      have : s.data.reverse.dropPrefix? suffix.data.reverse = some pre.reverse := by
        rw [List.dropPrefix?_eq_some_iff]
        exact ⟨suffix.data.reverse, by rw [← hpre]; simp, by simp⟩
      rw [hd] at this
      cases this
    rw [TrimSuffix_of_not_suffix s suffix hsuf]

theorem PrepareName_eq_preparedName (c : Contract) (q D : String) :
    c.PrepareName q D = preparedName c.nnsDomain q D := by
  unfold Contract.PrepareName preparedName
  by_cases hN : c.nnsDomain = ""
  · simp only [hN, ne_eq, not_true_eq_false, if_false, if_true]
    apply String.ext
    rw [withoutTrailingDot_eq]
  · simp only [hN, ne_eq, not_false_eq_true, if_true, if_false]
    have hr : withoutTrailingDot (withoutTrailing D.data (withoutTrailingDot q.data)) =
        (TrimSuffix (TrimSuffix (TrimSuffix q dot) D) dot).data := by
      rw [withoutTrailingDot_eq q, withoutTrailing_eq (TrimSuffix q dot) D,
        withoutTrailingDot_eq]
    rw [hr]
    by_cases hname : (TrimSuffix (TrimSuffix (TrimSuffix q dot) D) dot).data = []
    · have hname' : TrimSuffix (TrimSuffix (TrimSuffix q dot) D) dot = "" :=
        String.ext hname
      simp only [hname, if_true, hname', not_true_eq_false, if_false]
      apply String.ext
      simp
    · have hname' : ¬ TrimSuffix (TrimSuffix (TrimSuffix q dot) D) dot = "" :=
        fun h => hname (by rw [h])
      simp only [hname, if_false, hname', not_false_eq_true, if_true]
      apply String.ext
      simp [dot]

end NnsContract

namespace NnsContract

open Strings

theorem not_dot_suffix_append (pre l : List Char) (hl : l ≠ []) (h : ¬ dot.data <:+ l) :
    ¬ dot.data <:+ pre ++ l := by
  rintro ⟨ys, hys⟩
  apply h
  have h1 : (pre ++ l).getLast? = some '.' :=
    List.getLast?_eq_some_iff.mpr ⟨ys, hys.symm⟩
  rw [List.getLast?_append_of_ne_nil pre hl] at h1
  obtain ⟨zs, hzs⟩ := List.getLast?_eq_some_iff.mp h1
  exact ⟨zs, hzs.symm⟩

theorem PrepareName_of_nnsDomain (c : Contract) (q D : String) (hN : c.nnsDomain ≠ "") :
    c.PrepareName q D =
      if TrimSuffix (TrimSuffix (TrimSuffix q dot) D) dot ≠ "" then
        TrimSuffix (TrimSuffix (TrimSuffix q dot) D) dot ++ dot ++ c.nnsDomain
      else c.nnsDomain := by
  unfold Contract.PrepareName
  simp only [hN, ne_eq, not_false_eq_true, if_true]
  split_ifs with h
  · rw [h]
    apply String.ext
    simp
  · rfl

theorem PrepareName_suffix_itself (c : Contract) (D : String) (hN : c.nnsDomain ≠ "")
    (hD : ¬ dot.data <:+ D.data) :
    c.PrepareName D D = c.nnsDomain ∧ c.PrepareName (D ++ ".") D = c.nnsDomain := by
  have h1 : TrimSuffix D dot = D := TrimSuffix_of_not_suffix D dot hD
  have h2 : TrimSuffix D D = "" := TrimSuffix_append [] D.data
  have h3 : TrimSuffix "" dot = "" := by decide
  have h4 : TrimSuffix (D ++ ".") dot = D := TrimSuffix_append D.data ['.']
  constructor
  · rw [PrepareName_of_nnsDomain c D D hN, h1, h2, h3]
    simp
  · rw [PrepareName_of_nnsDomain c (D ++ ".") D hN, h4, h2, h3]
    simp

/-- C17 (as stated) fails in its consequence: with the NNS suffix `container` and the DNS
suffix `zone.`, which ends in a dot, the query `zone.` is equal to the DNS suffix and maps
to `zone.container`, not to the bare NNS suffix; with an empty NNS suffix the query `zone`
for the DNS suffix `zone` maps to `zone`, not to the empty NNS suffix. -/
theorem PrepareName_suffix_not_bare :
    Sample.contract.nnsDomain = "container" ∧
    Sample.contract.PrepareName "zone." "zone." = "zone.container" ∧
    Sample.contract.PrepareName "zone." "zone." ≠ Sample.contract.nnsDomain ∧
    Sample.plainContract.nnsDomain = "" ∧
    Sample.plainContract.PrepareName "zone" "zone" = "zone" ∧
    Sample.plainContract.PrepareName "zone" "zone" ≠ Sample.plainContract.nnsDomain := by
  decide

/-- C17 (amended): for every query name `q`, DNS suffix `D` and NNS suffix `N`,
`PrepareName(q, D)` is the prepared name as the specification words it: `q` without one
trailing dot if `N` is empty; otherwise, with `r` being `q` without one trailing dot, then
without a trailing `D`, then without one trailing dot, it is `N` if `r` is empty and
`r + "." + N` if not. For a non-empty `N` and a DNS suffix `D` that does not itself end in
a dot, a query equal to `D`, with or without a trailing dot, maps to the bare `N`; for an
empty `N` such a query maps to `D` without its trailing dot. -/
theorem PrepareName_spec (c : Contract) (q D : String) :
    c.PrepareName q D = preparedName c.nnsDomain q D ∧
    (c.nnsDomain ≠ "" → ¬ ['.'] <:+ D.data →
      c.PrepareName D D = c.nnsDomain ∧ c.PrepareName (D ++ ".") D = c.nnsDomain) ∧
    (c.nnsDomain = "" → c.PrepareName D D = TrimSuffix D dot) :=
  ⟨PrepareName_eq_preparedName c q D, fun hN hD => PrepareName_suffix_itself c D hN hD,
    fun hN => by simp [Contract.PrepareName, hN]⟩

theorem PrepareName_spec_witness :
    Sample.contract.PrepareName "nicename.containers.testnet.fs.neo.org"
        "containers.testnet.fs.neo.org"
      = preparedName "container" "nicename.containers.testnet.fs.neo.org"
        "containers.testnet.fs.neo.org" ∧
    preparedName "container" "nicename.containers.testnet.fs.neo.org"
        "containers.testnet.fs.neo.org" = "nicename.container" ∧
    Sample.contract.PrepareName "containers.testnet.fs.neo.org" "containers.testnet.fs.neo.org"
      = "container" ∧
    Sample.contract.PrepareName ("containers.testnet.fs.neo.org" ++ ".")
        "containers.testnet.fs.neo.org" = "container" :=
  ⟨(PrepareName_spec Sample.contract "nicename.containers.testnet.fs.neo.org"
      "containers.testnet.fs.neo.org").1,
    by decide,
    ((PrepareName_spec Sample.contract "nicename.containers.testnet.fs.neo.org"
      "containers.testnet.fs.neo.org").2.1 (by decide) (by decide)).1,
    ((PrepareName_spec Sample.contract "nicename.containers.testnet.fs.neo.org"
      "containers.testnet.fs.neo.org").2.1 (by decide) (by decide)).2⟩

end NnsContract

namespace NnsContract

open Strings

/-- C18 (as stated) fails: with the NNS suffix `container` and the DNS suffix
`containers.testnet.fs.neo.org`, preparing a prepared name appends the NNS suffix a second
time. -/
theorem PrepareName_not_idempotent :
    Sample.contract.PrepareName "nicename.containers.testnet.fs.neo.org"
        "containers.testnet.fs.neo.org" = "nicename.container" ∧
    Sample.contract.PrepareName "nicename.container" "containers.testnet.fs.neo.org"
      = "nicename.container.container" ∧
    Sample.contract.PrepareName
        (Sample.contract.PrepareName "nicename.containers.testnet.fs.neo.org"
          "containers.testnet.fs.neo.org")
        "containers.testnet.fs.neo.org"
      ≠ Sample.contract.PrepareName "nicename.containers.testnet.fs.neo.org"
          "containers.testnet.fs.neo.org" := by
  decide

theorem TrimSuffix_dot_idempotent (q : String) (hq : ¬ ['.', '.'] <:+ q.data) :
    TrimSuffix (TrimSuffix q dot) dot = TrimSuffix q dot := by
  by_cases h : dot.data <:+ q.data
  · apply TrimSuffix_of_not_suffix
    rintro ⟨ys, hys⟩
    apply hq
    have h1 := TrimSuffix_of_suffix q dot h
    refine ⟨ys, ?_⟩
    rw [← h1, ← hys]
    simp [dot]
  · rw [TrimSuffix_of_not_suffix q dot h, TrimSuffix_of_not_suffix q dot h]

/-- C18 (amended): `PrepareName` is idempotent when the NNS suffix is empty and the query
name does not end in two dots, and when the NNS suffix is non-empty, equal to the DNS
suffix and does not end in a dot. -/
theorem PrepareName_idempotent_cases (c : Contract) (q D : String) :
    (c.nnsDomain = "" → ¬ ['.', '.'] <:+ q.data →
      c.PrepareName (c.PrepareName q D) D = c.PrepareName q D) ∧
    (c.nnsDomain ≠ "" → c.nnsDomain = D → ¬ ['.'] <:+ D.data →
      c.PrepareName (c.PrepareName q D) D = c.PrepareName q D) := by
  constructor
  · intro hN hq
    have hp : ∀ x : String, c.PrepareName x D = TrimSuffix x dot := by
      intro x
      simp [Contract.PrepareName, hN]
    rw [hp, hp]
    exact TrimSuffix_dot_idempotent q hq
  · intro hN hND hD
    have hDne : D.data ≠ [] := by
      rw [← hND]
      exact (data_ne_nil_iff _).mp hN
    rw [PrepareName_of_nnsDomain c q D hN]
    split_ifs with hx
    · have hp : TrimSuffix (TrimSuffix (TrimSuffix q dot) D) dot ++ dot ++ c.nnsDomain =
          ⟨((TrimSuffix (TrimSuffix (TrimSuffix q dot) D) dot).data ++ ['.']) ++ D.data⟩ := by
        apply String.ext
        rw [hND]
        simp [dot]
      rw [hp, PrepareName_of_nnsDomain c _ D hN]
      have h1 : TrimSuffix
          ⟨((TrimSuffix (TrimSuffix (TrimSuffix q dot) D) dot).data ++ ['.']) ++ D.data⟩ dot =
          ⟨((TrimSuffix (TrimSuffix (TrimSuffix q dot) D) dot).data ++ ['.']) ++ D.data⟩ :=
        TrimSuffix_of_not_suffix _ _ (not_dot_suffix_append _ _ hDne hD)
      have h2 : TrimSuffix
          ⟨((TrimSuffix (TrimSuffix (TrimSuffix q dot) D) dot).data ++ ['.']) ++ D.data⟩ D =
          ⟨(TrimSuffix (TrimSuffix (TrimSuffix q dot) D) dot).data ++ ['.']⟩ :=
        TrimSuffix_append _ D.data
      have h3 : TrimSuffix ⟨(TrimSuffix (TrimSuffix (TrimSuffix q dot) D) dot).data ++ ['.']⟩ dot =
          TrimSuffix (TrimSuffix (TrimSuffix q dot) D) dot :=
        TrimSuffix_append _ ['.']
      rw [h1, h2, h3, if_pos hx]
      apply String.ext
      rw [hND]
      simp [dot]
    · exact (congrArg (fun x => c.PrepareName x D) hND).trans
        (PrepareName_suffix_itself c D hN hD).1

theorem PrepareName_idempotent_cases_witness :
    Sample.plainContract.PrepareName
        (Sample.plainContract.PrepareName "test.neofs." "containers.testnet.fs.neo.org")
        "containers.testnet.fs.neo.org"
      = Sample.plainContract.PrepareName "test.neofs." "containers.testnet.fs.neo.org" ∧
    Sample.contract.PrepareName (Sample.contract.PrepareName "nicename.container." "container")
        "container"
      = Sample.contract.PrepareName "nicename.container." "container" :=
  ⟨(PrepareName_idempotent_cases Sample.plainContract "test.neofs."
      "containers.testnet.fs.neo.org").1 (by decide) (by decide),
    (PrepareName_idempotent_cases Sample.contract "nicename.container." "container").2
      (by decide) (by decide) (by decide)⟩

end NnsContract

/-! ## Theorems: resolution over several contracts (package `nns`) -/

namespace Nns

open Dns NnsContract Strings

theorem resolveLoop_last (parseIP : String → IP) (n : NNS) (state : Request)
    (contracts : List Contract) (result : List RR) :
    NNS.resolveLoop parseIP n state contracts result =
      match contracts.getLast? with
      | none => result
      | some nnsContract =>
        match n.resolveContractRecords parseIP nnsContract state with
        | .ok res => res
        | .error _ => [] := by
  induction contracts generalizing result with
  | nil => rfl
  | cons c rest ih =>
    cases rest with
    | nil =>
      cases h : n.resolveContractRecords parseIP c state <;>
        simp [NNS.resolveLoop, h]
    | cons d rest =>
      have hlast : (d :: rest).getLast? = some ((d :: rest).getLast (List.cons_ne_nil d rest)) :=
        List.getLast?_eq_getLast _ _
      rw [NNS.resolveLoop]
      simp only [List.getLast?_cons_cons]
      cases n.resolveContractRecords parseIP c state <;> simp only [ih, hlast]

/-- C21 (the code at the failing input): with a first contract that resolves the query to
two records and a second contract whose resolution fails, `resolveRecords` returns no
record at all; in general it returns the outcome of the last configured contract alone,
empty if that resolution failed. -/
theorem resolveRecords_last_contract_only :
    Sample.twoContracts.resolveContractRecords Sample.lib.parseIP Sample.plainContract
        Sample.query =
      .ok [.TXT { Name := "netmap.neofs.", Rrtype := TypeTXT, Class := 3, Ttl := 0 } ["10.0.0.1"],
           .TXT { Name := "netmap.neofs.", Rrtype := TypeTXT, Class := 3, Ttl := 0 } ["10.0.0.2"]] ∧
    Sample.twoContracts.resolveContractRecords Sample.lib.parseIP Sample.contract Sample.query =
      .error "cannot resolve: no such domain" ∧
    Sample.twoContracts.resolveRecords Sample.lib.parseIP Sample.query = .ok [] ∧
    (∀ (parseIP : String → IP) (n : NNS) (state : Request),
      n.resolveRecords parseIP state =
        .ok (match n.Contracts.getLast? with
          | none => []
          | some nnsContract =>
            match n.resolveContractRecords parseIP nnsContract state with
            | .ok res => res
            | .error _ => [])) := by
  refine ⟨rfl, rfl, rfl, ?_⟩
  intro parseIP n state
  unfold NNS.resolveRecords
  rw [resolveLoop_last]

/-- C22 (the code at the failing input): when the resolution fails in the only configured
contract, `ServeDNS` still writes its own reply, with an empty answer section and
`RcodeSuccess`; it never hands a request to the next handler, since `resolveRecords` never
returns an error. -/
theorem ServeDNS_never_forwards :
    Sample.failingNns.resolveContractRecords Sample.lib.parseIP Sample.contract Sample.query =
      .error "cannot resolve: no such domain" ∧
    Sample.failingNns.ServeDNS Sample.lib.parseIP Sample.query = .reply [] RcodeSuccess ∧
    Sample.failingNns.ServeDNS Sample.lib.parseIP Sample.querySOA = .reply [] RcodeSuccess ∧
    (∀ (parseIP : String → IP) (n : NNS) (state : Request),
      n.ServeDNS parseIP state ≠ .next) := by
  refine ⟨rfl, rfl, rfl, ?_⟩
  intro parseIP n state
  simp [NNS.ServeDNS, NNS.resolveRecords]

end Nns

/-! ## Theorems: the SOA record of a zone transfer (package `nns`) -/

namespace Nns

open Dns NnsContract Strings

theorem parseUint32_of_isUint32 (s : String) (h : isUint32 s.data) :
    parseUint32 s = .ok (decimalValue s.data) := by
  obtain ⟨h1, h2, h3⟩ := h
  unfold parseUint32 ParseUint32
  rw [if_neg h1, if_pos h2, if_pos h3]

theorem parseUint32_of_not_isUint32 (s : String) (h : ¬ isUint32 s.data) :
    ∃ err, parseUint32 s = .error err := by
  unfold parseUint32 ParseUint32
  by_cases h1 : s.data = []
  · rw [if_pos h1]
    exact ⟨_, rfl⟩
  · by_cases h2 : s.data.all Char.isDigit = true
    · by_cases h3 : decimalValue s.data < 2 ^ 32
      · exact absurd ⟨h1, h2, h3⟩ h
      · rw [if_neg h1, if_pos h2, if_neg h3]
        exact ⟨_, rfl⟩
    · rw [if_neg h1, if_neg h2]
      exact ⟨_, rfl⟩

theorem take_lenSerial (l : List Char) :
    l.take (if l.length > 10 then 10 else l.length) = l.take (min 10 l.length) := by
  split_ifs with h
  · rw [Nat.min_eq_left (by omega)]
  · rw [Nat.min_eq_right (by omega)]

theorem appendRoot_eq (s : String) :
    appendRoot s = if s.data = [] ∨ s.data.getLast? = some '.' then s else s ++ "." := by
  unfold appendRoot
  by_cases h1 : s.data = []
  · rw [if_pos (Or.inl h1), if_neg]
    rintro ⟨hlen, _⟩
    rw [h1] at hlen
    exact Nat.lt_irrefl 0 hlen
  · have hlen : 0 < s.data.length := List.length_pos.mpr h1
    by_cases h2 : s.data.getLast? = some '.'
    · rw [if_pos (Or.inr h2), if_neg]
      exact fun h => h.2 h2
    · rw [if_pos ⟨hlen, h2⟩, if_neg]
      rintro (h | h)
      · exact h1 h
      · exact h2 h

/-- The outcome of `formSoaRecord` on an entry whose single data string has seven
fields. -/
theorem formSoaRecord_of_fields (rec : Records) (data f0 f1 f2 f3 f4 f5 f6 : String)
    (hd : rec.Data = [data]) (hsplit : Split data ' ' = [f0, f1, f2, f3, f4, f5, f6]) :
    (rec.Type_ = RecordType.SOA ∧ rec.Name = appendRoot f0 ∧
      isUint32 (f2.data.take (min 10 f2.data.length)) ∧ isUint32 f3.data ∧ isUint32 f4.data ∧
      isUint32 f5.data ∧ isUint32 f6.data ∧
      formSoaRecord rec = .ok
        (.SOA { Name := appendRoot f0, Rrtype := TypeSOA, Class := ClassINET,
                Ttl := decimalValue f6.data }
          (appendRoot f0) (ReplaceAll (appendRoot f1) '@' '.')
          (decimalValue (f2.data.take (min 10 f2.data.length)))
          (decimalValue f3.data) (decimalValue f4.data) (decimalValue f5.data)
          (decimalValue f6.data))) ∨
    (¬ (rec.Type_ = RecordType.SOA ∧ rec.Name = appendRoot f0 ∧
      isUint32 (f2.data.take (min 10 f2.data.length)) ∧ isUint32 f3.data ∧ isUint32 f4.data ∧
      isUint32 f5.data ∧ isUint32 f6.data) ∧
      ∃ err, formSoaRecord rec = .error err) := by
  unfold formSoaRecord
  simp only [hd, hsplit, take_lenSerial]
  by_cases ht : rec.Type_ = RecordType.SOA
  swap
  · refine Or.inr ⟨fun h => ht h.1, ?_⟩
    rw [if_pos ht]
    exact ⟨_, rfl⟩
  by_cases hn : rec.Name = appendRoot f0
  swap
  · refine Or.inr ⟨fun h => hn h.2.1, ?_⟩
    rw [if_neg (not_not.mpr ht), if_pos hn]
    exact ⟨_, rfl⟩
  rw [if_neg (not_not.mpr ht), if_neg (not_not.mpr hn)]
  by_cases h2 : isUint32 (f2.data.take (min 10 f2.data.length))
  swap
  · obtain ⟨e, he⟩ := parseUint32_of_not_isUint32 ⟨f2.data.take (min 10 f2.data.length)⟩ h2
    refine Or.inr ⟨fun h => h2 h.2.2.1, ?_⟩
    simp only [he]
    exact ⟨_, rfl⟩
  have p2 := parseUint32_of_isUint32 ⟨f2.data.take (min 10 f2.data.length)⟩ h2
  by_cases h3 : isUint32 f3.data
  swap
  · obtain ⟨e, he⟩ := parseUint32_of_not_isUint32 f3 h3
    refine Or.inr ⟨fun h => h3 h.2.2.2.1, ?_⟩
    simp only [p2, he]
    exact ⟨_, rfl⟩
  have p3 := parseUint32_of_isUint32 f3 h3
  by_cases h4 : isUint32 f4.data
  swap
  · obtain ⟨e, he⟩ := parseUint32_of_not_isUint32 f4 h4
    refine Or.inr ⟨fun h => h4 h.2.2.2.2.1, ?_⟩
    simp only [p2, p3, he]
    exact ⟨_, rfl⟩
  have p4 := parseUint32_of_isUint32 f4 h4
  by_cases h5 : isUint32 f5.data
  swap
  · obtain ⟨e, he⟩ := parseUint32_of_not_isUint32 f5 h5
    refine Or.inr ⟨fun h => h5 h.2.2.2.2.2.1, ?_⟩
    simp only [p2, p3, p4, he]
    exact ⟨_, rfl⟩
  have p5 := parseUint32_of_isUint32 f5 h5
  by_cases h6 : isUint32 f6.data
  swap
  · obtain ⟨e, he⟩ := parseUint32_of_not_isUint32 f6 h6
    refine Or.inr ⟨fun h => h6 h.2.2.2.2.2.2, ?_⟩
    simp only [p2, p3, p4, p5, he]
    exact ⟨_, rfl⟩
  have p6 := parseUint32_of_isUint32 f6 h6
  refine Or.inl ⟨ht, hn, h2, h3, h4, h5, h6, ?_⟩
  simp only [p2, p3, p4, p5, p6]

end Nns

namespace Nns

open Dns NnsContract Strings

/-- C25 (as stated) fails: the serial `9999999999` is a string of ten decimal digits, and
`formSoaRecord` rejects the entry because the serial does not fit 32 bits. -/
theorem formSoaRecord_rejects_large_serial :
    Split "zone. admin@zone 9999999999 3600 600 86400 300" ' '
      = ["zone.", "admin@zone", "9999999999", "3600", "600", "86400", "300"] ∧
    ("9999999999".data.length = 10 ∧ "9999999999".data.all Char.isDigit = true) ∧
    formSoaRecord Sample.entrySOALargeSerial = .error "invalid soa record, invalid serial" := by
  refine ⟨by decide, by decide, rfl⟩

/-- C25 (amended): for an entry whose single data string splits on spaces into the seven
fields `f0 … f6` and on which `formSoaRecord` succeeds, the SOA has the serial given by the
first `min 10 (len f2)` characters of `f2`, the mailbox `appendRoot f1` with every `@`
replaced by `.`, the name server and header name `appendRoot f0`, refresh, retry and expire
`f3`, `f4`, `f5`, and minimal TTL and header TTL `f6`, where `appendRoot` adds a dot to a
non-empty name that lacks one. It succeeds exactly when the entry is of type SOA, its name
is `appendRoot f0`, and the first `min 10 (len f2)` characters of `f2` and the fields
`f3 … f6` are base-10 unsigned 32-bit numbers. -/
theorem formSoaRecord_fields (rec : Records) (data f0 f1 f2 f3 f4 f5 f6 : String)
    (hd : rec.Data = [data]) (hsplit : Split data ' ' = [f0, f1, f2, f3, f4, f5, f6]) :
    (∀ soa, formSoaRecord rec = .ok soa →
      soa = .SOA { Name := appendRoot f0, Rrtype := TypeSOA, Class := ClassINET,
                   Ttl := decimalValue f6.data }
          (appendRoot f0) (ReplaceAll (appendRoot f1) '@' '.')
          (decimalValue (f2.data.take (min 10 f2.data.length)))
          (decimalValue f3.data) (decimalValue f4.data) (decimalValue f5.data)
          (decimalValue f6.data)) ∧
    ((∃ soa, formSoaRecord rec = .ok soa) ↔
      (rec.Type_ = RecordType.SOA ∧ rec.Name = appendRoot f0 ∧
        isUint32 (f2.data.take (min 10 f2.data.length)) ∧ isUint32 f3.data ∧
        isUint32 f4.data ∧ isUint32 f5.data ∧ isUint32 f6.data)) ∧
    (∀ s : String,
      appendRoot s = if s.data = [] ∨ s.data.getLast? = some '.' then s else s ++ ".") ∧
    (∀ s : String,
      (ReplaceAll s '@' '.').data = s.data.map fun c => if c = '@' then '.' else c) := by
  refine ⟨?_, ?_, appendRoot_eq, fun _ => rfl⟩
  · intro soa hsoa
    rcases formSoaRecord_of_fields rec data f0 f1 f2 f3 f4 f5 f6 hd hsplit with h | h
    · rw [h.2.2.2.2.2.2.2] at hsoa
      exact (Except.ok.inj hsoa).symm
    · obtain ⟨err, herr⟩ := h.2
      rw [herr] at hsoa
      cases hsoa
  · constructor
    · rintro ⟨soa, hsoa⟩
      rcases formSoaRecord_of_fields rec data f0 f1 f2 f3 f4 f5 f6 hd hsplit with h | h
      · exact ⟨h.1, h.2.1, h.2.2.1, h.2.2.2.1, h.2.2.2.2.1, h.2.2.2.2.2.1, h.2.2.2.2.2.2.1⟩
      · obtain ⟨err, herr⟩ := h.2
        rw [herr] at hsoa
        cases hsoa
    · intro hc
      rcases formSoaRecord_of_fields rec data f0 f1 f2 f3 f4 f5 f6 hd hsplit with h | h
      · exact ⟨_, h.2.2.2.2.2.2.2⟩
      · exact absurd hc h.1

theorem formSoaRecord_fields_witness :
    formSoaRecord Sample.entrySOA =
      .ok (.SOA { Name := "zone.", Rrtype := TypeSOA, Class := ClassINET, Ttl := 300 }
        "zone." "admin.zone." 1700000000 3600 600 86400 300) ∧
    ((∃ soa, formSoaRecord Sample.entrySOA = .ok soa) ↔
      (Sample.entrySOA.Type_ = RecordType.SOA ∧ Sample.entrySOA.Name = appendRoot "zone." ∧
        isUint32 ("1700000000123".data.take (min 10 "1700000000123".data.length)) ∧
        isUint32 "3600".data ∧ isUint32 "600".data ∧ isUint32 "86400".data ∧
        isUint32 "300".data)) :=
  ⟨rfl,
    (formSoaRecord_fields Sample.entrySOA
      "zone. admin@zone 1700000000123 3600 600 86400 300"
      "zone." "admin@zone" "1700000000123" "3600" "600" "86400" "300" rfl (by decide)).2.1⟩

end Nns

/-! ## Theorems: the zone transfer (package `nns`) -/

namespace Nns

open Dns NnsContract Strings GoSort

theorem formSoaRecord_data_length (rec : Records) (h : rec.Data.length ≠ 1) :
    ∃ err, formSoaRecord rec = .error err := by
  unfold formSoaRecord
  split_ifs
  · exact ⟨_, rfl⟩
  · split
    · rename_i data hd
      rw [hd] at h
      exact absurd rfl h
    · exact ⟨_, rfl⟩

theorem formSoaRecord_field_count (rec : Records) (data : String) (hd : rec.Data = [data])
    (h : (Split data ' ').length ≠ 7) : ∃ err, formSoaRecord rec = .error err := by
  unfold formSoaRecord
  split_ifs
  · exact ⟨_, rfl⟩
  · simp only [hd]
    split
    · rename_i f0 f1 f2 f3 f4 f5 f6 hsplit
      rw [hsplit] at h
      exact absurd rfl h
    · exact ⟨_, rfl⟩

theorem zoneLoop_error_of_invalid_SOA (parseIP : String → IP) (records : List Records)
    (soaRecord : Option RR) (results : List RR) (rec : Records) (hmem : rec ∈ records)
    (ht : rec.Type_ = RecordType.SOA) (herr : ∃ err, formSoaRecord rec = .error err) :
    ∃ err, zoneLoop parseIP records soaRecord results = .error err := by
  induction records generalizing soaRecord results with
  | nil => cases hmem
  | cons x rest ih =>
    rw [zoneLoop]
    by_cases hx : x = rec
    · subst hx
      obtain ⟨err, he⟩ := herr
      rw [if_pos ht, he]
      exact ⟨_, rfl⟩
    · have hrest : rec ∈ rest := by
        rcases List.mem_cons.mp hmem with h | h
        · exact absurd h.symm hx
        · exact h
      split_ifs
      · cases formSoaRecord x with
        | error err => exact ⟨_, rfl⟩
        | ok soa => exact ih _ _ hrest
      · cases formDataRecords parseIP x x.Data with
        | error err => exact ⟨_, rfl⟩
        | ok recs => exact ih _ _ hrest

/-- C26 (as stated) fails: the serial `1700000000xyz` of the SOA entry is not a base-10
unsigned 32-bit number, and `formZoneTransfer` succeeds, the serial being read from the
first ten characters. -/
theorem formZoneTransfer_accepts_junk_serial :
    Split "zone. admin@zone 1700000000xyz 3600 600 86400 300" ' '
      = ["zone.", "admin@zone", "1700000000xyz", "3600", "600", "86400", "300"] ∧
    ¬ isUint32 "1700000000xyz".data ∧
    formZoneTransfer insertionSortLessFunc Sample.lib.parseIP
        [("zone.6", Sample.entrySOAJunkSerial)] =
      .ok [some (.SOA { Name := "zone.", Rrtype := TypeSOA, Class := ClassINET, Ttl := 300 }
              "zone." "admin.zone." 1700000000 3600 600 86400 300),
           some (.SOA { Name := "zone.", Rrtype := TypeSOA, Class := ClassINET, Ttl := 300 }
              "zone." "admin.zone." 1700000000 3600 600 86400 300)] := by
  refine ⟨by decide, by decide, rfl⟩

/-- C26 (amended): `formZoneTransfer` returns an error, and so no record, for an empty
record map and for every map that holds an SOA entry on which `formSoaRecord` fails,
whatever else the map holds. `formSoaRecord` fails when the data of the entry is not
exactly one string, when the string does not split into exactly seven fields, when the
first field made absolute differs from the owner name, when one of the fields `f3 … f6` is
not a base-10 unsigned 32-bit number, and when the first `min 10 (len f2)` characters of
the serial `f2` are not one. -/
theorem formZoneTransfer_invalid_SOA
    (sortSlice : (Records → Records → Bool) → List Records → List Records)
    (hperm : ∀ less xs, (sortSlice less xs).Perm xs) (parseIP : String → IP) :
    (∃ err, formZoneTransfer sortSlice parseIP [] = .error err) ∧
    (∀ (recordsMap : RecordsMap) (key : String) (rec : Records),
      (key, rec) ∈ recordsMap → rec.Type_ = RecordType.SOA →
      (∃ err, formSoaRecord rec = .error err) →
      ∃ err, formZoneTransfer sortSlice parseIP recordsMap = .error err) ∧
    (∀ rec : Records, rec.Data.length ≠ 1 → ∃ err, formSoaRecord rec = .error err) ∧
    (∀ (rec : Records) (data : String), rec.Data = [data] → (Split data ' ').length ≠ 7 →
      ∃ err, formSoaRecord rec = .error err) ∧
    (∀ (rec : Records) (data f0 f1 f2 f3 f4 f5 f6 : String), rec.Data = [data] →
      Split data ' ' = [f0, f1, f2, f3, f4, f5, f6] →
      (rec.Name ≠ appendRoot f0 ∨ ¬ isUint32 (f2.data.take (min 10 f2.data.length)) ∨
        ¬ isUint32 f3.data ∨ ¬ isUint32 f4.data ∨ ¬ isUint32 f5.data ∨ ¬ isUint32 f6.data) →
      ∃ err, formSoaRecord rec = .error err) := by
  refine ⟨⟨_, rfl⟩, ?_, formSoaRecord_data_length, formSoaRecord_field_count, ?_⟩
  · intro recordsMap key rec hmem ht herr
    have hne : recordsMap.length ≠ 0 := by
      intro h
      rw [List.length_eq_zero.mp h] at hmem
      cases hmem
    have hsorted : rec ∈ sortSlice recordsLess (recordsMap.map fun kv => kv.2) :=
      (hperm _ _).mem_iff.mpr (List.mem_map.mpr ⟨(key, rec), hmem, rfl⟩)
    obtain ⟨err, he⟩ := zoneLoop_error_of_invalid_SOA parseIP _ none [] rec hsorted ht herr
    unfold formZoneTransfer
    rw [if_neg hne]
    simp only [he]
    exact ⟨_, rfl⟩
  · intro rec data f0 f1 f2 f3 f4 f5 f6 hd hsplit hbad
    rcases formSoaRecord_of_fields rec data f0 f1 f2 f3 f4 f5 f6 hd hsplit with h | h
    · rcases hbad with hb | hb | hb | hb | hb | hb
      · exact absurd h.2.1 hb
      · exact absurd h.2.2.1 hb
      · exact absurd h.2.2.2.1 hb
      · exact absurd h.2.2.2.2.1 hb
      · exact absurd h.2.2.2.2.2.1 hb
      · exact absurd h.2.2.2.2.2.2.1 hb
    · exact h.2

theorem formZoneTransfer_invalid_SOA_witness :
    ∃ err, formZoneTransfer insertionSortLessFunc Sample.lib.parseIP
      [("www.zone.1", Sample.entryA), ("zone.6", Sample.entrySOALargeSerial)] = .error err :=
  (formZoneTransfer_invalid_SOA insertionSortLessFunc
      (fun less xs => insertionSortLessFunc_perm less xs) Sample.lib.parseIP).2.1
    [("www.zone.1", Sample.entryA), ("zone.6", Sample.entrySOALargeSerial)]
    "zone.6" Sample.entrySOALargeSerial (by simp) rfl ⟨_, rfl⟩

end Nns

namespace Nns

open Dns NnsContract Strings GoSort

theorem recordsLess_iff (a b : Records) :
    recordsLess a b = true ↔ toLex (a.Name, a.Type_) < toLex (b.Name, b.Type_) := by
  rw [Prod.Lex.lt_iff]
  unfold recordsLess
  by_cases h : a.Name = b.Name
  · simp [h]
  · simp [h]

theorem recordsLess_transitive : LessTransitive recordsLess := by
  constructor
  · intro x y z hxy hyz
    rw [recordsLess_iff] at *
    exact lt_trans hxy hyz
  · intro x y z hxy hyz
    have h1 : ¬ recordsLess x y = true := by simp [hxy]
    have h2 : ¬ recordsLess y z = true := by simp [hyz]
    rw [recordsLess_iff] at h1 h2
    have h3 : ¬ recordsLess x z = true := by
      rw [recordsLess_iff]
      exact not_lt.mpr (le_trans (not_lt.mp h2) (not_lt.mp h1))
    simpa using h3

theorem not_mustPrecede_recordsLess (a b : Records) (h : ¬ MustPrecede recordsLess b a) :
    a.Name < b.Name ∨ (a.Name = b.Name ∧ a.Type_ ≤ b.Type_) := by
  have hle : toLex (a.Name, a.Type_) ≤ toLex (b.Name, b.Type_) := by
    by_contra hlt
    rw [not_le, ← recordsLess_iff] at hlt
    apply h
    refine ⟨hlt, ?_⟩
    cases hab : recordsLess a b with
    | false => rfl
    | true =>
      rw [recordsLess_iff] at hab hlt
      exact absurd hab (lt_asymm hlt)
  exact (Prod.Lex.le_iff (a.Name, a.Type_) (b.Name, b.Type_)).mp hle

theorem formRec_ok (parseIP : String → IP) (hdr : RR_Header) (res : String) (rec : RR)
    (h : formRec parseIP hdr.Rrtype res hdr = .ok rec) : rec = recordFor parseIP hdr res := by
  unfold formRec at h
  unfold recordFor
  by_cases h1 : hdr.Rrtype = TypeTXT
  · rw [if_pos h1] at h
    have ha : ¬ hdr.Rrtype = TypeA := by rw [h1]; decide
    have hb : ¬ hdr.Rrtype = TypeAAAA := by rw [h1]; decide
    rw [if_neg ha, if_neg hb, if_pos h1]
    exact (Except.ok.inj h).symm
  · rw [if_neg h1] at h
    by_cases h2 : hdr.Rrtype = TypeA
    · rw [if_pos h2] at h
      rw [if_pos h2]
      exact (Except.ok.inj h).symm
    · rw [if_neg h2] at h
      rw [if_neg h2]
      by_cases h3 : hdr.Rrtype = TypeAAAA
      · rw [if_pos h3] at h
        rw [if_pos h3]
        exact (Except.ok.inj h).symm
      · rw [if_neg h3] at h
        rw [if_neg h3, if_neg h1]
        by_cases h4 : hdr.Rrtype = TypeCNAME
        · rw [if_pos h4] at h
          exact (Except.ok.inj h).symm
        · rw [if_neg h4] at h
          cases h

theorem recordFor_Header (parseIP : String → IP) (hdr : RR_Header) (res : String) :
    (recordFor parseIP hdr res).Header = hdr := by
  unfold recordFor
  split_ifs <;> rfl

theorem formDataRecords_ok (parseIP : String → IP) (recs : Records) (data : List String)
    (records : List RR) (h : formDataRecords parseIP recs data = .ok records) :
    records = data.map (recordFor parseIP
      { Name := recs.Name, Rrtype := recs.Type_, Class := ClassINET, Ttl := 0 }) := by
  induction data generalizing records with
  | nil =>
    rw [formDataRecords] at h
    exact (Except.ok.inj h).symm
  | cons d rest ih =>
    rw [formDataRecords] at h
    cases hrec : formRec parseIP recs.Type_ d
        { Name := recs.Name, Rrtype := recs.Type_, Class := ClassINET, Ttl := 0 } with
    | error err =>
      rw [hrec] at h
      cases h
    | ok rec =>
      rw [hrec] at h
      cases hrest : formDataRecords parseIP recs rest with
      | error err =>
        rw [hrest] at h
        cases h
      | ok rs =>
        rw [hrest] at h
        have h1 := formRec_ok parseIP
          { Name := recs.Name, Rrtype := recs.Type_, Class := ClassINET, Ttl := 0 } d rec hrec
        rw [← Except.ok.inj h, List.map_cons, ← ih rs hrest, h1]

/-- The records that `formZoneTransfer` emits for one entry that is not an SOA entry. -/
theorem zoneLoop_ok (parseIP : String → IP) (records : List Records) (soaRecord : Option RR)
    (results : List RR) (out : Option RR × List RR)
    (h : zoneLoop parseIP records soaRecord results = .ok out) :
    out.2 = results ++ (records.filter notSOA).flatMap (fun recs =>
      recs.Data.map (recordFor parseIP
        { Name := recs.Name, Rrtype := recs.Type_, Class := ClassINET, Ttl := 0 })) ∧
    ((∀ recs ∈ records, recs.Type_ ≠ RecordType.SOA) → out.1 = soaRecord) := by
  induction records generalizing soaRecord results with
  | nil =>
    rw [zoneLoop] at h
    rw [← Except.ok.inj h]
    simp
  | cons x rest ih =>
    rw [zoneLoop] at h
    by_cases hx : x.Type_ = RecordType.SOA
    · rw [if_pos hx] at h
      cases hsoa : formSoaRecord x with
      | error err =>
        rw [hsoa] at h
        cases h
      | ok soa =>
        rw [hsoa] at h
        have := ih _ _ h
        refine ⟨?_, fun hall => absurd hx (hall x (List.mem_cons_self _ _))⟩
        rw [this.1]
        simp [notSOA, hx]
    · rw [if_neg hx] at h
      cases hdata : formDataRecords parseIP x x.Data with
      | error err =>
        rw [hdata] at h
        cases h
      | ok recs =>
        rw [hdata] at h
        have := ih _ _ h
        have hrecs := formDataRecords_ok parseIP x x.Data recs hdata
        refine ⟨?_, fun hall => this.2 (fun r hr => hall r (List.mem_cons_of_mem _ hr))⟩
        rw [this.1, hrecs]
        simp [notSOA, hx, List.flatMap_cons]

theorem formZoneTransfer_ok
    (sortSlice : (Records → Records → Bool) → List Records → List Records)
    (parseIP : String → IP) (recordsMap : RecordsMap) (S : List (Option RR))
    (h : formZoneTransfer sortSlice parseIP recordsMap = .ok S) :
    ∃ out : Option RR × List RR,
      zoneLoop parseIP (sortSlice recordsLess (recordsMap.map fun kv => kv.2)) none [] = .ok out ∧
      S = out.1 :: out.2.map some ++ [out.1] := by
  unfold formZoneTransfer at h
  split_ifs at h
  cases hloop : zoneLoop parseIP (sortSlice recordsLess (recordsMap.map fun kv => kv.2)) none []
    with
  | error err =>
    simp only [hloop] at h
    cases h
  | ok out =>
    simp only [hloop] at h
    exact ⟨out, rfl, (Except.ok.inj h).symm⟩

end Nns

namespace Nns

open Dns NnsContract Strings GoSort

/-- C23 (the code at the failing input): for a record map without SOA entry
`formZoneTransfer` returns without error a sequence whose first and last elements are the
`nil` SOA pointer; `zoneTransfers` reaches this when the first contract fails and a later
one has records; in general the first and last element are `nil` whenever the map has no
SOA entry. -/
theorem formZoneTransfer_without_SOA :
    formZoneTransfer insertionSortLessFunc Sample.lib.parseIP Sample.mapWithoutSOA =
      .ok [none,
           some (.A { Name := "www.zone.", Rrtype := TypeA, Class := ClassINET, Ttl := 0 }
             (Sample.lib.parseIP "10.0.0.1")),
           none] ∧
    Sample.brokenZoneNns.zoneTransfers insertionSortLessFunc Sample.lib.parseIP "zone" =
      some (.ok [none,
           some (.A { Name := "www.zone.", Rrtype := TypeA, Class := ClassINET, Ttl := 0 }
             (Sample.lib.parseIP "10.0.0.1")),
           none]) ∧
    (∀ (sortSlice : (Records → Records → Bool) → List Records → List Records)
      (parseIP : String → IP) (recordsMap : RecordsMap) (S : List (Option RR)),
      (∀ less xs, (sortSlice less xs).Perm xs) →
      (∀ kv ∈ recordsMap, kv.2.Type_ ≠ RecordType.SOA) →
      formZoneTransfer sortSlice parseIP recordsMap = .ok S →
      S.head? = some none ∧ S.getLast? = some none) := by
  refine ⟨rfl, rfl, ?_⟩
  intro sortSlice parseIP recordsMap S hperm hno h
  obtain ⟨out, hloop, hS⟩ := formZoneTransfer_ok sortSlice parseIP recordsMap S h
  have hnone : out.1 = none := by
    apply (zoneLoop_ok parseIP _ none [] out hloop).2
    intro recs hrecs
    obtain ⟨kv, hkv, rfl⟩ := List.mem_map.mp ((hperm _ _).mem_iff.mp hrecs)
    exact hno kv hkv
  rw [hS, hnone]
  refine ⟨rfl, ?_⟩
  rw [List.getLast?_append]
  rfl

/-- C24: when `formZoneTransfer` succeeds, the records between the first and the last
element are those of the entries that are not SOA entries, taken in the sorted order of the
entries, one record per data string in the stored order of the strings; they are ordered by
owner name and, for equal names, by record type; the length of the output is 2 plus the
number of data strings of these entries. -/
theorem formZoneTransfer_sorted
    (sortSlice : (Records → Records → Bool) → List Records → List Records)
    (hs : SortSliceContract sortSlice) (parseIP : String → IP) (recordsMap : RecordsMap)
    (S : List (Option RR)) (h : formZoneTransfer sortSlice parseIP recordsMap = .ok S) :
    ∃ (soaRecord : Option RR) (middle : List RR),
      S = soaRecord :: middle.map some ++ [soaRecord] ∧
      middle = ((sortSlice recordsLess (recordsMap.map fun kv => kv.2)).filter notSOA).flatMap
        (fun recs => recs.Data.map (recordFor parseIP
          { Name := recs.Name, Rrtype := recs.Type_, Class := ClassINET, Ttl := 0 })) ∧
      middle.Pairwise nameTypeLE ∧
      S.length = 2 +
        (((recordsMap.map fun kv => kv.2).filter notSOA).map fun recs => recs.Data.length).sum := by
  obtain ⟨out, hloop, hS⟩ := formZoneTransfer_ok sortSlice parseIP recordsMap S h
  have hmid := (zoneLoop_ok parseIP _ none [] out hloop).1
  rw [List.nil_append] at hmid
  refine ⟨out.1, out.2, hS, hmid, ?_, ?_⟩
  · rw [hmid, List.pairwise_flatMap]
    constructor
    · intro recs _
      rw [List.pairwise_map]
      refine List.pairwise_of_forall ?_
      intro x y
      right
      simp [recordFor_Header]
    · have hord := (hs.ordered recordsLess (recordsMap.map fun kv => kv.2)
        recordsLess_transitive).filter notSOA
      refine hord.imp ?_
      intro a b hab x hx y hy
      obtain ⟨dx, _, rfl⟩ := List.mem_map.mp hx
      obtain ⟨dy, _, rfl⟩ := List.mem_map.mp hy
      unfold nameTypeLE
      rw [recordFor_Header, recordFor_Header]
      exact not_mustPrecede_recordsLess a b hab
  · have hperm := ((hs.perm recordsLess (recordsMap.map fun kv => kv.2)).filter notSOA).map
      (fun recs => recs.Data.length)
    rw [hS, hmid]
    simp only [List.length_cons, List.length_append, List.length_map, List.length_flatMap,
      List.length_singleton, List.length_nil]
    have hsum : (List.map (List.length ∘ fun recs : Records => recs.Data.map (recordFor parseIP
          { Name := recs.Name, Rrtype := recs.Type_, Class := ClassINET, Ttl := 0 }))
        ((sortSlice recordsLess (recordsMap.map fun kv => kv.2)).filter notSOA)).sum =
        (List.map (fun recs : Records => recs.Data.length)
          ((sortSlice recordsLess (recordsMap.map fun kv => kv.2)).filter notSOA)).sum := by
      congr 1
      apply List.map_congr_left
      intro recs _
      simp
    rw [hsum, hperm.sum_eq]
    omega

theorem formZoneTransfer_sorted_witness :
    (formZoneTransfer insertionSortLessFunc Sample.lib.parseIP Sample.apexMap =
      .ok [some (.SOA { Name := "zone.", Rrtype := TypeSOA, Class := ClassINET, Ttl := 300 }
              "zone." "admin.zone." 1700000000 3600 600 86400 300),
           some (.TXT { Name := "zone.", Rrtype := TypeTXT, Class := ClassINET, Ttl := 0 }
              ["first"]),
           some (.TXT { Name := "zone.", Rrtype := TypeTXT, Class := ClassINET, Ttl := 0 }
              ["second"]),
           some (.SOA { Name := "zone.", Rrtype := TypeSOA, Class := ClassINET, Ttl := 300 }
              "zone." "admin.zone." 1700000000 3600 600 86400 300)]) ∧
    ∃ (soaRecord : Option RR) (middle : List RR),
      [some (.SOA { Name := "zone.", Rrtype := TypeSOA, Class := ClassINET, Ttl := 300 }
              "zone." "admin.zone." 1700000000 3600 600 86400 300),
           some (.TXT { Name := "zone.", Rrtype := TypeTXT, Class := ClassINET, Ttl := 0 }
              ["first"]),
           some (.TXT { Name := "zone.", Rrtype := TypeTXT, Class := ClassINET, Ttl := 0 }
              ["second"]),
           some (.SOA { Name := "zone.", Rrtype := TypeSOA, Class := ClassINET, Ttl := 300 }
              "zone." "admin.zone." 1700000000 3600 600 86400 300)]
        = soaRecord :: middle.map some ++ [soaRecord] ∧
      middle = ((insertionSortLessFunc recordsLess
          (Sample.apexMap.map fun kv => kv.2)).filter notSOA).flatMap
        (fun recs => recs.Data.map (recordFor Sample.lib.parseIP
          { Name := recs.Name, Rrtype := recs.Type_, Class := ClassINET, Ttl := 0 })) ∧
      middle.Pairwise nameTypeLE ∧
      [some (RR.SOA { Name := "zone.", Rrtype := TypeSOA, Class := ClassINET, Ttl := 300 }
              "zone." "admin.zone." 1700000000 3600 600 86400 300),
           some (.TXT { Name := "zone.", Rrtype := TypeTXT, Class := ClassINET, Ttl := 0 }
              ["first"]),
           some (.TXT { Name := "zone.", Rrtype := TypeTXT, Class := ClassINET, Ttl := 0 }
              ["second"]),
           some (.SOA { Name := "zone.", Rrtype := TypeSOA, Class := ClassINET, Ttl := 300 }
              "zone." "admin.zone." 1700000000 3600 600 86400 300)].length = 2 +
        (((Sample.apexMap.map fun kv => kv.2).filter notSOA).map
          fun recs => recs.Data.length).sum :=
  ⟨rfl, formZoneTransfer_sorted insertionSortLessFunc insertionSortLessFunc_contract
    Sample.lib.parseIP Sample.apexMap _ rfl⟩

end Nns

namespace Nns

open Dns NnsContract Strings GoSort

/-! ### The merge of the contracts' record maps -/

theorem lookup_cons_eq (k k0 : String) (v0 : Records) (rest : RecordsMap) :
    RecordsMap.lookup ((k0, v0) :: rest) k =
      if k = k0 then some v0 else RecordsMap.lookup rest k := by
  unfold RecordsMap.lookup
  by_cases hk : k = k0
  · have hb : (k == k0) = true := by simp [hk]
    simp only [List.lookup, hb, if_pos hk]
  · have hb : (k == k0) = false := by simp [hk]
    simp only [List.lookup, hb, if_neg hk]

theorem lookup_store (m : RecordsMap) (key : String) (recs : Records) (k : String) :
    RecordsMap.lookup (RecordsMap.store m key recs) k =
      if k = key then some recs else RecordsMap.lookup m k := by
  induction m with
  | nil =>
    unfold RecordsMap.store
    rw [lookup_cons_eq]
  | cons kv rest ih =>
    obtain ⟨k0, v0⟩ := kv
    unfold RecordsMap.store
    by_cases h0 : k0 = key
    · subst h0
      rw [if_pos rfl, lookup_cons_eq, lookup_cons_eq]
      by_cases hk : k = k0
      · rw [if_pos hk, if_pos hk]
      · rw [if_neg hk, if_neg hk, if_neg hk]
    · rw [if_neg h0, lookup_cons_eq, lookup_cons_eq, ih]
      by_cases hk : k = k0
      · have hne : ¬ k = key := fun h => h0 (hk ▸ h)
        rw [if_pos hk, if_neg hne, if_pos hk]
      · rw [if_neg hk, if_neg hk]

theorem store_keys (m : RecordsMap) (key : String) (recs : Records) :
    (RecordsMap.store m key recs).map Prod.fst =
      if key ∈ m.map Prod.fst then m.map Prod.fst else m.map Prod.fst ++ [key] := by
  induction m with
  | nil => simp [RecordsMap.store]
  | cons kv rest ih =>
    obtain ⟨k0, v0⟩ := kv
    by_cases h0 : k0 = key
    · subst h0
      simp [RecordsMap.store]
    · have h0s : ¬ key = k0 := fun h => h0 h.symm
      by_cases hmem : key ∈ rest.map Prod.fst
      · simp only [RecordsMap.store, if_neg h0, List.map_cons, ih, if_pos hmem,
          List.mem_cons, h0s, false_or]
      · simp only [RecordsMap.store, if_neg h0, List.map_cons, ih, if_neg hmem,
          List.mem_cons, h0s, false_or, List.cons_append]

theorem store_keys_nodup (m : RecordsMap) (key : String) (recs : Records)
    (hm : (m.map Prod.fst).Nodup) : ((RecordsMap.store m key recs).map Prod.fst).Nodup := by
  rw [store_keys]
  by_cases hmem : key ∈ m.map Prod.fst
  · rw [if_pos hmem]
    exact hm
  · rw [if_neg hmem]
    exact List.Nodup.append hm (List.nodup_singleton key)
      (by
        intro a ha hb
        rw [List.mem_singleton] at hb
        exact hmem (hb ▸ ha))

theorem groupRecords_keys_nodup (records : List Record) (result : RecordsMap)
    (hm : (result.map Prod.fst).Nodup) :
    ((groupRecords records result).map Prod.fst).Nodup := by
  induction records generalizing result with
  | nil => exact hm
  | cons record records ih =>
    unfold groupRecords
    exact ih _ (store_keys_nodup _ _ _ hm)

theorem allTransferRecords_keys_nodup (n : NNS) (nnsContract : Contract) (zone : String)
    (needSOA : Bool) (m : RecordsMap)
    (h : n.allTransferRecords nnsContract zone needSOA = some (.ok m)) :
    (m.map Prod.fst).Nodup := by
  unfold NNS.allTransferRecords at h
  cases hg : nnsContract.GetAllRecords (nnsContract.PrepareName zone n.dnsDomain) with
  | error err => simp [hg] at h
  | ok records =>
    have hnodup := groupRecords_keys_nodup records [] List.nodup_nil
    simp only [hg] at h
    cases needSOA with
    | false =>
      simp at h
      exact h ▸ hnodup
    | true =>
      simp only [if_true] at h
      cases hl : RecordsMap.lookup (groupRecords records [])
          (recKey (appendRoot (nnsContract.PrepareName zone n.dnsDomain)) RecordType.SOA) with
      | none => simp [hl] at h
      | some soaRecs =>
        simp only [hl] at h
        by_cases hlen : soaRecs.Data.length ≠ 1
        · simp [hlen] at h
        · rw [if_neg hlen] at h
          simp at h
          exact h ▸ hnodup

theorem lookup_of_not_mem_keys (m : RecordsMap) (k : String) (h : k ∉ m.map Prod.fst) :
    RecordsMap.lookup m k = none := by
  induction m with
  | nil => rfl
  | cons kv rest ih =>
    obtain ⟨k0, v0⟩ := kv
    simp only [List.map_cons, List.mem_cons, not_or] at h
    rw [lookup_cons_eq, if_neg h.1]
    exact ih h.2

theorem mergeRecords_keys_nodup (m result : RecordsMap)
    (hr : (result.map Prod.fst).Nodup) : ((mergeRecords result m).map Prod.fst).Nodup := by
  induction m generalizing result with
  | nil => exact hr
  | cons kv rest ih =>
    obtain ⟨k0, v0⟩ := kv
    unfold mergeRecords
    exact ih _ (store_keys_nodup _ _ _ hr)

theorem lookup_mergeRecords (m : RecordsMap) (hm : (m.map Prod.fst).Nodup)
    (result : RecordsMap) (key : String) :
    (∀ recs, RecordsMap.lookup m key = some recs →
      RecordsMap.lookup (mergeRecords result m) key = some recs) ∧
    (RecordsMap.lookup m key = none →
      RecordsMap.lookup (mergeRecords result m) key = RecordsMap.lookup result key) := by
  induction m generalizing result with
  | nil =>
    constructor
    · intro recs h
      simp [RecordsMap.lookup] at h
    · intro _
      rfl
  | cons kv rest ih =>
    obtain ⟨k0, v0⟩ := kv
    simp only [List.map_cons, List.nodup_cons] at hm
    have ih2 := ih hm.2 (RecordsMap.store result k0 v0)
    rw [lookup_cons_eq]
    unfold mergeRecords
    by_cases hk : key = k0
    · subst hk
      rw [if_pos rfl]
      have hnone := lookup_of_not_mem_keys rest key hm.1
      constructor
      · intro recs h
        rw [ih2.2 hnone, lookup_store, if_pos rfl]
        exact h
      · intro h
        cases h
    · rw [if_neg hk]
      constructor
      · exact ih2.1
      · intro h
        rw [ih2.2 h, lookup_store, if_neg hk]

/-- C27: when the two contracts of the plugin both return a record map, the merged map of
`zoneTransfers` holds for every key of the later contract exactly the later contract's
entry (its data list replaces the earlier one), and for every other key what the earlier
contract holds for it; the merged map has one entry per key and is what the zone transfer
is formed from. -/
theorem zoneTransfers_later_overrides
    (sortSlice : (Records → Records → Bool) → List Records → List Records)
    (parseIP : String → IP) (n : NNS) (zone : String) (c1 c2 : Contract)
    (m1 m2 : RecordsMap) (hc : n.Contracts = [c1, c2])
    (h1 : n.allTransferRecords c1 zone true = some (.ok m1))
    (h2 : n.allTransferRecords c2 zone false = some (.ok m2)) :
    ∃ merged : RecordsMap,
      NNS.mergeLoop n zone n.Contracts true [] = some merged ∧
      n.zoneTransfers sortSlice parseIP zone =
        some (formZoneTransfer sortSlice parseIP merged) ∧
      (merged.map Prod.fst).Nodup ∧
      ∀ key : String,
        (∀ recs, RecordsMap.lookup m2 key = some recs →
          RecordsMap.lookup merged key = some recs) ∧
        (RecordsMap.lookup m2 key = none →
          RecordsMap.lookup merged key = RecordsMap.lookup m1 key) := by
  have hn1 := allTransferRecords_keys_nodup n c1 zone true m1 h1
  have hn2 := allTransferRecords_keys_nodup n c2 zone false m2 h2
  have hloop : NNS.mergeLoop n zone n.Contracts true [] =
      some (mergeRecords (mergeRecords [] m1) m2) := by
    rw [hc]
    simp only [NNS.mergeLoop, h1, h2]
  refine ⟨mergeRecords (mergeRecords [] m1) m2, hloop, ?_, ?_, ?_⟩
  · unfold NNS.zoneTransfers
    rw [hloop]
  · exact mergeRecords_keys_nodup m2 _ (mergeRecords_keys_nodup m1 [] List.nodup_nil)
  · intro key
    have hA := lookup_mergeRecords m2 hn2 (mergeRecords [] m1) key
    refine ⟨hA.1, ?_⟩
    intro h
    rw [hA.2 h]
    have hB := lookup_mergeRecords m1 hn1 [] key
    cases hl : RecordsMap.lookup m1 key with
    | none =>
      rw [hB.2 hl]
      rfl
    | some recs => exact hB.1 recs hl

theorem zoneTransfers_later_overrides_witness :
    Sample.zoneNns.allTransferRecords Sample.contractZone "zone" true =
      some (.ok Sample.zoneRecords) ∧
    Sample.zoneNns.allTransferRecords Sample.contractOverride "zone" false =
      some (.ok Sample.overrideRecords) ∧
    NNS.mergeLoop Sample.zoneNns "zone" Sample.zoneNns.Contracts true [] =
      some Sample.mergedRecords ∧
    ∃ merged : RecordsMap,
      NNS.mergeLoop Sample.zoneNns "zone" Sample.zoneNns.Contracts true [] = some merged ∧
      Sample.zoneNns.zoneTransfers insertionSortLessFunc Sample.lib.parseIP "zone" =
        some (formZoneTransfer insertionSortLessFunc Sample.lib.parseIP merged) ∧
      (merged.map Prod.fst).Nodup ∧
      ∀ key : String,
        (∀ recs, RecordsMap.lookup Sample.overrideRecords key = some recs →
          RecordsMap.lookup merged key = some recs) ∧
        (RecordsMap.lookup Sample.overrideRecords key = none →
          RecordsMap.lookup merged key = RecordsMap.lookup Sample.zoneRecords key) :=
  ⟨rfl, rfl, rfl,
    zoneTransfers_later_overrides insertionSortLessFunc Sample.lib.parseIP Sample.zoneNns
      "zone" Sample.contractZone Sample.contractOverride Sample.zoneRecords
      Sample.overrideRecords rfl rfl rfl⟩

end Nns

namespace Nns

open Dns NnsContract Strings GoSort

/-- C28 (the code at the failing input): with `needSOA` set, `allTransferRecords` on a
registry answer without SOA record for the prepared zone name reads the data of the `nil`
entry and panics, instead of returning the error about the number of SOA records: so for
the contract whose zone holds one address record only, where the panic ends
`zoneTransfers` too, and so for every answer whose grouped map has no entry under the SOA
key; a map is returned only when the entry under
the SOA key has exactly one data string. -/
theorem allTransferRecords_missing_SOA :
    Sample.soaLessNns.allTransferRecords Sample.contractWithoutSOA "zone" true = none ∧
    Sample.soaLessNns.zoneTransfers insertionSortLessFunc Sample.lib.parseIP "zone" = none ∧
    (∀ (n : NNS) (nnsContract : Contract) (zone : String) (records : List Record),
      nnsContract.GetAllRecords (nnsContract.PrepareName zone n.dnsDomain) = .ok records →
      RecordsMap.lookup (groupRecords records [])
        (recKey (appendRoot (nnsContract.PrepareName zone n.dnsDomain)) RecordType.SOA) =
          none →
      n.allTransferRecords nnsContract zone true = none) ∧
    (∀ (n : NNS) (nnsContract : Contract) (zone : String) (m : RecordsMap),
      n.allTransferRecords nnsContract zone true = some (.ok m) →
      ∃ soaRecs, RecordsMap.lookup m
        (recKey (appendRoot (nnsContract.PrepareName zone n.dnsDomain)) RecordType.SOA) =
          some soaRecs ∧ soaRecs.Data.length = 1) := by
  refine ⟨rfl, rfl, ?_, ?_⟩
  · intro n nnsContract zone records hg hl
    unfold NNS.allTransferRecords
    simp only [hg, hl, if_true]
  · intro n nnsContract zone m h
    unfold NNS.allTransferRecords at h
    cases hg : nnsContract.GetAllRecords (nnsContract.PrepareName zone n.dnsDomain) with
    | error err => simp [hg] at h
    | ok records =>
      simp only [hg, if_true] at h
      cases hl : RecordsMap.lookup (groupRecords records [])
          (recKey (appendRoot (nnsContract.PrepareName zone n.dnsDomain)) RecordType.SOA) with
      | none => simp [hl] at h
      | some soaRecs =>
        simp only [hl] at h
        by_cases hlen : soaRecs.Data.length ≠ 1
        · simp [hlen] at h
        · rw [if_neg hlen] at h
          simp at h
          subst h
          exact ⟨soaRecs, hl, not_not.mp hlen⟩

end Nns

namespace Nns

open Dns NnsContract Strings GoSort

/-! ### The key of a record in the transfer map -/

theorem digitChar_ne_dot : ∀ k, k < 10 → Nat.digitChar k ≠ '.' := by decide

theorem digitChar_value : ∀ k, k < 10 → (Nat.digitChar k).toNat - '0'.toNat = k := by decide

theorem itoaDigits_no_dot (fuel n : Nat) : '.' ∉ itoaDigits fuel n := by
  induction fuel generalizing n with
  | zero => simp [itoaDigits]
  | succ fuel ih =>
    unfold itoaDigits
    by_cases hn : n < 10
    · rw [if_pos hn, List.mem_singleton]
      exact fun h => digitChar_ne_dot n hn h.symm
    · rw [if_neg hn, List.mem_append, List.mem_singleton]
      rintro (h | h)
      · exact ih _ h
      · exact digitChar_ne_dot (n % 10) (Nat.mod_lt _ (by decide)) h.symm

theorem decimalValue_append (xs : List Char) (c : Char) :
    decimalValue (xs ++ [c]) = 10 * decimalValue xs + (c.toNat - '0'.toNat) := by
  unfold decimalValue
  rw [List.foldl_append]
  rfl

theorem decimalValue_itoaDigits (fuel n : Nat) (h : n < fuel) :
    decimalValue (itoaDigits fuel n) = n := by
  induction fuel generalizing n with
  | zero => exact absurd h (Nat.not_lt_zero n)
  | succ fuel ih =>
    unfold itoaDigits
    by_cases hn : n < 10
    · rw [if_pos hn]
      have := decimalValue_append [] (Nat.digitChar n)
      rw [List.nil_append] at this
      rw [this, digitChar_value n hn]
      simp [decimalValue]
    · rw [if_neg hn, decimalValue_append, ih (n / 10) (by omega),
        digitChar_value (n % 10) (Nat.mod_lt _ (by decide))]
      omega

theorem Itoa_injective (a b : Nat) (h : Itoa a = Itoa b) : a = b := by
  have ha := decimalValue_itoaDigits (a + 1) a (Nat.lt_succ_self a)
  have hb := decimalValue_itoaDigits (b + 1) b (Nat.lt_succ_self b)
  have hd : itoaDigits (a + 1) a = itoaDigits (b + 1) b := congrArg String.data h
  rw [hd] at ha
  exact ha.symm.trans hb

/-- Two texts that begin with the separator, or are empty, and follow texts free of the
separator are equal when the concatenations are. -/
theorem split_at_separator (a : Char) (x1 x2 z1 z2 : List Char) (h1 : a ∉ x1)
    (h2 : a ∉ x2) (hz1 : z1 = [] ∨ z1.head? = some a) (hz2 : z2 = [] ∨ z2.head? = some a)
    (h : x1 ++ z1 = x2 ++ z2) : x1 = x2 ∧ z1 = z2 := by
  induction x1 generalizing x2 with
  | nil =>
    cases x2 with
    | nil => exact ⟨rfl, h⟩
    | cons c x2 =>
      exfalso
      rw [List.nil_append] at h
      rcases hz1 with hz1 | hz1
      · rw [hz1] at h
        cases h
      · rw [h] at hz1
        simp only [List.cons_append, List.head?_cons, Option.some.injEq] at hz1
        exact h2 (hz1 ▸ List.mem_cons_self _ _)
  | cons c x1 ih =>
    cases x2 with
    | nil =>
      exfalso
      rw [List.nil_append] at h
      rcases hz2 with hz2 | hz2
      · rw [hz2] at h
        cases h
      · rw [← h] at hz2
        simp only [List.cons_append, List.head?_cons, Option.some.injEq] at hz2
        exact h1 (hz2 ▸ List.mem_cons_self _ _)
    | cons c2 x2 =>
      simp only [List.cons_append, List.cons.injEq] at h
      have := ih x2 (fun hm => h1 (List.mem_cons_of_mem _ hm))
        (fun hm => h2 (List.mem_cons_of_mem _ hm)) h.2
      exact ⟨by rw [h.1, this.1], this.2⟩

theorem rootForm_reverse (name : String) (h : rootForm name) :
    name.data.reverse = [] ∨ name.data.reverse.head? = some '.' := by
  rcases h with h | h
  · left
    rw [h]
    rfl
  · right
    rw [List.head?_reverse]
    exact h

theorem appendRoot_rootForm (data : String) : rootForm (appendRoot data) := by
  rw [appendRoot_eq]
  by_cases h : data.data = [] ∨ data.data.getLast? = some '.'
  · rw [if_pos h]
    rcases h with h | h
    · left
      exact String.ext h
    · right
      exact h
  · rw [if_neg h]
    right
    rw [String.data_append]
    exact List.getLast?_append_of_ne_nil _ (by decide) |>.trans rfl

/-- C29: the key of the transfer map is injective on names in the form that `appendRoot`
returns: for names that are empty or end in a dot, equal keys come from equal names and
equal record types. -/
theorem recKey_injective (n1 n2 : String) (t1 t2 : RecordType) (h1 : rootForm n1)
    (h2 : rootForm n2) (h : recKey n1 t1 = recKey n2 t2) : n1 = n2 ∧ t1 = t2 := by
  unfold recKey at h
  have hd : n1.data ++ (Itoa t1).data = n2.data ++ (Itoa t2).data := by
    rw [← String.data_append, ← String.data_append, h]
  have hr := congrArg List.reverse hd
  rw [List.reverse_append, List.reverse_append] at hr
  have hsplit := split_at_separator '.' _ _ _ _
    (fun hm => itoaDigits_no_dot (t1 + 1) t1 (List.mem_reverse.mp hm))
    (fun hm => itoaDigits_no_dot (t2 + 1) t2 (List.mem_reverse.mp hm))
    (rootForm_reverse n1 h1) (rootForm_reverse n2 h2) hr
  refine ⟨String.ext (List.reverse_injective hsplit.2), ?_⟩
  exact Itoa_injective t1 t2 (String.ext (List.reverse_injective hsplit.1))

theorem recKey_injective_witness :
    recKey (appendRoot "zone") RecordType.SOA = "zone.6" ∧
    (appendRoot "zone" = appendRoot "zone." ∧ RecordType.SOA = 6) :=
  ⟨rfl, recKey_injective (appendRoot "zone") (appendRoot "zone.") RecordType.SOA 6
    (appendRoot_rootForm "zone") (appendRoot_rootForm "zone.") rfl⟩

end Nns
